import Mathlib

/-!
# Detective Quest: clue store, suspect index, exploration and verdict

A shallow embedding of the three C programs of the repository
(`detective-quest_novato.c`, `detective-quest_aventureiro.c`,
`detective-quest_mestre.c`) and theorems about them.

Modelling conventions

* A C string is the list of its bytes before the terminating NUL (`CStr`).
  String literals of the (UTF-8 encoded) sources are written with `cstr`.
* Pointers to heap nodes become inductive trees and chains; `NULL` is the
  constructor `nil`.  In-place updates of a node return the rebuilt node.
* The fixed buffers (`char pista[100]`, `char suspeito[50]`, `char nome[50]`)
  are assumed large enough for the texts copied into them with `strcpy`; a
  longer text is undefined behaviour in C and is outside the model.
* `malloc` is assumed to succeed (on failure the programs call `exit(1)`).
* `unsigned int` is 32 bits wide and wraps modulo `2 ^ 32`; `int` counters are
  unbounded integers (they would need `2 ^ 31` clues to overflow).
* Standard input is a list of bytes.  The exploration loops take the list of
  characters delivered by the successive `scanf(" %c", &escolha)` calls and
  stop, reporting the state reached, when that list is used up.
-/

namespace DetectiveQuest

/-! ## C strings -/

/-- Bytes of a NUL-terminated C string, terminator excluded. -/
abbrev CStr := List Nat

/-- UTF-8 bytes of one character of a source string literal. -/
def utf8 (c : Char) : List Nat :=
  let n := c.toNat
  if n < 128 then [n]
  else if n < 2048 then [192 + n / 64, 128 + n % 64]
  else if n < 65536 then [224 + n / 4096, 128 + n / 64 % 64, 128 + n % 64]
  else [240 + n / 262144, 128 + n / 4096 % 64, 128 + n / 64 % 64, 128 + n % 64]

/-- Bytes of a string literal as the compiler stores it (UTF-8). -/
def cstr (s : String) : CStr := s.toList.flatMap utf8

/-- Sign of `strcmp(s1, s2)`: bytes are compared as unsigned values and the
end of a string is smaller than any byte.  The programs only test the sign. -/
def strcmp : CStr → CStr → Int
  | [], [] => 0
  | [], _ :: _ => -1
  | _ :: _, [] => 1
  | a :: s1, b :: s2 => if a < b then -1 else if b < a then 1 else strcmp s1 s2

/-- Number of bytes before the terminator, as `strlen`. -/
def strlen (s : CStr) : Nat := s.length

/-! ## ClueStore: the binary search tree of clues (aventureiro, mestre) -/

/-- Node of the clue tree, `struct PistaNode`; `nil` is the `NULL` pointer. -/
inductive PistaNode where
  | nil : PistaNode
  | node (pista : CStr) (esquerda : PistaNode) (direita : PistaNode) : PistaNode
  deriving DecidableEq, Repr

/-- Insertion into the clue tree, `inserirPista` (the function has the same
text in `detective-quest_aventureiro.c` and `detective-quest_mestre.c`). -/
def inserirPista : PistaNode → CStr → PistaNode
  | .nil, pista => .node pista .nil .nil
  | .node chave esquerda direita, pista =>
    let comparacao := strcmp pista chave
    if comparacao < 0 then
      .node chave (inserirPista esquerda pista) direita
    else if comparacao > 0 then
      .node chave esquerda (inserirPista direita pista)
    else
      .node chave esquerda direita

/-- The clues printed by `exibirPistas`, in printing order (left subtree, node,
right subtree). -/
def exibirPistas : PistaNode → List CStr
  | .nil => []
  | .node pista esquerda direita => exibirPistas esquerda ++ pista :: exibirPistas direita

/-- Number of allocated nodes of a clue tree. -/
def numNos : PistaNode → Nat
  | .nil => 0
  | .node _ esquerda direita => numNos esquerda + 1 + numNos direita

/-- The search-tree ordering: at every node the keys of the left subtree compare
below the node's key and the keys of the right subtree above it. -/
def ordenada : PistaNode → Prop
  | .nil => True
  | .node pista esquerda direita =>
    (∀ x ∈ exibirPistas esquerda, strcmp x pista < 0) ∧
    (∀ x ∈ exibirPistas direita, strcmp pista x < 0) ∧
    ordenada esquerda ∧ ordenada direita

/-- The search-tree ordering can be checked by evaluation. -/
instance decOrdenada : (t : PistaNode) → Decidable (ordenada t)
  | .nil => isTrue trivial
  | .node pista esquerda direita =>
    haveI := decOrdenada esquerda
    haveI := decOrdenada direita
    inferInstanceAs (Decidable
      ((∀ x ∈ exibirPistas esquerda, strcmp x pista < 0) ∧
       (∀ x ∈ exibirPistas direita, strcmp pista x < 0) ∧
       ordenada esquerda ∧ ordenada direita))

/-- The clue tree after a sequence of insertions into `raiz`. -/
def inserirTodas (raiz : PistaNode) (pistas : List CStr) : PistaNode :=
  pistas.foldl inserirPista raiz

/-! ## SuspectIndex: the chained hash table (mestre) -/

/-- Number of buckets, `#define TAMANHO_HASH 20`. -/
def TAMANHO_HASH : Nat := 20

/-- Chain of `struct HashNode` cells linked by `proximo`; `nil` is `NULL`. -/
inductive HashNode where
  | nil : HashNode
  | node (pista : CStr) (suspeito : CStr) (proximo : HashNode) : HashNode
  deriving DecidableEq, Repr

/-- The table `struct TabelaHash`: its array of `TAMANHO_HASH` chain heads. -/
structure TabelaHash where
  tabela : List HashNode
  deriving DecidableEq, Repr

/-- Value of a `char` holding byte `c` once converted to `unsigned int`
(`char` is signed, as on x86: bytes from 128 up are negative and wrap). -/
def charParaUnsigned (c : Nat) : Nat :=
  if c < 128 then c else c + 2 ^ 32 - 256

/-- The `while (*chave)` loop of `funcaoHash` with the accumulator `hash`. -/
def funcaoHashLaco : Nat → CStr → Nat
  | hash, [] => hash
  | hash, c :: chave => funcaoHashLaco ((hash * 31 + charParaUnsigned c) % 2 ^ 32) chave

/-- Bucket index of a key, `funcaoHash`. -/
def funcaoHash (chave : CStr) : Nat :=
  funcaoHashLaco 0 chave % TAMANHO_HASH

/-- Table with every bucket `NULL`, as left by `inicializarHash`. -/
def inicializarHash : TabelaHash :=
  ⟨List.replicate TAMANHO_HASH HashNode.nil⟩

/-- Head insertion of a new cell into the bucket of `pista`, `inserirNaHash`. -/
def inserirNaHash (hash : TabelaHash) (pista suspeito : CStr) : TabelaHash :=
  let indice := funcaoHash pista
  let novoNo := HashNode.node pista suspeito (hash.tabela.getD indice HashNode.nil)
  ⟨hash.tabela.set indice novoNo⟩

/-- The `while (atual != NULL)` scan of `encontrarSuspeito` from cell `atual`. -/
def encontrarSuspeitoLaco : HashNode → CStr → Option CStr
  | .nil, _ => none
  | .node chave suspeito proximo, pista =>
    if strcmp chave pista = 0 then some suspeito
    else encontrarSuspeitoLaco proximo pista

/-- Lookup of the suspect of a clue, `encontrarSuspeito`; `none` is `NULL`. -/
def encontrarSuspeito (hash : TabelaHash) (pista : CStr) : Option CStr :=
  let indice := funcaoHash pista
  encontrarSuspeitoLaco (hash.tabela.getD indice HashNode.nil) pista

/-- The table after a sequence of `inserirNaHash (pista, suspeito)` calls. -/
def inserirTodasNaHash (hash : TabelaHash) (pares : List (CStr × CStr)) : TabelaHash :=
  pares.foldl (fun h par => inserirNaHash h par.1 par.2) hash

/-! ## Verdict (mestre) -/

/-- Number of clues of the tree whose suspect is `suspeitoAlvo`,
`contarPistasPorSuspeito` (node first, then left and right subtrees). -/
def contarPistasPorSuspeito : PistaNode → TabelaHash → CStr → Int
  | .nil, _, _ => 0
  | .node pista esquerda direita, hash, suspeitoAlvo =>
    let contador : Int :=
      match encontrarSuspeito hash pista with
      | some suspeito => if strcmp suspeito suspeitoAlvo = 0 then 1 else 0
      | none => 0
    contador + contarPistasPorSuspeito esquerda hash suspeitoAlvo
      + contarPistasPorSuspeito direita hash suspeitoAlvo

/-- The four outcomes printed by `verificarSuspeitoFinal`. -/
inductive Veredito where
  | semPistas
  | casoResolvido
  | evidenciasInsuficientes
  | acusacaoIncorreta
  deriving DecidableEq, Repr

/-- Bytes stored by `fgets` when `n` more bytes fit, and the input left: it
stops after a newline (byte 10), at the end of input, or when the buffer is
full.  At the end of input with nothing read C leaves the buffer as it was;
the model takes the empty text. -/
def fgets : Nat → List Nat → List Nat × List Nat
  | 0, entrada => ([], entrada)
  | _ + 1, [] => ([], [])
  | n + 1, c :: entrada =>
    if c = 10 then ([c], entrada)
    else ((c :: (fgets n entrada).1), (fgets n entrada).2)

/-- Reading of the accused name in `verificarSuspeitoFinal`: `getchar()` drops
one byte, `fgets(acusado, 50, stdin)` reads a line and the text is cut at its
first newline (`acusado[strcspn(acusado, "\n")] = 0`). -/
def lerAcusado (entrada : List Nat) : CStr × List Nat :=
  let lido := fgets 49 (entrada.drop 1)
  (((lido.1.takeWhile (fun c => c ≠ 0)).takeWhile (fun c => c ≠ 10)), lido.2)

/-- What a call of `verificarSuspeitoFinal` did: the outcome printed, the name
read and the count computed (`none` when the call did not get there), and the
standard input left unread. -/
structure Julgamento where
  veredito : Veredito
  acusado : Option CStr
  quantidadePistas : Option Int
  entrada : List Nat
  deriving DecidableEq, Repr

/-- The final judgement, `verificarSuspeitoFinal`, on standard input `entrada`. -/
def verificarSuspeitoFinal (arvorePistas : PistaNode) (hash : TabelaHash)
    (entrada : List Nat) : Julgamento :=
  match arvorePistas with
  | .nil => ⟨Veredito.semPistas, none, none, entrada⟩
  | .node _ _ _ =>
    let acusado := (lerAcusado entrada).1
    let quantidadePistas := contarPistasPorSuspeito arvorePistas hash acusado
    if quantidadePistas ≥ 2 then
      ⟨Veredito.casoResolvido, some acusado, some quantidadePistas, (lerAcusado entrada).2⟩
    else if quantidadePistas = 1 then
      ⟨Veredito.evidenciasInsuficientes, some acusado, some quantidadePistas,
        (lerAcusado entrada).2⟩
    else
      ⟨Veredito.acusacaoIncorreta, some acusado, some quantidadePistas,
        (lerAcusado entrada).2⟩

/-! ## Exploration of the mansion (mestre) -/

namespace Mestre

/-- Room of the mansion, `struct Sala` of `detective-quest_mestre.c`; `nil` is
the `NULL` pointer. -/
inductive Sala where
  | nil : Sala
  | node (nome : CStr) (esquerda : Sala) (direita : Sala) : Sala
  deriving DecidableEq, Repr

/-- Name stored in a room (empty for `NULL`, which the loop never reads). -/
def Sala.nomeDe : Sala → CStr
  | .nil => []
  | .node nome _ _ => nome

/-- The static table room name -> clue, `obterPistaDaSala`. -/
def obterPistaDaSala (nomeSala : CStr) : CStr :=
  if strcmp nomeSala (cstr "Hall de Entrada") = 0 then
    cstr "Pegadas molhadas no tapete"
  else if strcmp nomeSala (cstr "Cozinha") = 0 then
    cstr "Faca desaparecida do bloco"
  else if strcmp nomeSala (cstr "Biblioteca") = 0 then
    cstr "Livro aberto sobre venenos"
  else if strcmp nomeSala (cstr "Despensa") = 0 then
    cstr "Frasco vazio de arsenico"
  else if strcmp nomeSala (cstr "Sala Secreta") = 0 then
    cstr "Documento queimado parcialmente"
  else if strcmp nomeSala (cstr "Sala de Leitura") = 0 then
    cstr "Carta ameacadora escondida"
  else if strcmp nomeSala (cstr "Cofre") = 0 then
    cstr "Testamento adulterado"
  else if strcmp nomeSala (cstr "Estufa") = 0 then
    cstr "Planta venenosa cultivada"
  else
    cstr ""

/-- State of the exploration loop when it stops: the current room, the clue
tree, the counter `pistasTotais`, whether the loop was left through `break`
(command S), the commands not consumed, and the rooms at which the loop body
ran (the locations printed), in order. -/
structure Exploracao where
  salaAtual : Sala
  arvorePistas : PistaNode
  pistasTotais : Int
  finalizou : Bool
  resto : List Char
  visitadas : List Sala
  deriving DecidableEq, Repr

/-- Records that the loop body ran at room `sala` before the run `r`. -/
def Exploracao.apos (sala : Sala) (r : Exploracao) : Exploracao :=
  { r with visitadas := sala :: r.visitadas }

/-- The `while (salaAtual != NULL)` loop of `explorarSalas`, entered with the
current room, the clue tree, the value of `pistasTotais` and the characters
that the `scanf` calls will deliver. -/
def explorarSalasLaco : Sala → PistaNode → Int → List Char → Exploracao
  | .nil, arvorePistas, pistasTotais, comandos =>
    ⟨.nil, arvorePistas, pistasTotais, false, comandos, []⟩
  | .node nome esquerda direita, arvorePistas, pistasTotais, comandos =>
    let pista := obterPistaDaSala nome
    let arvore := if strlen pista > 0 then inserirPista arvorePistas pista else arvorePistas
    let totais := if strlen pista > 0 then pistasTotais + 1 else pistasTotais
    match comandos with
    | [] => ⟨.node nome esquerda direita, arvore, totais, false, [], [.node nome esquerda direita]⟩
    | escolha :: resto =>
      if escolha = 'e' ∨ escolha = 'E' then
        if esquerda ≠ .nil then
          (explorarSalasLaco esquerda arvore totais resto).apos (.node nome esquerda direita)
        else
          (explorarSalasLaco (.node nome esquerda direita) arvore totais resto).apos
            (.node nome esquerda direita)
      else if escolha = 'd' ∨ escolha = 'D' then
        if direita ≠ .nil then
          (explorarSalasLaco direita arvore totais resto).apos (.node nome esquerda direita)
        else
          (explorarSalasLaco (.node nome esquerda direita) arvore totais resto).apos
            (.node nome esquerda direita)
      else if escolha = 's' ∨ escolha = 'S' then
        ⟨.node nome esquerda direita, arvore, totais, true, resto, [.node nome esquerda direita]⟩
      else
        (explorarSalasLaco (.node nome esquerda direita) arvore totais resto).apos
          (.node nome esquerda direita)
termination_by structural _ _ _ comandos => comandos

/-- The exploration `explorarSalas(salaAtual, &arvorePistas)`: the loop started
with `pistasTotais = 0`. -/
def explorarSalas (salaAtual : Sala) (arvorePistas : PistaNode) (comandos : List Char) :
    Exploracao :=
  explorarSalasLaco salaAtual arvorePistas 0 comandos

/-- The suspect index populated by `main`. -/
def mainHash : TabelaHash :=
  let hash := inicializarHash
  let hash := inserirNaHash hash (cstr "Pegadas molhadas no tapete") (cstr "Jardineiro")
  let hash := inserirNaHash hash (cstr "Faca desaparecida do bloco") (cstr "Cozinheiro")
  let hash := inserirNaHash hash (cstr "Livro aberto sobre venenos") (cstr "Mordomo")
  let hash := inserirNaHash hash (cstr "Frasco vazio de arsenico") (cstr "Mordomo")
  let hash := inserirNaHash hash (cstr "Documento queimado parcialmente") (cstr "Advogado")
  let hash := inserirNaHash hash (cstr "Carta ameacadora escondida") (cstr "Advogado")
  let hash := inserirNaHash hash (cstr "Testamento adulterado") (cstr "Advogado")
  let hash := inserirNaHash hash (cstr "Planta venenosa cultivada") (cstr "Jardineiro")
  hash

/-- The mansion built by `main`, rooted at the hall. -/
def mainHall : Sala :=
  let salaSecreta := Sala.node (cstr "Sala Secreta") .nil .nil
  let salaLeitura := Sala.node (cstr "Sala de Leitura") .nil .nil
  let cofre := Sala.node (cstr "Cofre") .nil .nil
  let estufa := Sala.node (cstr "Estufa") .nil .nil
  let biblioteca := Sala.node (cstr "Biblioteca") salaSecreta salaLeitura
  let escritorio := Sala.node (cstr "Escritorio") cofre .nil
  let despensa := Sala.node (cstr "Despensa") .nil .nil
  let jardim := Sala.node (cstr "Jardim") .nil estufa
  let salaEstar := Sala.node (cstr "Sala de Estar") biblioteca escritorio
  let cozinha := Sala.node (cstr "Cozinha") despensa jardim
  Sala.node (cstr "Hall de Entrada") salaEstar cozinha

/-- Names of the rooms of a mansion, the root first. -/
def nomesDasSalas : Sala → List CStr
  | .nil => []
  | .node nome esquerda direita => nome :: (nomesDasSalas esquerda ++ nomesDasSalas direita)

/-- The clues of the clue-bearing rooms of the mansion of `main`. -/
def pistasDaMansao : List CStr :=
  ((nomesDasSalas mainHall).map obterPistaDaSala).filter (fun pista => strlen pista > 0)

end Mestre

/-! ## Exploration of the mansion (aventureiro) -/

namespace Aventureiro

/-- Room of the mansion, `struct Sala` of `detective-quest_aventureiro.c`, which
stores the clue of the room in the field `pista`; `nil` is `NULL`. -/
inductive Sala where
  | nil : Sala
  | node (nome : CStr) (pista : CStr) (esquerda : Sala) (direita : Sala) : Sala
  deriving DecidableEq, Repr

/-- Clue stored in a room (empty for `NULL`, which the loop never reads). -/
def Sala.pistaDe : Sala → CStr
  | .nil => []
  | .node _ pista _ _ => pista

/-- State of the exploration loop when it stops (as for mestre). -/
structure Exploracao where
  salaAtual : Sala
  arvorePistas : PistaNode
  pistasTotais : Int
  finalizou : Bool
  resto : List Char
  visitadas : List Sala
  deriving DecidableEq, Repr

/-- Records that the loop body ran at room `sala` before the run `r`. -/
def Exploracao.apos (sala : Sala) (r : Exploracao) : Exploracao :=
  { r with visitadas := sala :: r.visitadas }

/-- The `while (salaAtual != NULL)` loop of `explorarSalasComPistas`. -/
def explorarSalasComPistasLaco : Sala → PistaNode → Int → List Char → Exploracao
  | .nil, arvorePistas, pistasTotais, comandos =>
    ⟨.nil, arvorePistas, pistasTotais, false, comandos, []⟩
  | .node nome pista esquerda direita, arvorePistas, pistasTotais, comandos =>
    let arvore := if strlen pista > 0 then inserirPista arvorePistas pista else arvorePistas
    let totais := if strlen pista > 0 then pistasTotais + 1 else pistasTotais
    match comandos with
    | [] =>
      ⟨.node nome pista esquerda direita, arvore, totais, false, [],
        [.node nome pista esquerda direita]⟩
    | escolha :: resto =>
      if escolha = 'e' ∨ escolha = 'E' then
        if esquerda ≠ .nil then
          (explorarSalasComPistasLaco esquerda arvore totais resto).apos
            (.node nome pista esquerda direita)
        else
          (explorarSalasComPistasLaco (.node nome pista esquerda direita) arvore totais
            resto).apos (.node nome pista esquerda direita)
      else if escolha = 'd' ∨ escolha = 'D' then
        if direita ≠ .nil then
          (explorarSalasComPistasLaco direita arvore totais resto).apos
            (.node nome pista esquerda direita)
        else
          (explorarSalasComPistasLaco (.node nome pista esquerda direita) arvore totais
            resto).apos (.node nome pista esquerda direita)
      else if escolha = 's' ∨ escolha = 'S' then
        ⟨.node nome pista esquerda direita, arvore, totais, true, resto,
          [.node nome pista esquerda direita]⟩
      else
        (explorarSalasComPistasLaco (.node nome pista esquerda direita) arvore totais
          resto).apos (.node nome pista esquerda direita)
termination_by structural _ _ _ comandos => comandos

/-- The exploration `explorarSalasComPistas(salaAtual, &arvorePistas)`: the loop
started with `pistasTotais = 0`. -/
def explorarSalasComPistas (salaAtual : Sala) (arvorePistas : PistaNode)
    (comandos : List Char) : Exploracao :=
  explorarSalasComPistasLaco salaAtual arvorePistas 0 comandos

end Aventureiro

/-! ## Exploration of the mansion (novato) -/

namespace Novato

/-- Room of the mansion, `struct Sala` of `detective-quest_novato.c`; `nil` is
the `NULL` pointer. -/
inductive Sala where
  | nil : Sala
  | node (nome : CStr) (esquerda : Sala) (direita : Sala) : Sala
  deriving DecidableEq, Repr

/-- Name stored in a room (empty for `NULL`, which the loop never reads). -/
def Sala.nomeDe : Sala → CStr
  | .nil => []
  | .node nome _ _ => nome

/-- State of the exploration loop when it stops: the current room, whether the
loop was left through a `break` (a room without exits was reached, or command
S), the commands not consumed, and the rooms at which the loop body ran (the
locations printed), in order. -/
structure Exploracao where
  salaAtual : Sala
  finalizou : Bool
  resto : List Char
  visitadas : List Sala
  deriving DecidableEq, Repr

/-- Records that the loop body ran at room `sala` before the run `r`. -/
def Exploracao.apos (sala : Sala) (r : Exploracao) : Exploracao :=
  { r with visitadas := sala :: r.visitadas }

/-- The exploration `explorarSalas(salaAtual)` of novato: its
`while (salaAtual != NULL)` loop, on the characters that the `scanf` calls
will deliver. -/
def explorarSalas : Sala → List Char → Exploracao
  | .nil, comandos => ⟨.nil, false, comandos, []⟩
  | .node nome esquerda direita, comandos =>
    if esquerda = .nil ∧ direita = .nil then
      ⟨.node nome esquerda direita, true, comandos, [.node nome esquerda direita]⟩
    else
      match comandos with
      | [] => ⟨.node nome esquerda direita, false, [], [.node nome esquerda direita]⟩
      | escolha :: resto =>
        if escolha = 'e' ∨ escolha = 'E' then
          if esquerda ≠ .nil then
            (explorarSalas esquerda resto).apos (.node nome esquerda direita)
          else
            (explorarSalas (.node nome esquerda direita) resto).apos
              (.node nome esquerda direita)
        else if escolha = 'd' ∨ escolha = 'D' then
          if direita ≠ .nil then
            (explorarSalas direita resto).apos (.node nome esquerda direita)
          else
            (explorarSalas (.node nome esquerda direita) resto).apos
              (.node nome esquerda direita)
        else if escolha = 's' ∨ escolha = 'S' then
          ⟨.node nome esquerda direita, true, resto, [.node nome esquerda direita]⟩
        else
          (explorarSalas (.node nome esquerda direita) resto).apos
            (.node nome esquerda direita)
termination_by structural _ comandos => comandos

/-- The mansion built by `main` of novato, rooted at the hall. -/
def mainHall : Sala :=
  let salaSecreta := Sala.node (cstr "Sala Secreta") .nil .nil
  let salaLeitura := Sala.node (cstr "Sala de Leitura") .nil .nil
  let cofre := Sala.node (cstr "Cofre") .nil .nil
  let estufa := Sala.node (cstr "Estufa") .nil .nil
  let biblioteca := Sala.node (cstr "Biblioteca") salaSecreta salaLeitura
  let escritorio := Sala.node (cstr "Escritório") cofre .nil
  let despensa := Sala.node (cstr "Despensa") .nil .nil
  let jardim := Sala.node (cstr "Jardim") .nil estufa
  let salaEstar := Sala.node (cstr "Sala de Estar") biblioteca escritorio
  let cozinha := Sala.node (cstr "Cozinha") despensa jardim
  Sala.node (cstr "Hall de Entrada") salaEstar cozinha

end Novato

namespace Aventureiro

/-- Name stored in a room (empty for `NULL`, which the loop never reads). -/
def Sala.nomeDe : Sala → CStr
  | .nil => []
  | .node nome _ _ _ => nome

/-- The mansion built by `main` of aventureiro, rooted at the hall. -/
def mainHall : Sala :=
  let salaSecreta := Sala.node (cstr "Sala Secreta") (cstr "Documento queimado parcialmente")
    .nil .nil
  let salaLeitura := Sala.node (cstr "Sala de Leitura") (cstr "Carta ameaçadora escondida")
    .nil .nil
  let cofre := Sala.node (cstr "Cofre") (cstr "Testamento adulterado") .nil .nil
  let estufa := Sala.node (cstr "Estufa") (cstr "Planta venenosa cultivada") .nil .nil
  let biblioteca := Sala.node (cstr "Biblioteca") (cstr "Livro aberto sobre venenos")
    salaSecreta salaLeitura
  let escritorio := Sala.node (cstr "Escritório") (cstr "") cofre .nil
  let despensa := Sala.node (cstr "Despensa") (cstr "Frasco vazio de arsênico") .nil .nil
  let jardim := Sala.node (cstr "Jardim") (cstr "") .nil estufa
  let salaEstar := Sala.node (cstr "Sala de Estar") (cstr "") biblioteca escritorio
  let cozinha := Sala.node (cstr "Cozinha") (cstr "Faca desaparecida do bloco") despensa jardim
  Sala.node (cstr "Hall de Entrada") (cstr "Pegadas molhadas no tapete") salaEstar cozinha

end Aventureiro

/-! ## Vocabulary for the paths of a run -/

/-- Number of places where two consecutive entries of a list differ: the
location changes of a run, counted on its list of visited rooms. -/
def mudancas {α : Type} [DecidableEq α] : List α → Nat
  | [] => 0
  | [_] => 0
  | a :: b :: l => (if a = b then 0 else 1) + mudancas (b :: l)

namespace Mestre

/-- The rooms a room leads to (its non-`NULL` children). -/
def Sala.filhas : Sala → List Sala
  | .nil => []
  | .node _ esquerda direita => [esquerda, direita].filter (fun s => s ≠ .nil)

/-- Number of rooms on the longest way down from a room. -/
def Sala.niveis : Sala → Nat
  | .nil => 0
  | .node _ esquerda direita => 1 + max esquerda.niveis direita.niveis

/-- Height of a mansion: number of moves on the longest way down from its root. -/
def Sala.altura (s : Sala) : Nat := s.niveis - 1

/-- The ways down from a room to a room without exits, each as the list of the
rooms on it, the room itself first. -/
def Sala.ramos : Sala → List (List Sala)
  | .nil => []
  | .node nome esquerda direita =>
    if esquerda = .nil ∧ direita = .nil then [[.node nome esquerda direita]]
    else (esquerda.ramos ++ direita.ramos).map (fun r => .node nome esquerda direita :: r)

end Mestre

namespace Aventureiro

/-- The rooms a room leads to (its non-`NULL` children). -/
def Sala.filhas : Sala → List Sala
  | .nil => []
  | .node _ _ esquerda direita => [esquerda, direita].filter (fun s => s ≠ .nil)

/-- Number of rooms on the longest way down from a room. -/
def Sala.niveis : Sala → Nat
  | .nil => 0
  | .node _ _ esquerda direita => 1 + max esquerda.niveis direita.niveis

/-- Height of a mansion: number of moves on the longest way down from its root. -/
def Sala.altura (s : Sala) : Nat := s.niveis - 1

/-- The ways down from a room to a room without exits, each as the list of the
rooms on it, the room itself first. -/
def Sala.ramos : Sala → List (List Sala)
  | .nil => []
  | .node nome pista esquerda direita =>
    if esquerda = .nil ∧ direita = .nil then [[.node nome pista esquerda direita]]
    else (esquerda.ramos ++ direita.ramos).map
      (fun r => .node nome pista esquerda direita :: r)

end Aventureiro

namespace Novato

/-- The rooms a room leads to (its non-`NULL` children). -/
def Sala.filhas : Sala → List Sala
  | .nil => []
  | .node _ esquerda direita => [esquerda, direita].filter (fun s => s ≠ .nil)

/-- Number of rooms on the longest way down from a room. -/
def Sala.niveis : Sala → Nat
  | .nil => 0
  | .node _ esquerda direita => 1 + max esquerda.niveis direita.niveis

/-- Height of a mansion: number of moves on the longest way down from its root. -/
def Sala.altura (s : Sala) : Nat := s.niveis - 1

/-- The ways down from a room to a room without exits, each as the list of the
rooms on it, the room itself first. -/
def Sala.ramos : Sala → List (List Sala)
  | .nil => []
  | .node nome esquerda direita =>
    if esquerda = .nil ∧ direita = .nil then [[.node nome esquerda direita]]
    else (esquerda.ramos ++ direita.ramos).map (fun r => .node nome esquerda direita :: r)

end Novato

/-! ## The hash function as the specification words it -/

/-- The value `hashValue * 31 + byteValue`, taken over the bytes of the key in
order from 0, in exact (unbounded) integer arithmetic. -/
def polinomio31 (chave : CStr) : Nat :=
  chave.foldl (fun hashValue byteValue => hashValue * 31 + byteValue) 0

/-- Bucket index of a key as the specification words it: the exact value of
`hashValue * 31 + byteValue` over the bytes, reduced modulo the bucket count. -/
def hashEspecificado (chave : CStr) : Nat :=
  polinomio31 chave % 20

/-- The hash accumulator as 32-bit unsigned arithmetic describes it: from 0,
`h := (h * 31 + byte) mod 2 ^ 32` for each byte of the key in order. -/
def hash32 (chave : CStr) : Nat :=
  chave.foldl (fun h byte => (h * 31 + byte) % 2 ^ 32) 0

/-- The exact polynomial of a key of `n` bytes: the sum of
`byte_i * 31 ^ (n - 1 - i)`. -/
def polinomioSoma : CStr → Nat
  | [] => 0
  | byte :: resto => byte * 31 ^ resto.length + polinomioSoma resto

/-! ## Vocabulary for the suspect index -/

/-- The (clue, suspect) entries of a chain, from its head cell on. -/
def HashNode.entradas : HashNode → List (CStr × CStr)
  | .nil => []
  | .node pista suspeito proximo => (pista, suspeito) :: proximo.entradas

namespace Mestre

/-- The arguments of the eight `inserirNaHash` calls of `main`, in order. -/
def mainPares : List (CStr × CStr) :=
  [(cstr "Pegadas molhadas no tapete", cstr "Jardineiro"),
   (cstr "Faca desaparecida do bloco", cstr "Cozinheiro"),
   (cstr "Livro aberto sobre venenos", cstr "Mordomo"),
   (cstr "Frasco vazio de arsenico", cstr "Mordomo"),
   (cstr "Documento queimado parcialmente", cstr "Advogado"),
   (cstr "Carta ameacadora escondida", cstr "Advogado"),
   (cstr "Testamento adulterado", cstr "Advogado"),
   (cstr "Planta venenosa cultivada", cstr "Jardineiro")]

end Mestre

/-! ## Vocabulary for comparing aventureiro with mestre -/

namespace Aventureiro

/-- The mansion of mestre with the same rooms: the field `pista` is dropped. -/
def Sala.paraMestre : Sala → Mestre.Sala
  | .nil => .nil
  | .node nome _ esquerda direita => .node nome esquerda.paraMestre direita.paraMestre

/-- Every room of the mansion stores in `pista` the clue that the table
`obterPistaDaSala` of mestre gives for its name. -/
def Sala.coerente : Sala → Prop
  | .nil => True
  | .node nome pista esquerda direita =>
    pista = Mestre.obterPistaDaSala nome ∧ esquerda.coerente ∧ direita.coerente

/-- Coherence with the table of mestre can be checked by evaluation. -/
instance decCoerente : (s : Sala) → Decidable s.coerente
  | .nil => isTrue trivial
  | .node nome pista esquerda direita =>
    haveI := decCoerente esquerda
    haveI := decCoerente direita
    inferInstanceAs (Decidable
      (pista = Mestre.obterPistaDaSala nome ∧ esquerda.coerente ∧ direita.coerente))

/-- The final state of a run of aventureiro read as a state of mestre. -/
def Exploracao.paraMestre (r : Exploracao) : Mestre.Exploracao :=
  ⟨r.salaAtual.paraMestre, r.arvorePistas, r.pistasTotais, r.finalizou, r.resto,
    r.visitadas.map Sala.paraMestre⟩

end Aventureiro

/-! ## Facts about `strcmp` -/

theorem strcmp_self (a : CStr) : strcmp a a = 0 := by
  induction a with
  | nil => rfl
  | cons x s ih => simp [strcmp, ih]

theorem strcmp_eq_zero_iff (a b : CStr) : strcmp a b = 0 ↔ a = b := by
  induction a generalizing b with
  | nil => cases b <;> simp [strcmp]
  | cons x s ih =>
    cases b with
    | nil => simp [strcmp]
    | cons y s2 =>
      simp only [strcmp, List.cons.injEq]
      split_ifs with h1 h2
      · constructor
        · intro h; exact absurd h (by decide)
        · rintro ⟨rfl, -⟩; omega
      · constructor
        · intro h; exact absurd h (by decide)
        · rintro ⟨rfl, -⟩; omega
      · have hxy : x = y := by omega
        simp [hxy, ih]

theorem strcmp_pos_iff (a b : CStr) : 0 < strcmp a b ↔ strcmp b a < 0 := by
  induction a generalizing b with
  | nil => cases b <;> simp [strcmp]
  | cons x s ih =>
    cases b with
    | nil => simp [strcmp]
    | cons y s2 =>
      simp only [strcmp]
      split_ifs <;> first | omega | exact ih s2

theorem strcmp_trans (a b c : CStr) (h1 : strcmp a b < 0) (h2 : strcmp b c < 0) :
    strcmp a c < 0 := by
  induction a generalizing b c with
  | nil =>
    cases c with
    | nil => cases b <;> simp [strcmp] at h1 h2
    | cons z s3 => simp [strcmp]
  | cons x s ih =>
    cases b with
    | nil => simp [strcmp] at h1
    | cons y s2 =>
      cases c with
      | nil => simp [strcmp] at h2
      | cons z s3 =>
        simp only [strcmp] at h1 h2 ⊢
        split_ifs at h1 h2 ⊢ <;> first | omega | exact ih s2 s3 h1 h2

theorem strcmp_irrefl (a : CStr) : ¬ strcmp a a < 0 := by
  simp [strcmp_self]

/-! ## The clue tree -/

theorem mem_exibirPistas_inserirPista (t : PistaNode) (k x : CStr) :
    x ∈ exibirPistas (inserirPista t k) ↔ x ∈ exibirPistas t ∨ x = k := by
  induction t with
  | nil => simp [inserirPista, exibirPistas]
  | node chave esquerda direita ihe ihd =>
    simp only [inserirPista]
    split_ifs with h1 h2
    · simp only [exibirPistas, List.mem_append, List.mem_cons, ihe]; tauto
    · simp only [exibirPistas, List.mem_append, List.mem_cons, ihd]; tauto
    · have h0 : strcmp k chave = 0 := by omega
      have hk : k = chave := (strcmp_eq_zero_iff k chave).1 h0
      simp only [exibirPistas, List.mem_append, List.mem_cons, hk]; tauto

theorem ordenada_inserirPista (t : PistaNode) (k : CStr) (h : ordenada t) :
    ordenada (inserirPista t k) := by
  induction t with
  | nil => simp [inserirPista, ordenada, exibirPistas]
  | node chave esquerda direita ihe ihd =>
    obtain ⟨hl, hr, he, hd⟩ := h
    simp only [inserirPista]
    split_ifs with h1 h2
    · refine ⟨?_, hr, ihe he, hd⟩
      intro x hx
      rcases (mem_exibirPistas_inserirPista esquerda k x).1 hx with hx | rfl
      · exact hl x hx
      · exact h1
    · refine ⟨hl, ?_, he, ihd hd⟩
      intro x hx
      rcases (mem_exibirPistas_inserirPista direita k x).1 hx with hx | rfl
      · exact hr x hx
      · exact (strcmp_pos_iff _ _).1 h2
    · exact ⟨hl, hr, he, hd⟩

theorem ordenada_inserirTodas (t : PistaNode) (pistas : List CStr) (h : ordenada t) :
    ordenada (inserirTodas t pistas) := by
  induction pistas generalizing t with
  | nil => exact h
  | cons k ks ih => exact ih (inserirPista t k) (ordenada_inserirPista t k h)

theorem mem_exibirPistas_inserirTodas (t : PistaNode) (pistas : List CStr) (x : CStr) :
    x ∈ exibirPistas (inserirTodas t pistas) ↔ x ∈ exibirPistas t ∨ x ∈ pistas := by
  induction pistas generalizing t with
  | nil => simp [inserirTodas]
  | cons k ks ih =>
    have h := ih (inserirPista t k)
    simp only [inserirTodas, List.foldl_cons] at h ⊢
    rw [h, mem_exibirPistas_inserirPista, List.mem_cons]
    tauto

theorem pairwise_exibirPistas (t : PistaNode) (h : ordenada t) :
    (exibirPistas t).Pairwise (fun a b => strcmp a b < 0) := by
  induction t with
  | nil => simp [exibirPistas]
  | node chave esquerda direita ihe ihd =>
    obtain ⟨hl, hr, he, hd⟩ := h
    simp only [exibirPistas, List.pairwise_append, List.pairwise_cons, List.mem_cons]
    refine ⟨ihe he, ⟨hr, ihd hd⟩, ?_⟩
    intro a ha b hb
    rcases hb with rfl | hb
    · exact hl a ha
    · exact strcmp_trans a chave b (hl a ha) (hr b hb)

theorem nodup_exibirPistas (t : PistaNode) (h : ordenada t) : (exibirPistas t).Nodup := by
  have hp := pairwise_exibirPistas t h
  refine hp.imp ?_
  intro a b hab heq
  subst heq
  exact strcmp_irrefl a hab

/-- C1: after any sequence of insertions into the empty clue tree, the in-order
enumeration is strictly ascending for `strcmp` and has no repeated clue. -/
theorem exibirPistas_inserirTodas_crescente (pistas : List CStr) :
    (exibirPistas (inserirTodas PistaNode.nil pistas)).Pairwise (fun a b => strcmp a b < 0) ∧
    (exibirPistas (inserirTodas PistaNode.nil pistas)).Nodup :=
  have h : ordenada (inserirTodas PistaNode.nil pistas) :=
    ordenada_inserirTodas PistaNode.nil pistas trivial
  ⟨pairwise_exibirPistas _ h, nodup_exibirPistas _ h⟩

theorem inserirPista_inserirPista (t : PistaNode) (k : CStr) :
    inserirPista (inserirPista t k) k = inserirPista t k := by
  induction t with
  | nil => simp [inserirPista, strcmp_self]
  | node chave esquerda direita ihe ihd =>
    by_cases h1 : strcmp k chave < 0
    · simp [inserirPista, h1, ihe]
    · by_cases h2 : strcmp k chave > 0
      · simp [inserirPista, h1, h2, ihd]
      · simp [inserirPista, h1, h2]

theorem inserirTodas_replicate (t : PistaNode) (k : CStr) (n : Nat) :
    inserirTodas t (List.replicate (n + 1) k) = inserirPista t k := by
  induction n with
  | zero => rfl
  | succ m ih =>
    have h : inserirTodas t (List.replicate (m + 1 + 1) k)
        = inserirTodas (inserirPista t k) (List.replicate (m + 1) k) := rfl
    rw [h]
    have h2 : inserirTodas (inserirPista t k) (List.replicate (m + 1) k)
        = inserirTodas (inserirPista (inserirPista t k) k) (List.replicate m k) := rfl
    rw [h2, inserirPista_inserirPista]
    exact ih

/-- C2: `inserirPista` is idempotent on every clue tree (reachable or not):
inserting `k` again returns the same tree, so inserting it `n + 1` times in a
row gives the same tree, and the same enumeration, as inserting it once. -/
theorem inserirPista_idempotente (t : PistaNode) (k : CStr) (n : Nat) :
    inserirPista (inserirPista t k) k = inserirPista t k ∧
    inserirTodas t (List.replicate (n + 1) k) = inserirPista t k ∧
    exibirPistas (inserirTodas t (List.replicate (n + 1) k)) = exibirPistas (inserirPista t k) :=
  ⟨inserirPista_inserirPista t k, inserirTodas_replicate t k n,
    congrArg exibirPistas (inserirTodas_replicate t k n)⟩

theorem numNos_eq_length (t : PistaNode) : numNos t = (exibirPistas t).length := by
  induction t with
  | nil => rfl
  | node chave esquerda direita ihe ihd =>
    simp [numNos, exibirPistas, ihe, ihd]; omega

theorem numNos_inserirPista (t : PistaNode) (k : CStr) (h : ordenada t) :
    numNos (inserirPista t k) = if k ∈ exibirPistas t then numNos t else numNos t + 1 := by
  induction t with
  | nil => simp [inserirPista, numNos, exibirPistas]
  | node chave esquerda direita ihe ihd =>
    obtain ⟨hl, hr, he, hd⟩ := h
    by_cases h1 : strcmp k chave < 0
    · have hne : k ≠ chave := by
        intro hk
        rw [hk, strcmp_self] at h1
        omega
      have hnd : k ∉ exibirPistas direita := by
        intro hk
        have h2 := (strcmp_pos_iff k chave).2 (hr k hk)
        omega
      have hmem : k ∈ exibirPistas (PistaNode.node chave esquerda direita)
          ↔ k ∈ exibirPistas esquerda := by
        simp only [exibirPistas, List.mem_append, List.mem_cons]; tauto
      simp only [inserirPista, h1, if_true, numNos, ihe he, hmem]
      split_ifs <;> omega
    · by_cases h2 : strcmp k chave > 0
      · have hne : k ≠ chave := by
          intro hk
          rw [hk, strcmp_self] at h2
          omega
        have hnd : k ∉ exibirPistas esquerda := by
          intro hk
          have h3 := hl k hk
          omega
        have hmem : k ∈ exibirPistas (PistaNode.node chave esquerda direita)
            ↔ k ∈ exibirPistas direita := by
          simp only [exibirPistas, List.mem_append, List.mem_cons]; tauto
        simp only [inserirPista, h1, h2, if_true, if_false, numNos, ihd hd, hmem]
        split_ifs <;> omega
      · have h0 : strcmp k chave = 0 := by omega
        have hk : k = chave := (strcmp_eq_zero_iff k chave).1 h0
        have hmem : k ∈ exibirPistas (PistaNode.node chave esquerda direita) := by
          simp [exibirPistas, hk]
        simp only [inserirPista, h1, h2, if_false, hmem, if_true]

/-- C3: on a clue tree that satisfies the search-tree ordering, the keys of
`inserirPista t k` are exactly the keys of `t` together with `k` (every stored
key stays, `k` is stored), and the number of nodes grows by one when `k` was
absent and by zero when it was present. -/
theorem inserirPista_chaves (t : PistaNode) (k : CStr) (h : ordenada t) :
    (∀ x, x ∈ exibirPistas (inserirPista t k) ↔ x ∈ exibirPistas t ∨ x = k) ∧
    (∀ x, x ∈ exibirPistas t → x ∈ exibirPistas (inserirPista t k)) ∧
    k ∈ exibirPistas (inserirPista t k) ∧
    (k ∉ exibirPistas t → numNos (inserirPista t k) = numNos t + 1) ∧
    (k ∈ exibirPistas t → numNos (inserirPista t k) = numNos t) := by
  refine ⟨mem_exibirPistas_inserirPista t k, ?_, ?_, ?_, ?_⟩
  · intro x hx
    exact (mem_exibirPistas_inserirPista t k x).2 (Or.inl hx)
  · exact (mem_exibirPistas_inserirPista t k k).2 (Or.inr rfl)
  · intro hk
    rw [numNos_inserirPista t k h, if_neg hk]
  · intro hk
    rw [numNos_inserirPista t k h, if_pos hk]

/-- Witness of C3 on the tree holding the clues "b" and "d", inserting "c". -/
theorem inserirPista_chaves_witness :
    ordenada (PistaNode.node (cstr "b") PistaNode.nil (PistaNode.node (cstr "d") PistaNode.nil PistaNode.nil)) ∧
    ((∀ x, x ∈ exibirPistas (inserirPista (PistaNode.node (cstr "b") PistaNode.nil
          (PistaNode.node (cstr "d") PistaNode.nil PistaNode.nil)) (cstr "c"))
        ↔ x ∈ exibirPistas (PistaNode.node (cstr "b") PistaNode.nil
          (PistaNode.node (cstr "d") PistaNode.nil PistaNode.nil)) ∨ x = cstr "c") ∧
    (∀ x, x ∈ exibirPistas (PistaNode.node (cstr "b") PistaNode.nil
          (PistaNode.node (cstr "d") PistaNode.nil PistaNode.nil))
        → x ∈ exibirPistas (inserirPista (PistaNode.node (cstr "b") PistaNode.nil
          (PistaNode.node (cstr "d") PistaNode.nil PistaNode.nil)) (cstr "c"))) ∧
    cstr "c" ∈ exibirPistas (inserirPista (PistaNode.node (cstr "b") PistaNode.nil
          (PistaNode.node (cstr "d") PistaNode.nil PistaNode.nil)) (cstr "c")) ∧
    (cstr "c" ∉ exibirPistas (PistaNode.node (cstr "b") PistaNode.nil
          (PistaNode.node (cstr "d") PistaNode.nil PistaNode.nil))
        → numNos (inserirPista (PistaNode.node (cstr "b") PistaNode.nil
          (PistaNode.node (cstr "d") PistaNode.nil PistaNode.nil)) (cstr "c"))
          = numNos (PistaNode.node (cstr "b") PistaNode.nil
          (PistaNode.node (cstr "d") PistaNode.nil PistaNode.nil)) + 1) ∧
    (cstr "c" ∈ exibirPistas (PistaNode.node (cstr "b") PistaNode.nil
          (PistaNode.node (cstr "d") PistaNode.nil PistaNode.nil))
        → numNos (inserirPista (PistaNode.node (cstr "b") PistaNode.nil
          (PistaNode.node (cstr "d") PistaNode.nil PistaNode.nil)) (cstr "c"))
          = numNos (PistaNode.node (cstr "b") PistaNode.nil
          (PistaNode.node (cstr "d") PistaNode.nil PistaNode.nil)))) :=
  ⟨by decide, inserirPista_chaves _ _ (by decide)⟩

/-! ## The suspect index -/

theorem funcaoHash_lt (chave : CStr) : funcaoHash chave < TAMANHO_HASH :=
  Nat.mod_lt _ (by decide)

theorem length_inserirNaHash (hash : TabelaHash) (pista suspeito : CStr) :
    (inserirNaHash hash pista suspeito).tabela.length = hash.tabela.length := by
  simp [inserirNaHash]

theorem length_inserirTodasNaHash (hash : TabelaHash) (pares : List (CStr × CStr)) :
    (inserirTodasNaHash hash pares).tabela.length = hash.tabela.length := by
  induction pares generalizing hash with
  | nil => rfl
  | cons par resto ih =>
    have h := ih (inserirNaHash hash par.1 par.2)
    rw [length_inserirNaHash] at h
    exact h

theorem getD_set_tabela (l : List HashNode) (i j : Nat) (a : HashNode) (hi : i < l.length) :
    (l.set i a).getD j HashNode.nil = if i = j then a else l.getD j HashNode.nil := by
  by_cases hij : i = j
  · subst hij
    simp [List.getD_eq_getElem?_getD, List.getElem?_set, hi]
  · simp [List.getD_eq_getElem?_getD, List.getElem?_set, hij]

theorem encontrarSuspeito_inserirNaHash (hash : TabelaHash) (pista suspeito chave : CStr)
    (hlen : hash.tabela.length = TAMANHO_HASH) :
    encontrarSuspeito (inserirNaHash hash pista suspeito) chave
      = if pista = chave then some suspeito else encontrarSuspeito hash chave := by
  have hi : funcaoHash pista < hash.tabela.length := by
    rw [hlen]; exact funcaoHash_lt pista
  simp only [encontrarSuspeito, inserirNaHash]
  rw [getD_set_tabela _ _ _ _ hi]
  by_cases hk : pista = chave
  · subst hk
    simp [encontrarSuspeitoLaco, strcmp_self]
  · by_cases hh : funcaoHash pista = funcaoHash chave
    · have h0 : strcmp pista chave ≠ 0 := fun h => hk ((strcmp_eq_zero_iff _ _).1 h)
      simp [hh, hk, encontrarSuspeitoLaco, h0]
    · simp [hh, hk]

theorem encontrarSuspeito_inicializarHash (chave : CStr) :
    encontrarSuspeito inicializarHash chave = none := by
  have h : inicializarHash.tabela.getD (funcaoHash chave) HashNode.nil = HashNode.nil := by
    simp only [inicializarHash, List.getD_eq_getElem?_getD, List.getElem?_replicate]
    split_ifs <;> rfl
  simp only [encontrarSuspeito, h, encontrarSuspeitoLaco]

theorem encontrarSuspeito_inserirTodas_ausente (hash : TabelaHash) (pares : List (CStr × CStr))
    (chave : CStr) (hlen : hash.tabela.length = TAMANHO_HASH)
    (h : ∀ par ∈ pares, par.1 ≠ chave) :
    encontrarSuspeito (inserirTodasNaHash hash pares) chave = encontrarSuspeito hash chave := by
  induction pares generalizing hash with
  | nil => rfl
  | cons par resto ih =>
    have hl : (inserirNaHash hash par.1 par.2).tabela.length = TAMANHO_HASH := by
      rw [length_inserirNaHash]; exact hlen
    have h1 := ih (inserirNaHash hash par.1 par.2) hl
      (fun q hq => h q (List.mem_cons_of_mem _ hq))
    have h2 : inserirTodasNaHash hash (par :: resto)
        = inserirTodasNaHash (inserirNaHash hash par.1 par.2) resto := rfl
    rw [h2, h1, encontrarSuspeito_inserirNaHash _ _ _ _ hlen,
      if_neg (h par (List.mem_cons_self _ _))]

theorem inserirTodasNaHash_append (hash : TabelaHash) (l1 l2 : List (CStr × CStr)) :
    inserirTodasNaHash hash (l1 ++ l2) = inserirTodasNaHash (inserirTodasNaHash hash l1) l2 := by
  simp [inserirTodasNaHash, List.foldl_append]

/-- C4: in a table built from `inicializarHash` by any sequence of
`inserirNaHash` calls, looking up an inserted key `k` returns the suspect given
by the most recent insertion of `k` (the calls `depois` after it insert other
keys; the calls `antes` before it may insert `k` too). -/
theorem encontrarSuspeito_inserido (antes depois : List (CStr × CStr)) (k v : CStr)
    (h : ∀ par ∈ depois, par.1 ≠ k) :
    encontrarSuspeito (inserirTodasNaHash inicializarHash (antes ++ (k, v) :: depois)) k
      = some v := by
  have hlen : (inserirTodasNaHash inicializarHash antes).tabela.length = TAMANHO_HASH := by
    rw [length_inserirTodasNaHash]; simp [inicializarHash]
  have h2 : inserirTodasNaHash (inserirTodasNaHash inicializarHash antes) ((k, v) :: depois)
      = inserirTodasNaHash (inserirNaHash (inserirTodasNaHash inicializarHash antes) k v)
          depois := rfl
  rw [inserirTodasNaHash_append, h2,
    encontrarSuspeito_inserirTodas_ausente _ _ _ (by rw [length_inserirNaHash]; exact hlen) h,
    encontrarSuspeito_inserirNaHash _ _ _ _ hlen, if_pos rfl]

/-- Witness of C4: the key "a" is inserted twice, with suspects "x" then "y",
and another key afterwards; the lookup returns "y". -/
theorem encontrarSuspeito_inserido_witness :
    (∀ par ∈ [(cstr "b", cstr "z")], par.1 ≠ cstr "a") ∧
    encontrarSuspeito (inserirTodasNaHash inicializarHash
      ([(cstr "a", cstr "x")] ++ (cstr "a", cstr "y") :: [(cstr "b", cstr "z")])) (cstr "a")
      = some (cstr "y") :=
  ⟨by decide, encontrarSuspeito_inserido _ _ _ _ (by decide)⟩

/-- C5: in a table built from `inicializarHash` by any sequence of
`inserirNaHash` calls, looking up a key different from every inserted key
returns `NULL` (`none`), whatever bucket the key hashes to. -/
theorem encontrarSuspeito_nao_inserido (pares : List (CStr × CStr)) (k : CStr)
    (h : ∀ par ∈ pares, par.1 ≠ k) :
    encontrarSuspeito (inserirTodasNaHash inicializarHash pares) k = none := by
  rw [encontrarSuspeito_inserirTodas_ausente _ _ _ (by simp [inicializarHash]) h]
  exact encontrarSuspeito_inicializarHash k

/-- Witness of C5: the keys "A" and "U" share bucket 5, "U" is inserted and "A"
is looked up in the non-empty bucket. -/
theorem encontrarSuspeito_nao_inserido_witness :
    (∀ par ∈ [(cstr "U", cstr "x")], par.1 ≠ cstr "A") ∧
    funcaoHash (cstr "U") = funcaoHash (cstr "A") ∧
    (inserirTodasNaHash inicializarHash [(cstr "U", cstr "x")]).tabela.getD
      (funcaoHash (cstr "A")) HashNode.nil ≠ HashNode.nil ∧
    encontrarSuspeito (inserirTodasNaHash inicializarHash [(cstr "U", cstr "x")]) (cstr "A")
      = none :=
  ⟨by decide, by decide, by decide, encontrarSuspeito_nao_inserido _ _ (by decide)⟩

/-! ## Counting and the verdict -/

theorem contador_eq (hash : TabelaHash) (pista alvo : CStr) :
    (match encontrarSuspeito hash pista with
      | some suspeito => if strcmp suspeito alvo = 0 then (1 : Int) else 0
      | none => 0)
      = if encontrarSuspeito hash pista = some alvo then 1 else 0 := by
  cases h : encontrarSuspeito hash pista with
  | none => simp
  | some suspeito =>
    by_cases hs : suspeito = alvo
    · simp [hs, strcmp_self]
    · have h0 : strcmp suspeito alvo ≠ 0 := fun h => hs ((strcmp_eq_zero_iff _ _).1 h)
      simp [hs, h0]

theorem contarPistasPorSuspeito_eq_countP (t : PistaNode) (hash : TabelaHash) (alvo : CStr) :
    contarPistasPorSuspeito t hash alvo
      = ((exibirPistas t).countP (fun c => decide (encontrarSuspeito hash c = some alvo)) : Nat) := by
  induction t with
  | nil => rfl
  | node pista esquerda direita ihe ihd =>
    simp only [contarPistasPorSuspeito, contador_eq, ihe, ihd, exibirPistas,
      List.countP_append, List.countP_cons, decide_eq_true_eq]
    split_ifs <;> push_cast <;> ring

theorem contarPistasPorSuspeito_nonneg (t : PistaNode) (hash : TabelaHash) (alvo : CStr) :
    0 ≤ contarPistasPorSuspeito t hash alvo := by
  rw [contarPistasPorSuspeito_eq_countP]
  exact Int.natCast_nonneg _

/-- C6: `contarPistasPorSuspeito` returns the number of clues `c` of the store
whose lookup `encontrarSuspeito` is found and equal, byte for byte, to the
accused name; the clues may be listed in any order `l` (a permutation of the
in-order enumeration, among them the enumeration itself). -/
theorem contarPistasPorSuspeito_conta (t : PistaNode) (hash : TabelaHash) (alvo : CStr)
    (l : List CStr) (hl : l.Perm (exibirPistas t)) :
    contarPistasPorSuspeito t hash alvo
      = (l.countP (fun c => decide (encontrarSuspeito hash c = some alvo)) : Nat) := by
  rw [contarPistasPorSuspeito_eq_countP, hl.countP_eq]

/-- Witness of C6: a store with the clues "a" and "b", both of suspect "M",
listed in the order "b", "a"; the count for "M" is 2, and for "m" it is 0. -/
theorem contarPistasPorSuspeito_conta_witness :
    [cstr "b", cstr "a"].Perm
      (exibirPistas (PistaNode.node (cstr "a") PistaNode.nil
        (PistaNode.node (cstr "b") PistaNode.nil PistaNode.nil))) ∧
    contarPistasPorSuspeito (PistaNode.node (cstr "a") PistaNode.nil
        (PistaNode.node (cstr "b") PistaNode.nil PistaNode.nil))
      (inserirTodasNaHash inicializarHash [(cstr "a", cstr "M"), (cstr "b", cstr "M")]) (cstr "M")
      = ([cstr "b", cstr "a"].countP (fun c => decide (encontrarSuspeito
          (inserirTodasNaHash inicializarHash [(cstr "a", cstr "M"), (cstr "b", cstr "M")]) c
            = some (cstr "M"))) : Nat) ∧
    contarPistasPorSuspeito (PistaNode.node (cstr "a") PistaNode.nil
        (PistaNode.node (cstr "b") PistaNode.nil PistaNode.nil))
      (inserirTodasNaHash inicializarHash [(cstr "a", cstr "M"), (cstr "b", cstr "M")]) (cstr "M")
      = 2 ∧
    contarPistasPorSuspeito (PistaNode.node (cstr "a") PistaNode.nil
        (PistaNode.node (cstr "b") PistaNode.nil PistaNode.nil))
      (inserirTodasNaHash inicializarHash [(cstr "a", cstr "M"), (cstr "b", cstr "M")]) (cstr "m")
      = 0 :=
  ⟨by decide, contarPistasPorSuspeito_conta _ _ _ _ (by decide), by decide, by decide⟩

theorem fgets_linha (n : Nat) (nome resto : List Nat) (hlen : nome.length < n)
    (h10 : ∀ c ∈ nome, c ≠ 10) :
    fgets n (nome ++ 10 :: resto) = (nome ++ [10], resto) := by
  induction nome generalizing n with
  | nil =>
    cases n with
    | zero => simp at hlen
    | succ m => simp [fgets]
  | cons c cs ih =>
    cases n with
    | zero => simp at hlen
    | succ m =>
      have hc : c ≠ 10 := h10 c (List.mem_cons_self _ _)
      have ht := ih m (by simpa using hlen) (fun d hd => h10 d (List.mem_cons_of_mem _ hd))
      simp [fgets, hc, ht]

theorem takeWhile_ate (p : Nat → Bool) (nome : List Nat) (fim : Nat)
    (h : ∀ c ∈ nome, p c = true) (hf : p fim = false) :
    (nome ++ [fim]).takeWhile p = nome := by
  induction nome with
  | nil => simp [List.takeWhile, hf]
  | cons c cs ih =>
    have hc := h c (List.mem_cons_self _ _)
    simp [List.takeWhile, hc, ih (fun d hd => h d (List.mem_cons_of_mem _ hd))]

theorem takeWhile_tudo (p : Nat → Bool) (l : List Nat) (h : ∀ c ∈ l, p c = true) :
    l.takeWhile p = l := by
  induction l with
  | nil => rfl
  | cons c cs ih =>
    have hc := h c (List.mem_cons_self _ _)
    simp [List.takeWhile, hc, ih (fun d hd => h d (List.mem_cons_of_mem _ hd))]

/-- Every name of at most 48 bytes without NUL and newline is read back by
`lerAcusado` from a line holding it, after the byte dropped by `getchar`. -/
theorem lerAcusado_linha (c : Nat) (nome resto : List Nat) (hlen : nome.length ≤ 48)
    (h0 : ∀ b ∈ nome, b ≠ 0) (h10 : ∀ b ∈ nome, b ≠ 10) :
    lerAcusado (c :: nome ++ 10 :: resto) = (nome, resto) := by
  have hf := fgets_linha 49 nome resto (by omega) h10
  have h1 : (nome ++ [10]).takeWhile (fun b => decide (b ≠ 0)) = nome ++ [10] := by
    apply takeWhile_tudo
    intro b hb
    rcases List.mem_append.1 hb with hb | hb
    · simpa using h0 b hb
    · simp at hb; simp [hb]
  have h2 : (nome ++ [10]).takeWhile (fun b => decide (b ≠ 10)) = nome := by
    apply takeWhile_ate
    · intro b hb; simpa using h10 b hb
    · simp
  simp only [lerAcusado, List.cons_append, List.drop_succ_cons, List.drop_zero, hf, h1, h2]

theorem verificarSuspeitoFinal_node (pista : CStr) (esquerda direita : PistaNode)
    (hash : TabelaHash) (entrada : List Nat) :
    verificarSuspeitoFinal (PistaNode.node pista esquerda direita) hash entrada
      = ⟨(if contarPistasPorSuspeito (PistaNode.node pista esquerda direita) hash
              (lerAcusado entrada).1 ≥ 2 then Veredito.casoResolvido
          else if contarPistasPorSuspeito (PistaNode.node pista esquerda direita) hash
              (lerAcusado entrada).1 = 1 then Veredito.evidenciasInsuficientes
          else Veredito.acusacaoIncorreta),
         some (lerAcusado entrada).1,
         some (contarPistasPorSuspeito (PistaNode.node pista esquerda direita) hash
              (lerAcusado entrada).1),
         (lerAcusado entrada).2⟩ := by
  simp only [verificarSuspeitoFinal]
  split_ifs <;> rfl

/-- C7: with a non-empty clue store, `verificarSuspeitoFinal` reads the accused
name and its outcome is fixed by the count `c` it computes with
`contarPistasPorSuspeito`: "caso resolvido" iff `c ≥ 2`, "evidências
insuficientes" iff `c = 1`, "acusação incorreta" iff `c = 0`; `c` is never
negative, so exactly one of the three applies. -/
theorem verificarSuspeitoFinal_limiares (pista : CStr) (esquerda direita : PistaNode)
    (hash : TabelaHash) (entrada : List Nat) :
    (verificarSuspeitoFinal (PistaNode.node pista esquerda direita) hash entrada).acusado
      = some (lerAcusado entrada).1 ∧
    (verificarSuspeitoFinal (PistaNode.node pista esquerda direita) hash entrada).quantidadePistas
      = some (contarPistasPorSuspeito (PistaNode.node pista esquerda direita) hash
          (lerAcusado entrada).1) ∧
    0 ≤ contarPistasPorSuspeito (PistaNode.node pista esquerda direita) hash
          (lerAcusado entrada).1 ∧
    ((verificarSuspeitoFinal (PistaNode.node pista esquerda direita) hash entrada).veredito
        = Veredito.casoResolvido
      ↔ 2 ≤ contarPistasPorSuspeito (PistaNode.node pista esquerda direita) hash
          (lerAcusado entrada).1) ∧
    ((verificarSuspeitoFinal (PistaNode.node pista esquerda direita) hash entrada).veredito
        = Veredito.evidenciasInsuficientes
      ↔ contarPistasPorSuspeito (PistaNode.node pista esquerda direita) hash
          (lerAcusado entrada).1 = 1) ∧
    ((verificarSuspeitoFinal (PistaNode.node pista esquerda direita) hash entrada).veredito
        = Veredito.acusacaoIncorreta
      ↔ contarPistasPorSuspeito (PistaNode.node pista esquerda direita) hash
          (lerAcusado entrada).1 = 0) := by
  have h0 := contarPistasPorSuspeito_nonneg (PistaNode.node pista esquerda direita) hash
    (lerAcusado entrada).1
  rw [verificarSuspeitoFinal_node]
  refine ⟨rfl, rfl, h0, ?_, ?_, ?_⟩
  · show (if _ then _ else _) = _ ↔ _
    split_ifs with h1 h2 <;> simp <;> omega
  · show (if _ then _ else _) = _ ↔ _
    split_ifs with h1 h2 <;> simp <;> omega
  · show (if _ then _ else _) = _ ↔ _
    split_ifs with h1 h2 <;> simp <;> omega

/-- C9: `verificarSuspeitoFinal` reports "no clues collected" exactly when the
clue store is empty; it then returns with no accused name read (the standard
input is left untouched) and no count computed, and with a non-empty store it
never reports that outcome. -/
theorem verificarSuspeitoFinal_semPistas (t : PistaNode) (pista : CStr)
    (esquerda direita : PistaNode) (hash : TabelaHash) (entrada : List Nat) :
    ((verificarSuspeitoFinal t hash entrada).veredito = Veredito.semPistas
      ↔ t = PistaNode.nil) ∧
    verificarSuspeitoFinal PistaNode.nil hash entrada
      = ⟨Veredito.semPistas, none, none, entrada⟩ ∧
    (verificarSuspeitoFinal (PistaNode.node pista esquerda direita) hash entrada).veredito
      ≠ Veredito.semPistas := by
  have hn : (verificarSuspeitoFinal (PistaNode.node pista esquerda direita) hash
      entrada).veredito ≠ Veredito.semPistas := by
    rw [verificarSuspeitoFinal_node]
    show (if _ then _ else _) ≠ _
    split_ifs <;> simp
  refine ⟨?_, rfl, hn⟩
  cases t with
  | nil => simp [verificarSuspeitoFinal]
  | node p e d =>
    rw [verificarSuspeitoFinal_node]
    show (if _ then _ else _) = _ ↔ _
    split_ifs <;> simp

/-! ## The end-to-end scenario of mestre -/

theorem perm_exibirPistas_inserirTodas (l pistas : List CStr) (hn : pistas.Nodup)
    (h : ∀ x, x ∈ l ↔ x ∈ pistas) :
    pistas.Perm (exibirPistas (inserirTodas PistaNode.nil l)) := by
  have ho : ordenada (inserirTodas PistaNode.nil l) :=
    ordenada_inserirTodas PistaNode.nil l trivial
  refine (List.perm_ext_iff_of_nodup hn (nodup_exibirPistas _ ho)).2 ?_
  intro x
  rw [mem_exibirPistas_inserirTodas, ← h x]
  simp [exibirPistas]

theorem verificarSuspeitoFinal_contagem (t : PistaNode) (hash : TabelaHash)
    (entrada : List Nat) (alvo : CStr) (resto : List Nat) (c : Int) (ht : t ≠ PistaNode.nil)
    (hle : lerAcusado entrada = (alvo, resto))
    (hc : contarPistasPorSuspeito t hash alvo = c) :
    verificarSuspeitoFinal t hash entrada
      = ⟨(if c ≥ 2 then Veredito.casoResolvido
          else if c = 1 then Veredito.evidenciasInsuficientes
          else Veredito.acusacaoIncorreta), some alvo, some c, resto⟩ := by
  cases t with
  | nil => exact absurd rfl ht
  | node p e d => rw [verificarSuspeitoFinal_node, hle, hc]

/-- C8: with the suspect index of `main` (Jardineiro for the clues of Hall and
Estufa, Cozinheiro for Cozinha, Mordomo for Biblioteca and Despensa, Advogado
for Sala Secreta, Sala de Leitura and Cofre) and a clue store filled by
inserting the clues of the eight clue-bearing rooms in any order `l`, accusing
"Advogado" gives count 3 and "caso resolvido", accusing "Cozinheiro" gives
count 1 and "evidências insuficientes", and accusing "Dr. X" gives count 0 and
"acusação incorreta". -/
theorem cenario_mansao_completa (l : List CStr) (h : ∀ x, x ∈ l ↔ x ∈ Mestre.pistasDaMansao) :
    Mestre.pistasDaMansao
      = [cstr "Pegadas molhadas no tapete", cstr "Livro aberto sobre venenos",
         cstr "Documento queimado parcialmente", cstr "Carta ameacadora escondida",
         cstr "Testamento adulterado", cstr "Faca desaparecida do bloco",
         cstr "Frasco vazio de arsenico", cstr "Planta venenosa cultivada"] ∧
    [cstr "Hall de Entrada", cstr "Estufa", cstr "Cozinha", cstr "Biblioteca", cstr "Despensa",
        cstr "Sala Secreta", cstr "Sala de Leitura", cstr "Cofre"].map
        (fun nome => encontrarSuspeito Mestre.mainHash (Mestre.obterPistaDaSala nome))
      = [some (cstr "Jardineiro"), some (cstr "Jardineiro"), some (cstr "Cozinheiro"),
         some (cstr "Mordomo"), some (cstr "Mordomo"), some (cstr "Advogado"),
         some (cstr "Advogado"), some (cstr "Advogado")] ∧
    contarPistasPorSuspeito (inserirTodas PistaNode.nil l) Mestre.mainHash (cstr "Advogado") = 3 ∧
    verificarSuspeitoFinal (inserirTodas PistaNode.nil l) Mestre.mainHash
        (10 :: cstr "Advogado" ++ [10])
      = ⟨Veredito.casoResolvido, some (cstr "Advogado"), some 3, []⟩ ∧
    contarPistasPorSuspeito (inserirTodas PistaNode.nil l) Mestre.mainHash (cstr "Cozinheiro") = 1 ∧
    verificarSuspeitoFinal (inserirTodas PistaNode.nil l) Mestre.mainHash
        (10 :: cstr "Cozinheiro" ++ [10])
      = ⟨Veredito.evidenciasInsuficientes, some (cstr "Cozinheiro"), some 1, []⟩ ∧
    contarPistasPorSuspeito (inserirTodas PistaNode.nil l) Mestre.mainHash (cstr "Dr. X") = 0 ∧
    verificarSuspeitoFinal (inserirTodas PistaNode.nil l) Mestre.mainHash
        (10 :: cstr "Dr. X" ++ [10])
      = ⟨Veredito.acusacaoIncorreta, some (cstr "Dr. X"), some 0, []⟩ := by
  have hp := perm_exibirPistas_inserirTodas l Mestre.pistasDaMansao (by decide) h
  have hne : inserirTodas PistaNode.nil l ≠ PistaNode.nil := by
    intro hnil
    rw [hnil] at hp
    exact absurd hp.length_eq (by decide)
  have h3 : contarPistasPorSuspeito (inserirTodas PistaNode.nil l) Mestre.mainHash
      (cstr "Advogado") = 3 := by
    rw [contarPistasPorSuspeito_eq_countP, ← hp.countP_eq]
    decide
  have h1 : contarPistasPorSuspeito (inserirTodas PistaNode.nil l) Mestre.mainHash
      (cstr "Cozinheiro") = 1 := by
    rw [contarPistasPorSuspeito_eq_countP, ← hp.countP_eq]
    decide
  have h0 : contarPistasPorSuspeito (inserirTodas PistaNode.nil l) Mestre.mainHash
      (cstr "Dr. X") = 0 := by
    rw [contarPistasPorSuspeito_eq_countP, ← hp.countP_eq]
    decide
  refine ⟨by decide, by decide, h3, ?_, h1, ?_, h0, ?_⟩
  · exact verificarSuspeitoFinal_contagem _ _ _ _ _ _ hne (by decide) h3
  · exact verificarSuspeitoFinal_contagem _ _ _ _ _ _ hne (by decide) h1
  · exact verificarSuspeitoFinal_contagem _ _ _ _ _ _ hne (by decide) h0

/-- Witness of C8: the eight clues inserted in the reverse of the order of the
rooms of the mansion. -/
theorem cenario_mansao_completa_witness :
    (∀ x, x ∈ Mestre.pistasDaMansao.reverse ↔ x ∈ Mestre.pistasDaMansao) ∧
    contarPistasPorSuspeito (inserirTodas PistaNode.nil Mestre.pistasDaMansao.reverse)
      Mestre.mainHash (cstr "Advogado") = 3 ∧
    verificarSuspeitoFinal (inserirTodas PistaNode.nil Mestre.pistasDaMansao.reverse)
        Mestre.mainHash (10 :: cstr "Advogado" ++ [10])
      = ⟨Veredito.casoResolvido, some (cstr "Advogado"), some 3, []⟩ :=
  ⟨fun _ => List.mem_reverse,
    (cenario_mansao_completa Mestre.pistasDaMansao.reverse (fun _ => List.mem_reverse)).2.2.1,
    (cenario_mansao_completa Mestre.pistasDaMansao.reverse
      (fun _ => List.mem_reverse)).2.2.2.1⟩

/-! ## Clues collected by the exploration loops -/

theorem mem_exibirPistas_coleta (arvore : PistaNode) (pista x : CStr) :
    x ∈ exibirPistas (if strlen pista > 0 then inserirPista arvore pista else arvore)
      ↔ x ∈ exibirPistas arvore ∨ (pista = x ∧ strlen x > 0) := by
  split_ifs with h
  · rw [mem_exibirPistas_inserirPista]
    constructor
    · rintro (hx | rfl)
      · exact Or.inl hx
      · exact Or.inr ⟨rfl, h⟩
    · rintro (hx | ⟨rfl, -⟩)
      · exact Or.inl hx
      · exact Or.inr rfl
  · constructor
    · exact Or.inl
    · rintro (hx | ⟨rfl, hp⟩)
      · exact hx
      · exact absurd hp h

theorem Mestre.mem_arvore_explorarSalasLaco (comandos : List Char) (sala : Mestre.Sala)
    (arvore : PistaNode) (totais : Int) (x : CStr) :
    x ∈ exibirPistas (Mestre.explorarSalasLaco sala arvore totais comandos).arvorePistas
      ↔ x ∈ exibirPistas arvore ∨
        ∃ s ∈ (Mestre.explorarSalasLaco sala arvore totais comandos).visitadas,
          Mestre.obterPistaDaSala s.nomeDe = x ∧ strlen x > 0 := by
  induction comandos generalizing sala arvore totais with
  | nil =>
    cases sala with
    | nil => simp [Mestre.explorarSalasLaco]
    | node nome esquerda direita =>
      simp only [Mestre.explorarSalasLaco, mem_exibirPistas_coleta, List.mem_singleton,
        exists_eq_left, Mestre.Sala.nomeDe]
  | cons escolha resto ih =>
    cases sala with
    | nil => simp [Mestre.explorarSalasLaco]
    | node nome esquerda direita =>
      have hent := mem_exibirPistas_coleta arvore (Mestre.obterPistaDaSala nome) x
      simp only [Mestre.explorarSalasLaco]
      generalize (if strlen (Mestre.obterPistaDaSala nome) > 0
        then inserirPista arvore (Mestre.obterPistaDaSala nome) else arvore) = arv at hent ⊢
      generalize (if strlen (Mestre.obterPistaDaSala nome) > 0
        then totais + 1 else totais) = tot
      split_ifs <;>
        simp only [Mestre.Exploracao.apos, List.mem_cons, List.mem_singleton, exists_eq_left,
          or_and_right, exists_or, ih, hent, Mestre.Sala.nomeDe, or_assoc, List.not_mem_nil,
          false_and, exists_false, or_false]

theorem Aventureiro.mem_arvore_explorarSalasComPistasLaco (comandos : List Char)
    (sala : Aventureiro.Sala) (arvore : PistaNode) (totais : Int) (x : CStr) :
    x ∈ exibirPistas
        (Aventureiro.explorarSalasComPistasLaco sala arvore totais comandos).arvorePistas
      ↔ x ∈ exibirPistas arvore ∨
        ∃ s ∈ (Aventureiro.explorarSalasComPistasLaco sala arvore totais comandos).visitadas,
          s.pistaDe = x ∧ strlen x > 0 := by
  induction comandos generalizing sala arvore totais with
  | nil =>
    cases sala with
    | nil => simp [Aventureiro.explorarSalasComPistasLaco]
    | node nome pista esquerda direita =>
      simp only [Aventureiro.explorarSalasComPistasLaco, mem_exibirPistas_coleta,
        List.mem_singleton, exists_eq_left, Aventureiro.Sala.pistaDe]
  | cons escolha resto ih =>
    cases sala with
    | nil => simp [Aventureiro.explorarSalasComPistasLaco]
    | node nome pista esquerda direita =>
      have hent := mem_exibirPistas_coleta arvore pista x
      simp only [Aventureiro.explorarSalasComPistasLaco]
      generalize (if strlen pista > 0 then inserirPista arvore pista else arvore) = arv
        at hent ⊢
      generalize (if strlen pista > 0 then totais + 1 else totais) = tot
      split_ifs <;>
        simp only [Aventureiro.Exploracao.apos, List.mem_cons, List.mem_singleton,
          exists_eq_left, or_and_right, exists_or, ih, hent, Aventureiro.Sala.pistaDe,
          or_assoc, List.not_mem_nil, false_and, exists_false, or_false]

theorem Mestre.head_visitadas_explorarSalasLaco (comandos : List Char) (nome : CStr)
    (esquerda direita : Mestre.Sala) (arvore : PistaNode) (totais : Int) :
    (Mestre.explorarSalasLaco (Mestre.Sala.node nome esquerda direita) arvore totais
      comandos).visitadas.head? = some (Mestre.Sala.node nome esquerda direita) := by
  cases comandos with
  | nil => simp [Mestre.explorarSalasLaco]
  | cons escolha resto =>
    simp only [Mestre.explorarSalasLaco]
    split_ifs <;> simp [Mestre.Exploracao.apos]

theorem Aventureiro.head_visitadas_explorarSalasComPistasLaco (comandos : List Char)
    (nome pista : CStr) (esquerda direita : Aventureiro.Sala) (arvore : PistaNode)
    (totais : Int) :
    (Aventureiro.explorarSalasComPistasLaco (Aventureiro.Sala.node nome pista esquerda direita)
      arvore totais comandos).visitadas.head?
      = some (Aventureiro.Sala.node nome pista esquerda direita) := by
  cases comandos with
  | nil => simp [Aventureiro.explorarSalasComPistasLaco]
  | cons escolha resto =>
    simp only [Aventureiro.explorarSalasComPistasLaco]
    split_ifs <;> simp [Aventureiro.Exploracao.apos]

/-- C10: when `explorarSalas` (mestre) or `explorarSalasComPistas` (aventureiro)
is started with an empty clue store, for every mansion and every finite
sequence of commands the keys of the clue store at the end are exactly the
non-empty clue texts of the rooms at which the loop body ran (`visitadas`, the
rooms that were the current location, which start with the root); other rooms
and rooms with an empty clue text contribute nothing. -/
theorem explorar_chaves_das_visitadas (comandos : List Char) (x : CStr)
    (salaM : Mestre.Sala) (nomeM : CStr) (esquerdaM direitaM : Mestre.Sala)
    (salaA : Aventureiro.Sala) (nomeA pistaA : CStr) (esquerdaA direitaA : Aventureiro.Sala) :
    (x ∈ exibirPistas (Mestre.explorarSalas salaM PistaNode.nil comandos).arvorePistas
      ↔ ∃ s ∈ (Mestre.explorarSalas salaM PistaNode.nil comandos).visitadas,
          Mestre.obterPistaDaSala s.nomeDe = x ∧ strlen x > 0) ∧
    (Mestre.explorarSalas (Mestre.Sala.node nomeM esquerdaM direitaM) PistaNode.nil
        comandos).visitadas.head? = some (Mestre.Sala.node nomeM esquerdaM direitaM) ∧
    (x ∈ exibirPistas
        (Aventureiro.explorarSalasComPistas salaA PistaNode.nil comandos).arvorePistas
      ↔ ∃ s ∈ (Aventureiro.explorarSalasComPistas salaA PistaNode.nil comandos).visitadas,
          s.pistaDe = x ∧ strlen x > 0) ∧
    (Aventureiro.explorarSalasComPistas (Aventureiro.Sala.node nomeA pistaA esquerdaA direitaA)
        PistaNode.nil comandos).visitadas.head?
      = some (Aventureiro.Sala.node nomeA pistaA esquerdaA direitaA) := by
  refine ⟨?_, Mestre.head_visitadas_explorarSalasLaco _ _ _ _ _ _, ?_,
    Aventureiro.head_visitadas_explorarSalasComPistasLaco _ _ _ _ _ _ _⟩
  · rw [Mestre.explorarSalas, Mestre.mem_arvore_explorarSalasLaco]
    simp [exibirPistas]
  · rw [Aventureiro.explorarSalasComPistas, Aventureiro.mem_arvore_explorarSalasComPistasLaco]
    simp [exibirPistas]

/-! ## The hash function -/

theorem charParaUnsigned_ascii (c : Nat) (h : c < 128) : charParaUnsigned c = c := by
  simp [charParaUnsigned, h]

theorem funcaoHashLaco_ascii (chave : CStr) (hash : Nat) (h : ∀ b ∈ chave, b < 128) :
    funcaoHashLaco (hash % 2 ^ 32) chave
      = chave.foldl (fun hashValue byteValue => hashValue * 31 + byteValue) hash % 2 ^ 32 := by
  induction chave generalizing hash with
  | nil => rfl
  | cons c cs ih =>
    have hc : c < 128 := h c (List.mem_cons_self _ _)
    have hcs : ∀ b ∈ cs, b < 128 := fun b hb => h b (List.mem_cons_of_mem _ hb)
    have hstep : (hash % 2 ^ 32 * 31 + c) % 2 ^ 32 = (hash * 31 + c) % 2 ^ 32 := by
      simp only [Nat.reducePow]
      omega
    simp only [funcaoHashLaco, List.foldl_cons, charParaUnsigned_ascii c hc, hstep]
    exact ih (hash * 31 + c) hcs

theorem funcaoHash_eq_polinomio31 (chave : CStr) (h : ∀ b ∈ chave, b < 128) :
    funcaoHash chave = polinomio31 chave % 2 ^ 32 % TAMANHO_HASH := by
  have h0 := funcaoHashLaco_ascii chave 0 h
  simp only [Nat.zero_mod] at h0
  rw [funcaoHash, h0, polinomio31]

/-- C16, counterexample: for the key "zzzzzzz" the bucket index computed by
`funcaoHash` is 18, while the exact value of `hashValue * 31 + byteValue` over
its bytes, reduced modulo 20, is 14. -/
theorem funcaoHash_difere_do_especificado :
    funcaoHash (cstr "zzzzzzz") = 18 ∧ hashEspecificado (cstr "zzzzzzz") = 14 ∧
    ¬ (∀ chave : CStr, funcaoHash chave = hashEspecificado chave) := by
  refine ⟨by decide, by decide, ?_⟩
  intro h
  exact absurd (h (cstr "zzzzzzz")) (by decide)

/-- C16, amended: for every key of ASCII bytes `funcaoHash` is the value of
`hashValue * 31 + byteValue` over the bytes taken modulo `2 ^ 32` (the
arithmetic of `unsigned int`) and then modulo the bucket count 20; it agrees
with the exact value modulo 20 whenever the exact value is below `2 ^ 32`, and
also for the key "Faca desaparecida do bloco", where both give 15. -/
theorem funcaoHash_modulo_unsigned (chave : CStr) (h : ∀ b ∈ chave, b < 128) :
    funcaoHash chave = polinomio31 chave % 2 ^ 32 % 20 ∧
    (polinomio31 chave < 2 ^ 32 → funcaoHash chave = hashEspecificado chave) ∧
    funcaoHash (cstr "Faca desaparecida do bloco")
      = hashEspecificado (cstr "Faca desaparecida do bloco") ∧
    funcaoHash (cstr "Faca desaparecida do bloco") = 15 := by
  have h1 := funcaoHash_eq_polinomio31 chave h
  refine ⟨h1, ?_, by decide, by decide⟩
  intro hlt
  rw [h1, Nat.mod_eq_of_lt hlt]
  rfl

/-- Witness of C16 (amended) on the key "Cofre", whose exact value is below
`2 ^ 32`. -/
theorem funcaoHash_modulo_unsigned_witness :
    (∀ b ∈ cstr "Cofre", b < 128) ∧ polinomio31 (cstr "Cofre") < 2 ^ 32 ∧
    funcaoHash (cstr "Cofre") = polinomio31 (cstr "Cofre") % 2 ^ 32 % 20 ∧
    funcaoHash (cstr "Cofre") = hashEspecificado (cstr "Cofre") :=
  ⟨by decide, by decide, (funcaoHash_modulo_unsigned (cstr "Cofre") (by decide)).1,
    (funcaoHash_modulo_unsigned (cstr "Cofre") (by decide)).2.1 (by decide)⟩

/-- C17: for every key, the empty one included, `funcaoHash` lies between 0 and
`TAMANHO_HASH - 1 = 19`, so it is a valid index of the 20 slots of every table
built from `inicializarHash` by `inserirNaHash` calls. -/
theorem funcaoHash_indice_valido (chave : CStr) (pares : List (CStr × CStr)) :
    funcaoHash chave < TAMANHO_HASH ∧ funcaoHash chave ≤ 19 ∧ TAMANHO_HASH - 1 = 19 ∧
    funcaoHash [] = 0 ∧
    inicializarHash.tabela.length = 20 ∧
    (inserirTodasNaHash inicializarHash pares).tabela.length = 20 ∧
    funcaoHash chave < (inserirTodasNaHash inicializarHash pares).tabela.length := by
  have h := funcaoHash_lt chave
  have hl : (inserirTodasNaHash inicializarHash pares).tabela.length = 20 := by
    rw [length_inserirTodasNaHash]; rfl
  have h20 : TAMANHO_HASH = 20 := rfl
  refine ⟨h, ?_, rfl, rfl, rfl, hl, ?_⟩
  · omega
  · omega

/-! ## The search-tree invariant -/

/-- C18: `inserirPista` preserves the strict search-tree ordering (`ordenada`:
at every node the keys of the left subtree are smaller and those of the right
subtree larger than the node's key); the empty tree satisfies it, and so does
every clue store reached from it by insertions. -/
theorem ordenada_preservada (t : PistaNode) (k : CStr) (pistas : List CStr) (h : ordenada t) :
    ordenada (inserirPista t k) ∧ ordenada PistaNode.nil ∧
    ordenada (inserirTodas PistaNode.nil pistas) :=
  ⟨ordenada_inserirPista t k h, trivial, ordenada_inserirTodas PistaNode.nil pistas trivial⟩

/-- Witness of C18: inserting "c" into the ordered tree with root "b" and right
child "d". -/
theorem ordenada_preservada_witness :
    ordenada (PistaNode.node (cstr "b") PistaNode.nil
      (PistaNode.node (cstr "d") PistaNode.nil PistaNode.nil)) ∧
    ordenada (inserirPista (PistaNode.node (cstr "b") PistaNode.nil
      (PistaNode.node (cstr "d") PistaNode.nil PistaNode.nil)) (cstr "c")) ∧
    inserirPista (PistaNode.node (cstr "b") PistaNode.nil
      (PistaNode.node (cstr "d") PistaNode.nil PistaNode.nil)) (cstr "c")
      = PistaNode.node (cstr "b") PistaNode.nil
          (PistaNode.node (cstr "d") (PistaNode.node (cstr "c") PistaNode.nil PistaNode.nil)
            PistaNode.nil) :=
  ⟨by decide,
    (ordenada_preservada _ (cstr "c") [] (by decide)).1,
    by decide⟩

/-! ## Commands of the exploration loops -/

/-- C13: in the mansion built by `main`, in each of the three programs, the
commands Left, Left, Right (in either letter case) from the hall make "Sala de
Leitura" the current room, and Right, Right, Right make "Estufa" the current
room. -/
theorem alcance_na_mansao :
    (∀ a ∈ ['e', 'E'], ∀ b ∈ ['e', 'E'], ∀ c ∈ ['d', 'D'],
      (Novato.explorarSalas Novato.mainHall [a, b, c]).salaAtual.nomeDe
        = cstr "Sala de Leitura" ∧
      (Aventureiro.explorarSalasComPistas Aventureiro.mainHall PistaNode.nil
        [a, b, c]).salaAtual.nomeDe = cstr "Sala de Leitura" ∧
      (Mestre.explorarSalas Mestre.mainHall PistaNode.nil [a, b, c]).salaAtual.nomeDe
        = cstr "Sala de Leitura") ∧
    (∀ a ∈ ['d', 'D'], ∀ b ∈ ['d', 'D'], ∀ c ∈ ['d', 'D'],
      (Novato.explorarSalas Novato.mainHall [a, b, c]).salaAtual.nomeDe = cstr "Estufa" ∧
      (Aventureiro.explorarSalasComPistas Aventureiro.mainHall PistaNode.nil
        [a, b, c]).salaAtual.nomeDe = cstr "Estufa" ∧
      (Mestre.explorarSalas Mestre.mainHall PistaNode.nil [a, b, c]).salaAtual.nomeDe
        = cstr "Estufa") ∧
    (Novato.explorarSalas Novato.mainHall ['e', 'e', 'd']).visitadas.map Novato.Sala.nomeDe
      = [cstr "Hall de Entrada", cstr "Sala de Estar", cstr "Biblioteca",
         cstr "Sala de Leitura"] ∧
    (Aventureiro.explorarSalasComPistas Aventureiro.mainHall PistaNode.nil
        ['d', 'd', 'd']).visitadas.map Aventureiro.Sala.nomeDe
      = [cstr "Hall de Entrada", cstr "Cozinha", cstr "Jardim", cstr "Estufa"] ∧
    (Mestre.explorarSalas Mestre.mainHall PistaNode.nil
        ['d', 'd', 'd']).visitadas.map Mestre.Sala.nomeDe
      = [cstr "Hall de Entrada", cstr "Cozinha", cstr "Jardim", cstr "Estufa"] := by
  refine ⟨by decide, by decide, by decide, by decide, by decide⟩

theorem Mestre.passo_esquerda (nome : CStr) (esquerda direita : Mestre.Sala)
    (arvore : PistaNode) (totais : Int) (c : Char) (resto : List Char)
    (hc : c = 'e' ∨ c = 'E') :
    Mestre.explorarSalasLaco (Mestre.Sala.node nome esquerda direita) arvore totais (c :: resto)
      = (Mestre.explorarSalasLaco
          (if esquerda ≠ Mestre.Sala.nil then esquerda
            else Mestre.Sala.node nome esquerda direita)
          (Mestre.explorarSalasLaco (Mestre.Sala.node nome esquerda direita) arvore totais
            []).arvorePistas
          (Mestre.explorarSalasLaco (Mestre.Sala.node nome esquerda direita) arvore totais
            []).pistasTotais resto).apos (Mestre.Sala.node nome esquerda direita) := by
  simp only [Mestre.explorarSalasLaco, if_pos hc]
  split_ifs <;> rfl

theorem Mestre.passo_direita (nome : CStr) (esquerda direita : Mestre.Sala)
    (arvore : PistaNode) (totais : Int) (c : Char) (resto : List Char)
    (hc : c = 'd' ∨ c = 'D') :
    Mestre.explorarSalasLaco (Mestre.Sala.node nome esquerda direita) arvore totais (c :: resto)
      = (Mestre.explorarSalasLaco
          (if direita ≠ Mestre.Sala.nil then direita
            else Mestre.Sala.node nome esquerda direita)
          (Mestre.explorarSalasLaco (Mestre.Sala.node nome esquerda direita) arvore totais
            []).arvorePistas
          (Mestre.explorarSalasLaco (Mestre.Sala.node nome esquerda direita) arvore totais
            []).pistasTotais resto).apos (Mestre.Sala.node nome esquerda direita) := by
  have hne : ¬ (c = 'e' ∨ c = 'E') := by
    rcases hc with rfl | rfl <;> decide
  simp only [Mestre.explorarSalasLaco, if_neg hne, if_pos hc]
  split_ifs <;> rfl

theorem Mestre.passo_sair (nome : CStr) (esquerda direita : Mestre.Sala)
    (arvore : PistaNode) (totais : Int) (c : Char) (resto : List Char)
    (hc : c = 's' ∨ c = 'S') :
    Mestre.explorarSalasLaco (Mestre.Sala.node nome esquerda direita) arvore totais (c :: resto)
      = ⟨Mestre.Sala.node nome esquerda direita,
          (Mestre.explorarSalasLaco (Mestre.Sala.node nome esquerda direita) arvore totais
            []).arvorePistas,
          (Mestre.explorarSalasLaco (Mestre.Sala.node nome esquerda direita) arvore totais
            []).pistasTotais,
          true, resto, [Mestre.Sala.node nome esquerda direita]⟩ := by
  have hne : ¬ (c = 'e' ∨ c = 'E') := by
    rcases hc with rfl | rfl <;> decide
  have hnd : ¬ (c = 'd' ∨ c = 'D') := by
    rcases hc with rfl | rfl <;> decide
  simp only [Mestre.explorarSalasLaco, if_neg hne, if_neg hnd, if_pos hc]

theorem Mestre.passo_invalido (nome : CStr) (esquerda direita : Mestre.Sala)
    (arvore : PistaNode) (totais : Int) (c : Char) (resto : List Char)
    (hne : ¬ (c = 'e' ∨ c = 'E')) (hnd : ¬ (c = 'd' ∨ c = 'D')) (hns : ¬ (c = 's' ∨ c = 'S')) :
    Mestre.explorarSalasLaco (Mestre.Sala.node nome esquerda direita) arvore totais (c :: resto)
      = (Mestre.explorarSalasLaco (Mestre.Sala.node nome esquerda direita)
          (Mestre.explorarSalasLaco (Mestre.Sala.node nome esquerda direita) arvore totais
            []).arvorePistas
          (Mestre.explorarSalasLaco (Mestre.Sala.node nome esquerda direita) arvore totais
            []).pistasTotais resto).apos (Mestre.Sala.node nome esquerda direita) := by
  simp only [Mestre.explorarSalasLaco, if_neg hne, if_neg hnd, if_neg hns]

theorem Aventureiro.passo_esquerda_aventureiro (nome pista : CStr) (esquerda direita : Aventureiro.Sala)
    (arvore : PistaNode) (totais : Int) (c : Char) (resto : List Char)
    (hc : c = 'e' ∨ c = 'E') :
    Aventureiro.explorarSalasComPistasLaco (Aventureiro.Sala.node nome pista esquerda direita)
      arvore totais (c :: resto)
      = (Aventureiro.explorarSalasComPistasLaco
          (if esquerda ≠ Aventureiro.Sala.nil then esquerda
            else Aventureiro.Sala.node nome pista esquerda direita)
          (Aventureiro.explorarSalasComPistasLaco (Aventureiro.Sala.node nome pista esquerda direita)
            arvore totais
            []).arvorePistas
          (Aventureiro.explorarSalasComPistasLaco (Aventureiro.Sala.node nome pista esquerda direita)
            arvore totais
            []).pistasTotais resto).apos (Aventureiro.Sala.node nome pista esquerda direita) := by
  simp only [Aventureiro.explorarSalasComPistasLaco, if_pos hc]
  split_ifs <;> rfl

theorem Aventureiro.passo_direita_aventureiro (nome pista : CStr) (esquerda direita : Aventureiro.Sala)
    (arvore : PistaNode) (totais : Int) (c : Char) (resto : List Char)
    (hc : c = 'd' ∨ c = 'D') :
    Aventureiro.explorarSalasComPistasLaco (Aventureiro.Sala.node nome pista esquerda direita)
      arvore totais (c :: resto)
      = (Aventureiro.explorarSalasComPistasLaco
          (if direita ≠ Aventureiro.Sala.nil then direita
            else Aventureiro.Sala.node nome pista esquerda direita)
          (Aventureiro.explorarSalasComPistasLaco (Aventureiro.Sala.node nome pista esquerda direita)
            arvore totais
            []).arvorePistas
          (Aventureiro.explorarSalasComPistasLaco (Aventureiro.Sala.node nome pista esquerda direita)
            arvore totais
            []).pistasTotais resto).apos (Aventureiro.Sala.node nome pista esquerda direita) := by
  have hne : ¬ (c = 'e' ∨ c = 'E') := by
    rcases hc with rfl | rfl <;> decide
  simp only [Aventureiro.explorarSalasComPistasLaco, if_neg hne, if_pos hc]
  split_ifs <;> rfl

theorem Aventureiro.passo_sair_aventureiro (nome pista : CStr) (esquerda direita : Aventureiro.Sala)
    (arvore : PistaNode) (totais : Int) (c : Char) (resto : List Char)
    (hc : c = 's' ∨ c = 'S') :
    Aventureiro.explorarSalasComPistasLaco (Aventureiro.Sala.node nome pista esquerda direita)
      arvore totais (c :: resto)
      = ⟨Aventureiro.Sala.node nome pista esquerda direita,
          (Aventureiro.explorarSalasComPistasLaco (Aventureiro.Sala.node nome pista esquerda direita)
            arvore totais
            []).arvorePistas,
          (Aventureiro.explorarSalasComPistasLaco (Aventureiro.Sala.node nome pista esquerda direita)
            arvore totais
            []).pistasTotais,
          true, resto, [Aventureiro.Sala.node nome pista esquerda direita]⟩ := by
  have hne : ¬ (c = 'e' ∨ c = 'E') := by
    rcases hc with rfl | rfl <;> decide
  have hnd : ¬ (c = 'd' ∨ c = 'D') := by
    rcases hc with rfl | rfl <;> decide
  simp only [Aventureiro.explorarSalasComPistasLaco, if_neg hne, if_neg hnd, if_pos hc]

theorem Aventureiro.passo_invalido_aventureiro (nome pista : CStr) (esquerda direita : Aventureiro.Sala)
    (arvore : PistaNode) (totais : Int) (c : Char) (resto : List Char)
    (hne : ¬ (c = 'e' ∨ c = 'E')) (hnd : ¬ (c = 'd' ∨ c = 'D')) (hns : ¬ (c = 's' ∨ c = 'S')) :
    Aventureiro.explorarSalasComPistasLaco (Aventureiro.Sala.node nome pista esquerda direita)
      arvore totais (c :: resto)
      = (Aventureiro.explorarSalasComPistasLaco (Aventureiro.Sala.node nome pista esquerda direita)
          (Aventureiro.explorarSalasComPistasLaco (Aventureiro.Sala.node nome pista esquerda direita)
            arvore totais
            []).arvorePistas
          (Aventureiro.explorarSalasComPistasLaco (Aventureiro.Sala.node nome pista esquerda direita)
            arvore totais
            []).pistasTotais resto).apos (Aventureiro.Sala.node nome pista esquerda direita) := by
  simp only [Aventureiro.explorarSalasComPistasLaco, if_neg hne, if_neg hnd, if_neg hns]

theorem Novato.passo_esquerda_novato (nome : CStr) (esquerda direita : Novato.Sala) (c : Char)
    (resto : List Char) (hnl : ¬ (esquerda = Novato.Sala.nil ∧ direita = Novato.Sala.nil))
    (hc : c = 'e' ∨ c = 'E') :
    Novato.explorarSalas (Novato.Sala.node nome esquerda direita) (c :: resto)
      = (Novato.explorarSalas
          (if esquerda ≠ Novato.Sala.nil then esquerda
            else Novato.Sala.node nome esquerda direita) resto).apos
          (Novato.Sala.node nome esquerda direita) := by
  simp only [Novato.explorarSalas, if_neg hnl, if_pos hc]
  split_ifs <;> rfl

theorem Novato.passo_direita_novato (nome : CStr) (esquerda direita : Novato.Sala) (c : Char)
    (resto : List Char) (hnl : ¬ (esquerda = Novato.Sala.nil ∧ direita = Novato.Sala.nil))
    (hc : c = 'd' ∨ c = 'D') :
    Novato.explorarSalas (Novato.Sala.node nome esquerda direita) (c :: resto)
      = (Novato.explorarSalas
          (if direita ≠ Novato.Sala.nil then direita
            else Novato.Sala.node nome esquerda direita) resto).apos
          (Novato.Sala.node nome esquerda direita) := by
  have hne : ¬ (c = 'e' ∨ c = 'E') := by
    rcases hc with rfl | rfl <;> decide
  simp only [Novato.explorarSalas, if_neg hnl, if_neg hne, if_pos hc]
  split_ifs <;> rfl

theorem Novato.passo_sair_novato (nome : CStr) (esquerda direita : Novato.Sala) (c : Char)
    (resto : List Char) (hnl : ¬ (esquerda = Novato.Sala.nil ∧ direita = Novato.Sala.nil))
    (hc : c = 's' ∨ c = 'S') :
    Novato.explorarSalas (Novato.Sala.node nome esquerda direita) (c :: resto)
      = ⟨Novato.Sala.node nome esquerda direita, true, resto,
          [Novato.Sala.node nome esquerda direita]⟩ := by
  have hne : ¬ (c = 'e' ∨ c = 'E') := by
    rcases hc with rfl | rfl <;> decide
  have hnd : ¬ (c = 'd' ∨ c = 'D') := by
    rcases hc with rfl | rfl <;> decide
  simp only [Novato.explorarSalas, if_neg hnl, if_neg hne, if_neg hnd, if_pos hc]

theorem Novato.passo_invalido_novato (nome : CStr) (esquerda direita : Novato.Sala) (c : Char)
    (resto : List Char) (hnl : ¬ (esquerda = Novato.Sala.nil ∧ direita = Novato.Sala.nil))
    (hne : ¬ (c = 'e' ∨ c = 'E')) (hnd : ¬ (c = 'd' ∨ c = 'D')) (hns : ¬ (c = 's' ∨ c = 'S')) :
    Novato.explorarSalas (Novato.Sala.node nome esquerda direita) (c :: resto)
      = (Novato.explorarSalas (Novato.Sala.node nome esquerda direita) resto).apos
          (Novato.Sala.node nome esquerda direita) := by
  simp only [Novato.explorarSalas, if_neg hnl, if_neg hne, if_neg hnd, if_neg hns]

theorem Novato.passo_folha (nome : CStr) (comandos : List Char) :
    Novato.explorarSalas (Novato.Sala.node nome Novato.Sala.nil Novato.Sala.nil) comandos
      = ⟨Novato.Sala.node nome Novato.Sala.nil Novato.Sala.nil, true, comandos,
          [Novato.Sala.node nome Novato.Sala.nil Novato.Sala.nil]⟩ := by
  cases comandos <;> simp [Novato.explorarSalas]

theorem Mestre.fim_do_laco (comandos : List Char) (sala : Mestre.Sala) (arvore : PistaNode)
    (totais : Int) (hs : sala ≠ Mestre.Sala.nil) :
    ((Mestre.explorarSalasLaco sala arvore totais comandos).finalizou = true
      ↔ ∃ x ∈ comandos, x = 's' ∨ x = 'S') ∧
    ((Mestre.explorarSalasLaco sala arvore totais comandos).finalizou = false
      → (Mestre.explorarSalasLaco sala arvore totais comandos).resto = []) := by
  induction comandos generalizing sala arvore totais with
  | nil =>
    cases sala with
    | nil => exact absurd rfl hs
    | node nome esquerda direita => simp [Mestre.explorarSalasLaco]
  | cons c resto ih =>
    cases sala with
    | nil => exact absurd rfl hs
    | node nome esquerda direita =>
      by_cases he : c = 'e' ∨ c = 'E'
      · have hns : ¬ (c = 's' ∨ c = 'S') := by
          rcases he with rfl | rfl <;> decide
        have hd : (if esquerda ≠ Mestre.Sala.nil then esquerda
            else Mestre.Sala.node nome esquerda direita) ≠ Mestre.Sala.nil := by
          split_ifs with h
          · exact h
          · simp
        rw [Mestre.passo_esquerda _ _ _ _ _ _ _ he]
        have h := ih _ (Mestre.explorarSalasLaco (Mestre.Sala.node nome esquerda direita)
          arvore totais []).arvorePistas (Mestre.explorarSalasLaco
          (Mestre.Sala.node nome esquerda direita) arvore totais []).pistasTotais hd
        simpa [Mestre.Exploracao.apos, hns] using h
      · by_cases hdir : c = 'd' ∨ c = 'D'
        · have hns : ¬ (c = 's' ∨ c = 'S') := by
            rcases hdir with rfl | rfl <;> decide
          have hd : (if direita ≠ Mestre.Sala.nil then direita
              else Mestre.Sala.node nome esquerda direita) ≠ Mestre.Sala.nil := by
            split_ifs with h
            · exact h
            · simp
          rw [Mestre.passo_direita _ _ _ _ _ _ _ hdir]
          have h := ih _ (Mestre.explorarSalasLaco (Mestre.Sala.node nome esquerda direita)
            arvore totais []).arvorePistas (Mestre.explorarSalasLaco
            (Mestre.Sala.node nome esquerda direita) arvore totais []).pistasTotais hd
          simpa [Mestre.Exploracao.apos, hns] using h
        · by_cases hsair : c = 's' ∨ c = 'S'
          · rw [Mestre.passo_sair _ _ _ _ _ _ _ hsair]
            simp [hsair]
          · rw [Mestre.passo_invalido _ _ _ _ _ _ _ he hdir hsair]
            have h := ih (Mestre.Sala.node nome esquerda direita)
              (Mestre.explorarSalasLaco (Mestre.Sala.node nome esquerda direita)
                arvore totais []).arvorePistas (Mestre.explorarSalasLaco
                (Mestre.Sala.node nome esquerda direita) arvore totais []).pistasTotais
              (by simp)
            simpa [Mestre.Exploracao.apos, hsair] using h

theorem Aventureiro.fim_do_laco_aventureiro (comandos : List Char) (sala : Aventureiro.Sala) (arvore : PistaNode)
    (totais : Int) (hs : sala ≠ Aventureiro.Sala.nil) :
    ((Aventureiro.explorarSalasComPistasLaco sala arvore totais comandos).finalizou = true
      ↔ ∃ x ∈ comandos, x = 's' ∨ x = 'S') ∧
    ((Aventureiro.explorarSalasComPistasLaco sala arvore totais comandos).finalizou = false
      → (Aventureiro.explorarSalasComPistasLaco sala arvore totais comandos).resto = []) := by
  induction comandos generalizing sala arvore totais with
  | nil =>
    cases sala with
    | nil => exact absurd rfl hs
    | node nome pista esquerda direita => simp [Aventureiro.explorarSalasComPistasLaco]
  | cons c resto ih =>
    cases sala with
    | nil => exact absurd rfl hs
    | node nome pista esquerda direita =>
      by_cases he : c = 'e' ∨ c = 'E'
      · have hns : ¬ (c = 's' ∨ c = 'S') := by
          rcases he with rfl | rfl <;> decide
        have hd : (if esquerda ≠ Aventureiro.Sala.nil then esquerda
            else Aventureiro.Sala.node nome pista esquerda direita) ≠ Aventureiro.Sala.nil := by
          split_ifs with h
          · exact h
          · simp
        rw [Aventureiro.passo_esquerda_aventureiro _ _ _ _ _ _ _ _ he]
        have h := ih _ (Aventureiro.explorarSalasComPistasLaco (Aventureiro.Sala.node nome pista esquerda direita)
          arvore totais []).arvorePistas (Aventureiro.explorarSalasComPistasLaco
          (Aventureiro.Sala.node nome pista esquerda direita) arvore totais []).pistasTotais hd
        simpa [Aventureiro.Exploracao.apos, hns] using h
      · by_cases hdir : c = 'd' ∨ c = 'D'
        · have hns : ¬ (c = 's' ∨ c = 'S') := by
            rcases hdir with rfl | rfl <;> decide
          have hd : (if direita ≠ Aventureiro.Sala.nil then direita
              else Aventureiro.Sala.node nome pista esquerda direita) ≠ Aventureiro.Sala.nil := by
            split_ifs with h
            · exact h
            · simp
          rw [Aventureiro.passo_direita_aventureiro _ _ _ _ _ _ _ _ hdir]
          have h := ih _ (Aventureiro.explorarSalasComPistasLaco (Aventureiro.Sala.node nome pista esquerda direita)
            arvore totais []).arvorePistas (Aventureiro.explorarSalasComPistasLaco
            (Aventureiro.Sala.node nome pista esquerda direita) arvore totais []).pistasTotais hd
          simpa [Aventureiro.Exploracao.apos, hns] using h
        · by_cases hsair : c = 's' ∨ c = 'S'
          · rw [Aventureiro.passo_sair_aventureiro _ _ _ _ _ _ _ _ hsair]
            simp [hsair]
          · rw [Aventureiro.passo_invalido_aventureiro _ _ _ _ _ _ _ _ he hdir hsair]
            have h := ih (Aventureiro.Sala.node nome pista esquerda direita)
              (Aventureiro.explorarSalasComPistasLaco (Aventureiro.Sala.node nome pista esquerda direita)
                arvore totais []).arvorePistas (Aventureiro.explorarSalasComPistasLaco
                (Aventureiro.Sala.node nome pista esquerda direita) arvore totais []).pistasTotais
              (by simp)
            simpa [Aventureiro.Exploracao.apos, hsair] using h

/-- C11: at a room where a command is read, a Left command (`e`, `E`) makes
the loop go on from the left child when there is one and from the same room
otherwise, a Right command (`d`, `D`) does the same with the right child, and
any other command either goes on from the same room or ends the loop there.
This holds in mestre and aventureiro at every room, and in novato at every
room that has an exit (novato reads no command at a room without exits). -/
theorem comando_de_direcao (c : Char) (resto : List Char) (nome pista : CStr)
    (arvore : PistaNode) (totais : Int) (esqM dirM : Mestre.Sala)
    (esqA dirA : Aventureiro.Sala) (esqN dirN : Novato.Sala)
    (hnl : ¬ (esqN = Novato.Sala.nil ∧ dirN = Novato.Sala.nil)) :
    (((c = 'e' ∨ c = 'E') →
        Mestre.explorarSalasLaco (Mestre.Sala.node nome esqM dirM) arvore totais (c :: resto)
          = (Mestre.explorarSalasLaco
              (if esqM ≠ Mestre.Sala.nil then esqM else Mestre.Sala.node nome esqM dirM)
              (Mestre.explorarSalasLaco (Mestre.Sala.node nome esqM dirM) arvore totais
                []).arvorePistas
              (Mestre.explorarSalasLaco (Mestre.Sala.node nome esqM dirM) arvore totais
                []).pistasTotais resto).apos (Mestre.Sala.node nome esqM dirM)) ∧
      ((c = 'd' ∨ c = 'D') →
        Mestre.explorarSalasLaco (Mestre.Sala.node nome esqM dirM) arvore totais (c :: resto)
          = (Mestre.explorarSalasLaco
              (if dirM ≠ Mestre.Sala.nil then dirM else Mestre.Sala.node nome esqM dirM)
              (Mestre.explorarSalasLaco (Mestre.Sala.node nome esqM dirM) arvore totais
                []).arvorePistas
              (Mestre.explorarSalasLaco (Mestre.Sala.node nome esqM dirM) arvore totais
                []).pistasTotais resto).apos (Mestre.Sala.node nome esqM dirM)) ∧
      (¬ (c = 'e' ∨ c = 'E') → ¬ (c = 'd' ∨ c = 'D') →
        (Mestre.explorarSalasLaco (Mestre.Sala.node nome esqM dirM) arvore totais (c :: resto)
          = (Mestre.explorarSalasLaco (Mestre.Sala.node nome esqM dirM)
              (Mestre.explorarSalasLaco (Mestre.Sala.node nome esqM dirM) arvore totais
                []).arvorePistas
              (Mestre.explorarSalasLaco (Mestre.Sala.node nome esqM dirM) arvore totais
                []).pistasTotais resto).apos (Mestre.Sala.node nome esqM dirM)) ∨
        ((Mestre.explorarSalasLaco (Mestre.Sala.node nome esqM dirM) arvore totais
            (c :: resto)).salaAtual = Mestre.Sala.node nome esqM dirM ∧
          (Mestre.explorarSalasLaco (Mestre.Sala.node nome esqM dirM) arvore totais
            (c :: resto)).visitadas = [Mestre.Sala.node nome esqM dirM]))) ∧
    (((c = 'e' ∨ c = 'E') →
        Aventureiro.explorarSalasComPistasLaco (Aventureiro.Sala.node nome pista esqA dirA)
            arvore totais (c :: resto)
          = (Aventureiro.explorarSalasComPistasLaco
              (if esqA ≠ Aventureiro.Sala.nil then esqA
                else Aventureiro.Sala.node nome pista esqA dirA)
              (Aventureiro.explorarSalasComPistasLaco
                (Aventureiro.Sala.node nome pista esqA dirA) arvore totais []).arvorePistas
              (Aventureiro.explorarSalasComPistasLaco
                (Aventureiro.Sala.node nome pista esqA dirA) arvore totais []).pistasTotais
              resto).apos (Aventureiro.Sala.node nome pista esqA dirA)) ∧
      ((c = 'd' ∨ c = 'D') →
        Aventureiro.explorarSalasComPistasLaco (Aventureiro.Sala.node nome pista esqA dirA)
            arvore totais (c :: resto)
          = (Aventureiro.explorarSalasComPistasLaco
              (if dirA ≠ Aventureiro.Sala.nil then dirA
                else Aventureiro.Sala.node nome pista esqA dirA)
              (Aventureiro.explorarSalasComPistasLaco
                (Aventureiro.Sala.node nome pista esqA dirA) arvore totais []).arvorePistas
              (Aventureiro.explorarSalasComPistasLaco
                (Aventureiro.Sala.node nome pista esqA dirA) arvore totais []).pistasTotais
              resto).apos (Aventureiro.Sala.node nome pista esqA dirA)) ∧
      (¬ (c = 'e' ∨ c = 'E') → ¬ (c = 'd' ∨ c = 'D') →
        (Aventureiro.explorarSalasComPistasLaco (Aventureiro.Sala.node nome pista esqA dirA)
            arvore totais (c :: resto)
          = (Aventureiro.explorarSalasComPistasLaco
              (Aventureiro.Sala.node nome pista esqA dirA)
              (Aventureiro.explorarSalasComPistasLaco
                (Aventureiro.Sala.node nome pista esqA dirA) arvore totais []).arvorePistas
              (Aventureiro.explorarSalasComPistasLaco
                (Aventureiro.Sala.node nome pista esqA dirA) arvore totais []).pistasTotais
              resto).apos (Aventureiro.Sala.node nome pista esqA dirA)) ∨
        ((Aventureiro.explorarSalasComPistasLaco (Aventureiro.Sala.node nome pista esqA dirA)
            arvore totais (c :: resto)).salaAtual
            = Aventureiro.Sala.node nome pista esqA dirA ∧
          (Aventureiro.explorarSalasComPistasLaco (Aventureiro.Sala.node nome pista esqA dirA)
            arvore totais (c :: resto)).visitadas
            = [Aventureiro.Sala.node nome pista esqA dirA]))) ∧
    (((c = 'e' ∨ c = 'E') →
        Novato.explorarSalas (Novato.Sala.node nome esqN dirN) (c :: resto)
          = (Novato.explorarSalas
              (if esqN ≠ Novato.Sala.nil then esqN else Novato.Sala.node nome esqN dirN)
              resto).apos (Novato.Sala.node nome esqN dirN)) ∧
      ((c = 'd' ∨ c = 'D') →
        Novato.explorarSalas (Novato.Sala.node nome esqN dirN) (c :: resto)
          = (Novato.explorarSalas
              (if dirN ≠ Novato.Sala.nil then dirN else Novato.Sala.node nome esqN dirN)
              resto).apos (Novato.Sala.node nome esqN dirN)) ∧
      (¬ (c = 'e' ∨ c = 'E') → ¬ (c = 'd' ∨ c = 'D') →
        (Novato.explorarSalas (Novato.Sala.node nome esqN dirN) (c :: resto)
          = (Novato.explorarSalas (Novato.Sala.node nome esqN dirN) resto).apos
              (Novato.Sala.node nome esqN dirN)) ∨
        ((Novato.explorarSalas (Novato.Sala.node nome esqN dirN) (c :: resto)).salaAtual
            = Novato.Sala.node nome esqN dirN ∧
          (Novato.explorarSalas (Novato.Sala.node nome esqN dirN) (c :: resto)).visitadas
            = [Novato.Sala.node nome esqN dirN]))) := by
  refine ⟨⟨Mestre.passo_esquerda _ _ _ _ _ _ _, Mestre.passo_direita _ _ _ _ _ _ _, ?_⟩,
    ⟨Aventureiro.passo_esquerda_aventureiro _ _ _ _ _ _ _ _, Aventureiro.passo_direita_aventureiro _ _ _ _ _ _ _ _, ?_⟩,
    ⟨Novato.passo_esquerda_novato _ _ _ _ _ hnl, Novato.passo_direita_novato _ _ _ _ _ hnl, ?_⟩⟩
  · intro he hd
    by_cases hs : c = 's' ∨ c = 'S'
    · right
      rw [Mestre.passo_sair _ _ _ _ _ _ _ hs]
      exact ⟨rfl, rfl⟩
    · left
      exact Mestre.passo_invalido _ _ _ _ _ _ _ he hd hs
  · intro he hd
    by_cases hs : c = 's' ∨ c = 'S'
    · right
      rw [Aventureiro.passo_sair_aventureiro _ _ _ _ _ _ _ _ hs]
      exact ⟨rfl, rfl⟩
    · left
      exact Aventureiro.passo_invalido_aventureiro _ _ _ _ _ _ _ _ he hd hs
  · intro he hd
    by_cases hs : c = 's' ∨ c = 'S'
    · right
      rw [Novato.passo_sair_novato _ _ _ _ _ hnl hs]
      exact ⟨rfl, rfl⟩
    · left
      exact Novato.passo_invalido_novato _ _ _ _ _ hnl he hd hs

/-- Witness of C11: at the hall of the three mansions of `main` the command
`e` makes "Sala de Estar" the next current room, and at "Jardim" (no left
child) it leaves the current room unchanged. -/
theorem comando_de_direcao_witness :
    ¬ (Novato.Sala.node (cstr "Sala de Estar") Novato.Sala.nil Novato.Sala.nil
        = Novato.Sala.nil ∧ Novato.Sala.nil = Novato.Sala.nil) ∧
    Mestre.explorarSalasLaco
        (Mestre.Sala.node (cstr "Hall de Entrada")
          (Mestre.Sala.node (cstr "Sala de Estar") Mestre.Sala.nil Mestre.Sala.nil)
          Mestre.Sala.nil) PistaNode.nil 0 ['e']
      = (Mestre.explorarSalasLaco
          (Mestre.Sala.node (cstr "Sala de Estar") Mestre.Sala.nil Mestre.Sala.nil)
          (PistaNode.node (cstr "Pegadas molhadas no tapete") PistaNode.nil PistaNode.nil) 1
          []).apos
          (Mestre.Sala.node (cstr "Hall de Entrada")
            (Mestre.Sala.node (cstr "Sala de Estar") Mestre.Sala.nil Mestre.Sala.nil)
            Mestre.Sala.nil) ∧
    (Mestre.explorarSalas Mestre.mainHall PistaNode.nil ['e']).visitadas.map Mestre.Sala.nomeDe
      = [cstr "Hall de Entrada", cstr "Sala de Estar"] ∧
    (Mestre.explorarSalas Mestre.mainHall PistaNode.nil
        ['d', 'd', 'e']).visitadas.map Mestre.Sala.nomeDe
      = [cstr "Hall de Entrada", cstr "Cozinha", cstr "Jardim", cstr "Jardim"] :=
  ⟨by decide,
    (comando_de_direcao 'e' [] (cstr "Hall de Entrada") [] PistaNode.nil 0
      (Mestre.Sala.node (cstr "Sala de Estar") Mestre.Sala.nil Mestre.Sala.nil) Mestre.Sala.nil
      Aventureiro.Sala.nil Aventureiro.Sala.nil
      (Novato.Sala.node (cstr "Sala de Estar") Novato.Sala.nil Novato.Sala.nil) Novato.Sala.nil
      (by decide)).1.1 (Or.inl rfl),
    by decide, by decide⟩

theorem Mestre.invalido_conta_de_novo (nome : CStr) (esquerda direita : Mestre.Sala)
    (arvore : PistaNode) (totais : Int) (c : Char)
    (hne : ¬ (c = 'e' ∨ c = 'E')) (hnd : ¬ (c = 'd' ∨ c = 'D')) (hns : ¬ (c = 's' ∨ c = 'S'))
    (hp : strlen (Mestre.obterPistaDaSala nome) > 0) :
    (Mestre.explorarSalasLaco (Mestre.Sala.node nome esquerda direita) arvore totais
        [c]).salaAtual
      = (Mestre.explorarSalasLaco (Mestre.Sala.node nome esquerda direita) arvore totais
        []).salaAtual ∧
    (Mestre.explorarSalasLaco (Mestre.Sala.node nome esquerda direita) arvore totais
        [c]).arvorePistas
      = (Mestre.explorarSalasLaco (Mestre.Sala.node nome esquerda direita) arvore totais
        []).arvorePistas ∧
    (Mestre.explorarSalasLaco (Mestre.Sala.node nome esquerda direita) arvore totais
        [c]).pistasTotais
      = (Mestre.explorarSalasLaco (Mestre.Sala.node nome esquerda direita) arvore totais
        []).pistasTotais + 1 := by
  rw [Mestre.passo_invalido _ _ _ _ _ _ _ hne hnd hns]
  simp [Mestre.explorarSalasLaco, Mestre.Exploracao.apos, hp, inserirPista_inserirPista]

/-- C12, evaluation at the failing input: in mestre and aventureiro, at the hall
of the mansion of `main`, the invalid command `x` leaves the current room and
the clue store (one clue) as they were when the command was read, but the
counter `pistasTotais` reported next is 2 where it was 1. -/
theorem comando_invalido_reconta :
    (Mestre.explorarSalas Mestre.mainHall PistaNode.nil []).pistasTotais = 1 ∧
    (Mestre.explorarSalas Mestre.mainHall PistaNode.nil ['x']).pistasTotais = 2 ∧
    (Mestre.explorarSalas Mestre.mainHall PistaNode.nil ['x']).salaAtual
      = (Mestre.explorarSalas Mestre.mainHall PistaNode.nil []).salaAtual ∧
    (Mestre.explorarSalas Mestre.mainHall PistaNode.nil ['x']).arvorePistas
      = (Mestre.explorarSalas Mestre.mainHall PistaNode.nil []).arvorePistas ∧
    numNos (Mestre.explorarSalas Mestre.mainHall PistaNode.nil ['x']).arvorePistas = 1 ∧
    (Aventureiro.explorarSalasComPistas Aventureiro.mainHall PistaNode.nil []).pistasTotais
      = 1 ∧
    (Aventureiro.explorarSalasComPistas Aventureiro.mainHall PistaNode.nil ['x']).pistasTotais
      = 2 ∧
    (Aventureiro.explorarSalasComPistas Aventureiro.mainHall PistaNode.nil ['x']).salaAtual
      = (Aventureiro.explorarSalasComPistas Aventureiro.mainHall PistaNode.nil []).salaAtual ∧
    (Aventureiro.explorarSalasComPistas Aventureiro.mainHall PistaNode.nil ['x']).arvorePistas
      = (Aventureiro.explorarSalasComPistas Aventureiro.mainHall PistaNode.nil
          []).arvorePistas ∧
    numNos (Aventureiro.explorarSalasComPistas Aventureiro.mainHall PistaNode.nil
      ['x']).arvorePistas = 1 := by
  refine ⟨by decide, by decide, by decide, by decide, by decide, by decide, by decide,
    by decide, by decide, by decide⟩

/-- C14: at a room where a command is read (every room in mestre and
aventureiro, every room with an exit in novato), the command `s` or `S` ends
the loop (`finalizou`) with the current room and the clue store as they were
when the command was read, and the commands after it are left unread. -/
theorem comando_sair (c : Char) (resto : List Char) (nome pista : CStr)
    (arvore : PistaNode) (totais : Int) (esqM dirM : Mestre.Sala)
    (esqA dirA : Aventureiro.Sala) (esqN dirN : Novato.Sala)
    (hc : c = 's' ∨ c = 'S')
    (hnl : ¬ (esqN = Novato.Sala.nil ∧ dirN = Novato.Sala.nil)) :
    Mestre.explorarSalasLaco (Mestre.Sala.node nome esqM dirM) arvore totais (c :: resto)
      = ⟨Mestre.Sala.node nome esqM dirM,
          (Mestre.explorarSalasLaco (Mestre.Sala.node nome esqM dirM) arvore totais
            []).arvorePistas,
          (Mestre.explorarSalasLaco (Mestre.Sala.node nome esqM dirM) arvore totais
            []).pistasTotais,
          true, resto, [Mestre.Sala.node nome esqM dirM]⟩ ∧
    Aventureiro.explorarSalasComPistasLaco (Aventureiro.Sala.node nome pista esqA dirA)
        arvore totais (c :: resto)
      = ⟨Aventureiro.Sala.node nome pista esqA dirA,
          (Aventureiro.explorarSalasComPistasLaco (Aventureiro.Sala.node nome pista esqA dirA)
            arvore totais []).arvorePistas,
          (Aventureiro.explorarSalasComPistasLaco (Aventureiro.Sala.node nome pista esqA dirA)
            arvore totais []).pistasTotais,
          true, resto, [Aventureiro.Sala.node nome pista esqA dirA]⟩ ∧
    Novato.explorarSalas (Novato.Sala.node nome esqN dirN) (c :: resto)
      = ⟨Novato.Sala.node nome esqN dirN, true, resto, [Novato.Sala.node nome esqN dirN]⟩ :=
  ⟨Mestre.passo_sair _ _ _ _ _ _ _ hc, Aventureiro.passo_sair_aventureiro _ _ _ _ _ _ _ _ hc,
    Novato.passo_sair_novato _ _ _ _ _ hnl hc⟩

/-- Witness of C14: the command `S` followed by `e` and `d` at the hall of the
three mansions of `main`; the loop ends at the hall and `e`, `d` stay unread. -/
theorem comando_sair_witness :
    (('S' : Char) = 's' ∨ ('S' : Char) = 'S') ∧
    (Mestre.explorarSalas Mestre.mainHall PistaNode.nil ['S', 'e', 'd']).finalizou = true ∧
    (Mestre.explorarSalas Mestre.mainHall PistaNode.nil ['S', 'e', 'd']).resto = ['e', 'd'] ∧
    (Mestre.explorarSalas Mestre.mainHall PistaNode.nil ['S', 'e', 'd']).salaAtual
      = Mestre.mainHall ∧
    Novato.explorarSalas
        (Novato.Sala.node (cstr "Hall de Entrada")
          (Novato.Sala.node (cstr "Sala de Estar") Novato.Sala.nil Novato.Sala.nil)
          Novato.Sala.nil) ['S', 'e', 'd']
      = ⟨Novato.Sala.node (cstr "Hall de Entrada")
          (Novato.Sala.node (cstr "Sala de Estar") Novato.Sala.nil Novato.Sala.nil)
          Novato.Sala.nil, true, ['e', 'd'],
        [Novato.Sala.node (cstr "Hall de Entrada")
          (Novato.Sala.node (cstr "Sala de Estar") Novato.Sala.nil Novato.Sala.nil)
          Novato.Sala.nil]⟩ :=
  ⟨Or.inr rfl, by decide, by decide, by decide,
    (comando_sair 'S' ['e', 'd'] (cstr "Hall de Entrada") [] PistaNode.nil 0
      Mestre.Sala.nil Mestre.Sala.nil Aventureiro.Sala.nil Aventureiro.Sala.nil
      (Novato.Sala.node (cstr "Sala de Estar") Novato.Sala.nil Novato.Sala.nil) Novato.Sala.nil
      (Or.inr rfl) (by decide)).2.2⟩

theorem Mestre.passo_na_folha (nome : CStr) (arvore : PistaNode) (totais : Int) (c : Char)
    (resto : List Char) (hns : ¬ (c = 's' ∨ c = 'S')) :
    Mestre.explorarSalasLaco (Mestre.Sala.node nome Mestre.Sala.nil Mestre.Sala.nil) arvore
        totais (c :: resto)
      = (Mestre.explorarSalasLaco (Mestre.Sala.node nome Mestre.Sala.nil Mestre.Sala.nil)
          (Mestre.explorarSalasLaco (Mestre.Sala.node nome Mestre.Sala.nil Mestre.Sala.nil)
            arvore totais []).arvorePistas
          (Mestre.explorarSalasLaco (Mestre.Sala.node nome Mestre.Sala.nil Mestre.Sala.nil)
            arvore totais []).pistasTotais resto).apos
          (Mestre.Sala.node nome Mestre.Sala.nil Mestre.Sala.nil) := by
  by_cases he : c = 'e' ∨ c = 'E'
  · rw [Mestre.passo_esquerda _ _ _ _ _ _ _ he]
    simp
  · by_cases hd : c = 'd' ∨ c = 'D'
    · rw [Mestre.passo_direita _ _ _ _ _ _ _ hd]
      simp
    · exact Mestre.passo_invalido _ _ _ _ _ _ _ he hd hns

theorem Aventureiro.passo_na_folha_aventureiro (nome pista : CStr) (arvore : PistaNode) (totais : Int)
    (c : Char) (resto : List Char) (hns : ¬ (c = 's' ∨ c = 'S')) :
    Aventureiro.explorarSalasComPistasLaco
        (Aventureiro.Sala.node nome pista Aventureiro.Sala.nil Aventureiro.Sala.nil) arvore
        totais (c :: resto)
      = (Aventureiro.explorarSalasComPistasLaco
          (Aventureiro.Sala.node nome pista Aventureiro.Sala.nil Aventureiro.Sala.nil)
          (Aventureiro.explorarSalasComPistasLaco
            (Aventureiro.Sala.node nome pista Aventureiro.Sala.nil Aventureiro.Sala.nil)
            arvore totais []).arvorePistas
          (Aventureiro.explorarSalasComPistasLaco
            (Aventureiro.Sala.node nome pista Aventureiro.Sala.nil Aventureiro.Sala.nil)
            arvore totais []).pistasTotais resto).apos
          (Aventureiro.Sala.node nome pista Aventureiro.Sala.nil Aventureiro.Sala.nil) := by
  by_cases he : c = 'e' ∨ c = 'E'
  · rw [Aventureiro.passo_esquerda_aventureiro _ _ _ _ _ _ _ _ he]
    simp
  · by_cases hd : c = 'd' ∨ c = 'D'
    · rw [Aventureiro.passo_direita_aventureiro _ _ _ _ _ _ _ _ hd]
      simp
    · exact Aventureiro.passo_invalido_aventureiro _ _ _ _ _ _ _ _ he hd hns

/-- C15: in mestre and aventureiro, at a room without exits every command other
than `s`/`S` makes the loop go on from the same room; and from any room the
loop ends (`finalizou`) exactly when some command of the sequence is `s` or
`S`: otherwise it consumes every command and is still waiting for one. -/
theorem folha_nao_encerra (c : Char) (resto comandos : List Char) (nome pista : CStr)
    (arvore : PistaNode) (totais : Int) (esqM dirM : Mestre.Sala)
    (esqA dirA : Aventureiro.Sala) (hns : ¬ (c = 's' ∨ c = 'S')) :
    Mestre.explorarSalasLaco (Mestre.Sala.node nome Mestre.Sala.nil Mestre.Sala.nil) arvore
        totais (c :: resto)
      = (Mestre.explorarSalasLaco (Mestre.Sala.node nome Mestre.Sala.nil Mestre.Sala.nil)
          (Mestre.explorarSalasLaco (Mestre.Sala.node nome Mestre.Sala.nil Mestre.Sala.nil)
            arvore totais []).arvorePistas
          (Mestre.explorarSalasLaco (Mestre.Sala.node nome Mestre.Sala.nil Mestre.Sala.nil)
            arvore totais []).pistasTotais resto).apos
          (Mestre.Sala.node nome Mestre.Sala.nil Mestre.Sala.nil) ∧
    Aventureiro.explorarSalasComPistasLaco
        (Aventureiro.Sala.node nome pista Aventureiro.Sala.nil Aventureiro.Sala.nil) arvore
        totais (c :: resto)
      = (Aventureiro.explorarSalasComPistasLaco
          (Aventureiro.Sala.node nome pista Aventureiro.Sala.nil Aventureiro.Sala.nil)
          (Aventureiro.explorarSalasComPistasLaco
            (Aventureiro.Sala.node nome pista Aventureiro.Sala.nil Aventureiro.Sala.nil)
            arvore totais []).arvorePistas
          (Aventureiro.explorarSalasComPistasLaco
            (Aventureiro.Sala.node nome pista Aventureiro.Sala.nil Aventureiro.Sala.nil)
            arvore totais []).pistasTotais resto).apos
          (Aventureiro.Sala.node nome pista Aventureiro.Sala.nil Aventureiro.Sala.nil) ∧
    ((Mestre.explorarSalasLaco (Mestre.Sala.node nome esqM dirM) arvore totais
        comandos).finalizou = true ↔ ∃ x ∈ comandos, x = 's' ∨ x = 'S') ∧
    ((Mestre.explorarSalasLaco (Mestre.Sala.node nome esqM dirM) arvore totais
        comandos).finalizou = false →
      (Mestre.explorarSalasLaco (Mestre.Sala.node nome esqM dirM) arvore totais
        comandos).resto = []) ∧
    ((Aventureiro.explorarSalasComPistasLaco (Aventureiro.Sala.node nome pista esqA dirA)
        arvore totais comandos).finalizou = true ↔ ∃ x ∈ comandos, x = 's' ∨ x = 'S') ∧
    ((Aventureiro.explorarSalasComPistasLaco (Aventureiro.Sala.node nome pista esqA dirA)
        arvore totais comandos).finalizou = false →
      (Aventureiro.explorarSalasComPistasLaco (Aventureiro.Sala.node nome pista esqA dirA)
        arvore totais comandos).resto = []) :=
  ⟨Mestre.passo_na_folha _ _ _ _ _ hns, Aventureiro.passo_na_folha_aventureiro _ _ _ _ _ _ hns,
    (Mestre.fim_do_laco comandos _ arvore totais (by simp)).1,
    (Mestre.fim_do_laco comandos _ arvore totais (by simp)).2,
    (Aventureiro.fim_do_laco_aventureiro comandos _ arvore totais (by simp)).1,
    (Aventureiro.fim_do_laco_aventureiro comandos _ arvore totais (by simp)).2⟩

/-- Witness of C15: at the room "Estufa", which has no exits, the commands
`e`, `d`, `x` are consumed and the loop is still at "Estufa", not finished. -/
theorem folha_nao_encerra_witness :
    ¬ (('e' : Char) = 's' ∨ ('e' : Char) = 'S') ∧
    Mestre.explorarSalasLaco
        (Mestre.Sala.node (cstr "Estufa") Mestre.Sala.nil Mestre.Sala.nil) PistaNode.nil 0
        ['e', 'd', 'x']
      = (Mestre.explorarSalasLaco
          (Mestre.Sala.node (cstr "Estufa") Mestre.Sala.nil Mestre.Sala.nil)
          (PistaNode.node (cstr "Planta venenosa cultivada") PistaNode.nil PistaNode.nil) 1
          ['d', 'x']).apos
          (Mestre.Sala.node (cstr "Estufa") Mestre.Sala.nil Mestre.Sala.nil) ∧
    (Mestre.explorarSalasLaco
        (Mestre.Sala.node (cstr "Estufa") Mestre.Sala.nil Mestre.Sala.nil) PistaNode.nil 0
        ['e', 'd', 'x']).finalizou = false ∧
    (Mestre.explorarSalasLaco
        (Mestre.Sala.node (cstr "Estufa") Mestre.Sala.nil Mestre.Sala.nil) PistaNode.nil 0
        ['e', 'd', 'x']).salaAtual
      = Mestre.Sala.node (cstr "Estufa") Mestre.Sala.nil Mestre.Sala.nil :=
  ⟨by decide,
    (folha_nao_encerra 'e' ['d', 'x'] [] (cstr "Estufa") [] PistaNode.nil 0 Mestre.Sala.nil
      Mestre.Sala.nil Aventureiro.Sala.nil Aventureiro.Sala.nil (by decide)).1,
    by decide, by decide⟩

/-! ## The rooms of a run lie on one way down -/

theorem mudancas_cons_le {α : Type} [DecidableEq α] (a : α) (l : List α) :
    mudancas (a :: l) ≤ mudancas l + 1 := by
  cases l with
  | nil => simp [mudancas]
  | cons b t =>
    simp only [mudancas]
    split_ifs <;> omega

theorem mudancas_cons_head {α : Type} [DecidableEq α] (a : α) (l : List α)
    (h : l.head? = some a) : mudancas (a :: l) = mudancas l := by
  cases l with
  | nil => simp at h
  | cons b t =>
    simp only [List.head?_cons, Option.some.injEq] at h
    subst h
    simp [mudancas]

theorem length_dedup_le_of_subset {α : Type} [DecidableEq α] (l r : List α)
    (h : ∀ s ∈ l, s ∈ r) : l.dedup.length ≤ r.length :=
  (List.subperm_of_subset (List.nodup_dedup l)
    (fun x hx => h x (List.mem_dedup.1 hx))).length_le

theorem Mestre.mem_filhas (nome : CStr) (esquerda direita s : Mestre.Sala) :
    s ∈ (Mestre.Sala.node nome esquerda direita).filhas
      ↔ s ≠ Mestre.Sala.nil ∧ (s = esquerda ∨ s = direita) := by
  simp only [Mestre.Sala.filhas, List.mem_filter, List.mem_cons, List.mem_singleton,
    List.not_mem_nil, or_false, decide_eq_true_eq]
  tauto

theorem Mestre.passo_forma (nome : CStr) (esquerda direita : Mestre.Sala)
    (arvore : PistaNode) (totais : Int) (c : Char) (resto : List Char) :
    (Mestre.explorarSalasLaco (Mestre.Sala.node nome esquerda direita) arvore totais
        (c :: resto)).visitadas = [Mestre.Sala.node nome esquerda direita] ∨
    ∃ destino arv tot,
      (destino = Mestre.Sala.node nome esquerda direita
        ∨ destino ∈ (Mestre.Sala.node nome esquerda direita).filhas) ∧
      Mestre.explorarSalasLaco (Mestre.Sala.node nome esquerda direita) arvore totais
          (c :: resto)
        = (Mestre.explorarSalasLaco destino arv tot resto).apos
            (Mestre.Sala.node nome esquerda direita) := by
  by_cases he : c = 'e' ∨ c = 'E'
  · refine Or.inr ⟨_, _, _, ?_, Mestre.passo_esquerda _ _ _ _ _ _ _ he⟩
    split_ifs with h
    · exact Or.inr ((Mestre.mem_filhas _ _ _ _).2 ⟨h, Or.inl rfl⟩)
    · exact Or.inl rfl
  · by_cases hd : c = 'd' ∨ c = 'D'
    · refine Or.inr ⟨_, _, _, ?_, Mestre.passo_direita _ _ _ _ _ _ _ hd⟩
      split_ifs with h
      · exact Or.inr ((Mestre.mem_filhas _ _ _ _).2 ⟨h, Or.inr rfl⟩)
      · exact Or.inl rfl
    · by_cases hs : c = 's' ∨ c = 'S'
      · left
        rw [Mestre.passo_sair _ _ _ _ _ _ _ hs]
      · exact Or.inr ⟨_, _, _, Or.inl rfl, Mestre.passo_invalido _ _ _ _ _ _ _ he hd hs⟩

theorem Mestre.ramos_ne_nil (sala : Mestre.Sala) (hs : sala ≠ Mestre.Sala.nil) :
    sala.ramos ≠ [] := by
  induction sala with
  | nil => exact absurd rfl hs
  | node nome esquerda direita ihe ihd =>
    simp only [Mestre.Sala.ramos]
    split_ifs with h
    · simp
    · by_cases he : esquerda = Mestre.Sala.nil
      · have hd : direita ≠ Mestre.Sala.nil := fun hd => h ⟨he, hd⟩
        simp [ihd hd]
      · simp [ihe he]

theorem Mestre.head_ramos (sala : Mestre.Sala) (ramo : List Mestre.Sala)
    (h : ramo ∈ sala.ramos) : ramo.head? = some sala := by
  cases sala with
  | nil => simp [Mestre.Sala.ramos] at h
  | node nome esquerda direita =>
    simp only [Mestre.Sala.ramos] at h
    split_ifs at h
    · simp only [List.mem_singleton] at h
      rw [h]; rfl
    · obtain ⟨r, -, rfl⟩ := List.mem_map.1 h
      rfl

theorem Mestre.length_ramos (sala : Mestre.Sala) (ramo : List Mestre.Sala)
    (h : ramo ∈ sala.ramos) : ramo.length ≤ sala.niveis := by
  induction sala generalizing ramo with
  | nil => simp [Mestre.Sala.ramos] at h
  | node nome esquerda direita ihe ihd =>
    simp only [Mestre.Sala.ramos] at h
    simp only [Mestre.Sala.niveis]
    split_ifs at h
    · simp only [List.mem_singleton] at h
      rw [h]; simp
    · obtain ⟨r, hr, rfl⟩ := List.mem_map.1 h
      rcases List.mem_append.1 hr with hr | hr
      · have := ihe r hr
        simp only [List.length_cons]
        omega
      · have := ihd r hr
        simp only [List.length_cons]
        omega

theorem Mestre.chain_ramos (sala : Mestre.Sala) (ramo : List Mestre.Sala)
    (h : ramo ∈ sala.ramos) : List.Chain' (fun a b => b ∈ a.filhas) ramo := by
  induction sala generalizing ramo with
  | nil => simp [Mestre.Sala.ramos] at h
  | node nome esquerda direita ihe ihd =>
    simp only [Mestre.Sala.ramos] at h
    split_ifs at h
    · simp only [List.mem_singleton] at h
      rw [h]; exact List.chain'_singleton _
    · obtain ⟨r, hr, rfl⟩ := List.mem_map.1 h
      rw [List.chain'_cons']
      rcases List.mem_append.1 hr with hr | hr
      · refine ⟨?_, ihe r hr⟩
        intro y hy
        rw [Mestre.head_ramos _ _ hr] at hy
        simp only [Option.mem_def, Option.some.injEq] at hy
        subst hy
        refine (Mestre.mem_filhas _ _ _ _).2 ⟨?_, Or.inl rfl⟩
        intro hnil
        rw [hnil] at hr
        simp [Mestre.Sala.ramos] at hr
      · refine ⟨?_, ihd r hr⟩
        intro y hy
        rw [Mestre.head_ramos _ _ hr] at hy
        simp only [Option.mem_def, Option.some.injEq] at hy
        subst hy
        refine (Mestre.mem_filhas _ _ _ _).2 ⟨?_, Or.inr rfl⟩
        intro hnil
        rw [hnil] at hr
        simp [Mestre.Sala.ramos] at hr

theorem Mestre.mem_ramos_filha (nome : CStr) (esquerda direita destino : Mestre.Sala)
    (ramo : List Mestre.Sala)
    (hd : destino ∈ (Mestre.Sala.node nome esquerda direita).filhas)
    (hr : ramo ∈ destino.ramos) :
    (Mestre.Sala.node nome esquerda direita :: ramo)
      ∈ (Mestre.Sala.node nome esquerda direita).ramos := by
  obtain ⟨hne, hou⟩ := (Mestre.mem_filhas _ _ _ _).1 hd
  have hnl : ¬ (esquerda = Mestre.Sala.nil ∧ direita = Mestre.Sala.nil) := by
    rintro ⟨h1, h2⟩
    rcases hou with h | h
    · exact hne (h.trans h1)
    · exact hne (h.trans h2)
  simp only [Mestre.Sala.ramos, if_neg hnl]
  refine List.mem_map.2 ⟨ramo, ?_, rfl⟩
  rcases hou with h | h
  · exact List.mem_append.2 (Or.inl (h ▸ hr))
  · exact List.mem_append.2 (Or.inr (h ▸ hr))

theorem Mestre.visitadas_num_ramo (comandos : List Char) (sala : Mestre.Sala)
    (arvore : PistaNode) (totais : Int) (hs : sala ≠ Mestre.Sala.nil) :
    ∃ ramo ∈ sala.ramos,
      (∀ s ∈ (Mestre.explorarSalasLaco sala arvore totais comandos).visitadas, s ∈ ramo) ∧
      mudancas (Mestre.explorarSalasLaco sala arvore totais comandos).visitadas + 1
        ≤ ramo.length := by
  have base : ∀ sala : Mestre.Sala, sala ≠ Mestre.Sala.nil →
      ∃ ramo ∈ sala.ramos, (∀ s ∈ [sala], s ∈ ramo) ∧ mudancas [sala] + 1 ≤ ramo.length := by
    intro sala hs
    obtain ⟨ramo, hr⟩ := List.exists_mem_of_ne_nil _ (Mestre.ramos_ne_nil sala hs)
    have hh := Mestre.head_ramos _ _ hr
    refine ⟨ramo, hr, ?_, ?_⟩
    · intro s hsm
      rw [List.mem_singleton.1 hsm]
      exact List.mem_of_mem_head? hh
    · cases ramo with
      | nil => simp at hh
      | cons a t => simp [mudancas]
  induction comandos generalizing sala arvore totais with
  | nil =>
    cases sala with
    | nil => exact absurd rfl hs
    | node nome esquerda direita =>
      simpa [Mestre.explorarSalasLaco] using base _ hs
  | cons c resto ih =>
    cases sala with
    | nil => exact absurd rfl hs
    | node nome esquerda direita =>
      rcases Mestre.passo_forma nome esquerda direita arvore totais c resto with
        hv | ⟨destino, arv, tot, hdest, hrun⟩
      · rw [hv]
        exact base _ hs
      · rw [hrun]
        simp only [Mestre.Exploracao.apos]
        rcases hdest with rfl | hfilha
        · obtain ⟨ramo, hr, hsub, hm⟩ := ih _ arv tot hs
          refine ⟨ramo, hr, ?_, ?_⟩
          · intro s hsm
            rcases List.mem_cons.1 hsm with rfl | hsm
            · exact List.mem_of_mem_head? (Mestre.head_ramos _ _ hr)
            · exact hsub s hsm
          · rw [mudancas_cons_head _ _ (Mestre.head_visitadas_explorarSalasLaco _ _ _ _ _ _)]
            exact hm
        · have hne : destino ≠ Mestre.Sala.nil := ((Mestre.mem_filhas _ _ _ _).1 hfilha).1
          obtain ⟨ramo, hr, hsub, hm⟩ := ih destino arv tot hne
          refine ⟨_ :: ramo, Mestre.mem_ramos_filha _ _ _ _ _ hfilha hr, ?_, ?_⟩
          · intro s hsm
            rcases List.mem_cons.1 hsm with rfl | hsm
            · exact List.mem_cons_self _ _
            · exact List.mem_cons_of_mem _ (hsub s hsm)
          · have := mudancas_cons_le (Mestre.Sala.node nome esquerda direita)
              (Mestre.explorarSalasLaco destino arv tot resto).visitadas
            simp only [List.length_cons]
            omega

theorem Mestre.chain_visitadas (comandos : List Char) (sala : Mestre.Sala)
    (arvore : PistaNode) (totais : Int) :
    List.Chain' (fun a b => b = a ∨ b ∈ a.filhas)
      (Mestre.explorarSalasLaco sala arvore totais comandos).visitadas := by
  induction comandos generalizing sala arvore totais with
  | nil =>
    cases sala with
    | nil => simp [Mestre.explorarSalasLaco]
    | node nome esquerda direita => simp [Mestre.explorarSalasLaco]
  | cons c resto ih =>
    cases sala with
    | nil => simp [Mestre.explorarSalasLaco]
    | node nome esquerda direita =>
      rcases Mestre.passo_forma nome esquerda direita arvore totais c resto with
        hv | ⟨destino, arv, tot, hdest, hrun⟩
      · rw [hv]; exact List.chain'_singleton _
      · rw [hrun]
        simp only [Mestre.Exploracao.apos]
        rw [List.chain'_cons']
        refine ⟨?_, ih destino arv tot⟩
        intro y hy
        have hne : destino ≠ Mestre.Sala.nil := by
          rcases hdest with rfl | hfilha
          · simp
          · exact ((Mestre.mem_filhas _ _ _ _).1 hfilha).1
        cases destino with
        | nil => exact absurd rfl hne
        | node n2 e2 d2 =>
          rw [Mestre.head_visitadas_explorarSalasLaco] at hy
          simp only [Option.mem_def, Option.some.injEq] at hy
          subst hy
          exact hdest

theorem Aventureiro.mem_filhas_aventureiro (nome pista : CStr) (esquerda direita s : Aventureiro.Sala) :
    s ∈ (Aventureiro.Sala.node nome pista esquerda direita).filhas
      ↔ s ≠ Aventureiro.Sala.nil ∧ (s = esquerda ∨ s = direita) := by
  simp only [Aventureiro.Sala.filhas, List.mem_filter, List.mem_cons, List.mem_singleton,
    List.not_mem_nil, or_false, decide_eq_true_eq]
  tauto

theorem Aventureiro.passo_forma_aventureiro (nome pista : CStr) (esquerda direita : Aventureiro.Sala)
    (arvore : PistaNode) (totais : Int) (c : Char) (resto : List Char) :
    (Aventureiro.explorarSalasComPistasLaco (Aventureiro.Sala.node nome pista esquerda direita) arvore totais
        (c :: resto)).visitadas = [Aventureiro.Sala.node nome pista esquerda direita] ∨
    ∃ destino arv tot,
      (destino = Aventureiro.Sala.node nome pista esquerda direita
        ∨ destino ∈ (Aventureiro.Sala.node nome pista esquerda direita).filhas) ∧
      Aventureiro.explorarSalasComPistasLaco (Aventureiro.Sala.node nome pista esquerda direita) arvore totais
          (c :: resto)
        = (Aventureiro.explorarSalasComPistasLaco destino arv tot resto).apos
            (Aventureiro.Sala.node nome pista esquerda direita) := by
  by_cases he : c = 'e' ∨ c = 'E'
  · refine Or.inr ⟨_, _, _, ?_, Aventureiro.passo_esquerda_aventureiro _ _ _ _ _ _ _ _ he⟩
    split_ifs with h
    · exact Or.inr ((Aventureiro.mem_filhas_aventureiro _ _ _ _ _).2 ⟨h, Or.inl rfl⟩)
    · exact Or.inl rfl
  · by_cases hd : c = 'd' ∨ c = 'D'
    · refine Or.inr ⟨_, _, _, ?_, Aventureiro.passo_direita_aventureiro _ _ _ _ _ _ _ _ hd⟩
      split_ifs with h
      · exact Or.inr ((Aventureiro.mem_filhas_aventureiro _ _ _ _ _).2 ⟨h, Or.inr rfl⟩)
      · exact Or.inl rfl
    · by_cases hs : c = 's' ∨ c = 'S'
      · left
        rw [Aventureiro.passo_sair_aventureiro _ _ _ _ _ _ _ _ hs]
      · exact Or.inr ⟨_, _, _, Or.inl rfl, Aventureiro.passo_invalido_aventureiro _ _ _ _ _ _ _ _ he hd hs⟩

theorem Aventureiro.ramos_ne_nil_aventureiro (sala : Aventureiro.Sala) (hs : sala ≠ Aventureiro.Sala.nil) :
    sala.ramos ≠ [] := by
  induction sala with
  | nil => exact absurd rfl hs
  | node nome pista esquerda direita ihe ihd =>
    simp only [Aventureiro.Sala.ramos]
    split_ifs with h
    · simp
    · by_cases he : esquerda = Aventureiro.Sala.nil
      · have hd : direita ≠ Aventureiro.Sala.nil := fun hd => h ⟨he, hd⟩
        simp [ihd hd]
      · simp [ihe he]

theorem Aventureiro.head_ramos_aventureiro (sala : Aventureiro.Sala) (ramo : List Aventureiro.Sala)
    (h : ramo ∈ sala.ramos) : ramo.head? = some sala := by
  cases sala with
  | nil => simp [Aventureiro.Sala.ramos] at h
  | node nome pista esquerda direita =>
    simp only [Aventureiro.Sala.ramos] at h
    split_ifs at h
    · simp only [List.mem_singleton] at h
      rw [h]; rfl
    · obtain ⟨r, -, rfl⟩ := List.mem_map.1 h
      rfl

theorem Aventureiro.length_ramos_aventureiro (sala : Aventureiro.Sala) (ramo : List Aventureiro.Sala)
    (h : ramo ∈ sala.ramos) : ramo.length ≤ sala.niveis := by
  induction sala generalizing ramo with
  | nil => simp [Aventureiro.Sala.ramos] at h
  | node nome pista esquerda direita ihe ihd =>
    simp only [Aventureiro.Sala.ramos] at h
    simp only [Aventureiro.Sala.niveis]
    split_ifs at h
    · simp only [List.mem_singleton] at h
      rw [h]; simp
    · obtain ⟨r, hr, rfl⟩ := List.mem_map.1 h
      rcases List.mem_append.1 hr with hr | hr
      · have := ihe r hr
        simp only [List.length_cons]
        omega
      · have := ihd r hr
        simp only [List.length_cons]
        omega

theorem Aventureiro.chain_ramos_aventureiro (sala : Aventureiro.Sala) (ramo : List Aventureiro.Sala)
    (h : ramo ∈ sala.ramos) : List.Chain' (fun a b => b ∈ a.filhas) ramo := by
  induction sala generalizing ramo with
  | nil => simp [Aventureiro.Sala.ramos] at h
  | node nome pista esquerda direita ihe ihd =>
    simp only [Aventureiro.Sala.ramos] at h
    split_ifs at h
    · simp only [List.mem_singleton] at h
      rw [h]; exact List.chain'_singleton _
    · obtain ⟨r, hr, rfl⟩ := List.mem_map.1 h
      rw [List.chain'_cons']
      rcases List.mem_append.1 hr with hr | hr
      · refine ⟨?_, ihe r hr⟩
        intro y hy
        rw [Aventureiro.head_ramos_aventureiro _ _ hr] at hy
        simp only [Option.mem_def, Option.some.injEq] at hy
        subst hy
        refine (Aventureiro.mem_filhas_aventureiro _ _ _ _ _).2 ⟨?_, Or.inl rfl⟩
        intro hnil
        rw [hnil] at hr
        simp [Aventureiro.Sala.ramos] at hr
      · refine ⟨?_, ihd r hr⟩
        intro y hy
        rw [Aventureiro.head_ramos_aventureiro _ _ hr] at hy
        simp only [Option.mem_def, Option.some.injEq] at hy
        subst hy
        refine (Aventureiro.mem_filhas_aventureiro _ _ _ _ _).2 ⟨?_, Or.inr rfl⟩
        intro hnil
        rw [hnil] at hr
        simp [Aventureiro.Sala.ramos] at hr

theorem Aventureiro.mem_ramos_filha_aventureiro (nome pista : CStr) (esquerda direita destino : Aventureiro.Sala)
    (ramo : List Aventureiro.Sala)
    (hd : destino ∈ (Aventureiro.Sala.node nome pista esquerda direita).filhas)
    (hr : ramo ∈ destino.ramos) :
    (Aventureiro.Sala.node nome pista esquerda direita :: ramo)
      ∈ (Aventureiro.Sala.node nome pista esquerda direita).ramos := by
  obtain ⟨hne, hou⟩ := (Aventureiro.mem_filhas_aventureiro _ _ _ _ _).1 hd
  have hnl : ¬ (esquerda = Aventureiro.Sala.nil ∧ direita = Aventureiro.Sala.nil) := by
    rintro ⟨h1, h2⟩
    rcases hou with h | h
    · exact hne (h.trans h1)
    · exact hne (h.trans h2)
  simp only [Aventureiro.Sala.ramos, if_neg hnl]
  refine List.mem_map.2 ⟨ramo, ?_, rfl⟩
  rcases hou with h | h
  · exact List.mem_append.2 (Or.inl (h ▸ hr))
  · exact List.mem_append.2 (Or.inr (h ▸ hr))

theorem Aventureiro.visitadas_num_ramo_aventureiro (comandos : List Char) (sala : Aventureiro.Sala)
    (arvore : PistaNode) (totais : Int) (hs : sala ≠ Aventureiro.Sala.nil) :
    ∃ ramo ∈ sala.ramos,
      (∀ s ∈ (Aventureiro.explorarSalasComPistasLaco sala arvore totais comandos).visitadas, s ∈ ramo) ∧
      mudancas (Aventureiro.explorarSalasComPistasLaco sala arvore totais comandos).visitadas + 1
        ≤ ramo.length := by
  have base : ∀ sala : Aventureiro.Sala, sala ≠ Aventureiro.Sala.nil →
      ∃ ramo ∈ sala.ramos, (∀ s ∈ [sala], s ∈ ramo) ∧ mudancas [sala] + 1 ≤ ramo.length := by
    intro sala hs
    obtain ⟨ramo, hr⟩ := List.exists_mem_of_ne_nil _ (Aventureiro.ramos_ne_nil_aventureiro sala hs)
    have hh := Aventureiro.head_ramos_aventureiro _ _ hr
    refine ⟨ramo, hr, ?_, ?_⟩
    · intro s hsm
      rw [List.mem_singleton.1 hsm]
      exact List.mem_of_mem_head? hh
    · cases ramo with
      | nil => simp at hh
      | cons a t => simp [mudancas]
  induction comandos generalizing sala arvore totais with
  | nil =>
    cases sala with
    | nil => exact absurd rfl hs
    | node nome pista esquerda direita =>
      simpa [Aventureiro.explorarSalasComPistasLaco] using base _ hs
  | cons c resto ih =>
    cases sala with
    | nil => exact absurd rfl hs
    | node nome pista esquerda direita =>
      rcases Aventureiro.passo_forma_aventureiro nome pista esquerda direita arvore totais c resto with
        hv | ⟨destino, arv, tot, hdest, hrun⟩
      · rw [hv]
        exact base _ hs
      · rw [hrun]
        simp only [Aventureiro.Exploracao.apos]
        rcases hdest with rfl | hfilha
        · obtain ⟨ramo, hr, hsub, hm⟩ := ih _ arv tot hs
          refine ⟨ramo, hr, ?_, ?_⟩
          · intro s hsm
            rcases List.mem_cons.1 hsm with rfl | hsm
            · exact List.mem_of_mem_head? (Aventureiro.head_ramos_aventureiro _ _ hr)
            · exact hsub s hsm
          · rw [mudancas_cons_head _ _ (Aventureiro.head_visitadas_explorarSalasComPistasLaco _ _ _ _ _ _ _)]
            exact hm
        · have hne : destino ≠ Aventureiro.Sala.nil := ((Aventureiro.mem_filhas_aventureiro _ _ _ _ _).1 hfilha).1
          obtain ⟨ramo, hr, hsub, hm⟩ := ih destino arv tot hne
          refine ⟨_ :: ramo, Aventureiro.mem_ramos_filha_aventureiro _ _ _ _ _ _ hfilha hr, ?_, ?_⟩
          · intro s hsm
            rcases List.mem_cons.1 hsm with rfl | hsm
            · exact List.mem_cons_self _ _
            · exact List.mem_cons_of_mem _ (hsub s hsm)
          · have := mudancas_cons_le (Aventureiro.Sala.node nome pista esquerda direita)
              (Aventureiro.explorarSalasComPistasLaco destino arv tot resto).visitadas
            simp only [List.length_cons]
            omega

theorem Aventureiro.chain_visitadas_aventureiro (comandos : List Char) (sala : Aventureiro.Sala)
    (arvore : PistaNode) (totais : Int) :
    List.Chain' (fun a b => b = a ∨ b ∈ a.filhas)
      (Aventureiro.explorarSalasComPistasLaco sala arvore totais comandos).visitadas := by
  induction comandos generalizing sala arvore totais with
  | nil =>
    cases sala with
    | nil => simp [Aventureiro.explorarSalasComPistasLaco]
    | node nome pista esquerda direita => simp [Aventureiro.explorarSalasComPistasLaco]
  | cons c resto ih =>
    cases sala with
    | nil => simp [Aventureiro.explorarSalasComPistasLaco]
    | node nome pista esquerda direita =>
      rcases Aventureiro.passo_forma_aventureiro nome pista esquerda direita arvore totais c resto with
        hv | ⟨destino, arv, tot, hdest, hrun⟩
      · rw [hv]; exact List.chain'_singleton _
      · rw [hrun]
        simp only [Aventureiro.Exploracao.apos]
        rw [List.chain'_cons']
        refine ⟨?_, ih destino arv tot⟩
        intro y hy
        have hne : destino ≠ Aventureiro.Sala.nil := by
          rcases hdest with rfl | hfilha
          · simp
          · exact ((Aventureiro.mem_filhas_aventureiro _ _ _ _ _).1 hfilha).1
        cases destino with
        | nil => exact absurd rfl hne
        | node n2 p2 e2 d2 =>
          rw [Aventureiro.head_visitadas_explorarSalasComPistasLaco] at hy
          simp only [Option.mem_def, Option.some.injEq] at hy
          subst hy
          exact hdest

theorem Novato.mem_filhas_novato (nome : CStr) (esquerda direita s : Novato.Sala) :
    s ∈ (Novato.Sala.node nome esquerda direita).filhas
      ↔ s ≠ Novato.Sala.nil ∧ (s = esquerda ∨ s = direita) := by
  simp only [Novato.Sala.filhas, List.mem_filter, List.mem_cons, List.mem_singleton,
    List.not_mem_nil, or_false, decide_eq_true_eq]
  tauto

theorem Novato.head_visitadas_explorarSalas (comandos : List Char) (nome : CStr)
    (esquerda direita : Novato.Sala) :
    (Novato.explorarSalas (Novato.Sala.node nome esquerda direita) comandos).visitadas.head?
      = some (Novato.Sala.node nome esquerda direita) := by
  cases comandos with
  | nil =>
    simp only [Novato.explorarSalas]
    split_ifs <;> rfl
  | cons escolha resto =>
    simp only [Novato.explorarSalas]
    split_ifs <;> simp [Novato.Exploracao.apos]

theorem Novato.visitadas_sem_comandos (nome : CStr) (esquerda direita : Novato.Sala) :
    (Novato.explorarSalas (Novato.Sala.node nome esquerda direita) []).visitadas
      = [Novato.Sala.node nome esquerda direita] := by
  simp only [Novato.explorarSalas]
  split_ifs <;> rfl

theorem Novato.passo_forma_novato (nome : CStr) (esquerda direita : Novato.Sala) (c : Char)
    (resto : List Char) :
    (Novato.explorarSalas (Novato.Sala.node nome esquerda direita) (c :: resto)).visitadas
      = [Novato.Sala.node nome esquerda direita] ∨
    ∃ destino,
      (destino = Novato.Sala.node nome esquerda direita
        ∨ destino ∈ (Novato.Sala.node nome esquerda direita).filhas) ∧
      Novato.explorarSalas (Novato.Sala.node nome esquerda direita) (c :: resto)
        = (Novato.explorarSalas destino resto).apos
            (Novato.Sala.node nome esquerda direita) := by
  by_cases hnl : esquerda = Novato.Sala.nil ∧ direita = Novato.Sala.nil
  · left
    obtain ⟨h1, h2⟩ := hnl
    subst h1 h2
    rw [Novato.passo_folha]
  · by_cases he : c = 'e' ∨ c = 'E'
    · refine Or.inr ⟨_, ?_, Novato.passo_esquerda_novato _ _ _ _ _ hnl he⟩
      split_ifs with h
      · exact Or.inr ((Novato.mem_filhas_novato _ _ _ _).2 ⟨h, Or.inl rfl⟩)
      · exact Or.inl rfl
    · by_cases hd : c = 'd' ∨ c = 'D'
      · refine Or.inr ⟨_, ?_, Novato.passo_direita_novato _ _ _ _ _ hnl hd⟩
        split_ifs with h
        · exact Or.inr ((Novato.mem_filhas_novato _ _ _ _).2 ⟨h, Or.inr rfl⟩)
        · exact Or.inl rfl
      · by_cases hs : c = 's' ∨ c = 'S'
        · left
          rw [Novato.passo_sair_novato _ _ _ _ _ hnl hs]
        · exact Or.inr ⟨_, Or.inl rfl, Novato.passo_invalido_novato _ _ _ _ _ hnl he hd hs⟩

theorem Novato.ramos_ne_nil_novato (sala : Novato.Sala) (hs : sala ≠ Novato.Sala.nil) :
    sala.ramos ≠ [] := by
  induction sala with
  | nil => exact absurd rfl hs
  | node nome esquerda direita ihe ihd =>
    simp only [Novato.Sala.ramos]
    split_ifs with h
    · simp
    · by_cases he : esquerda = Novato.Sala.nil
      · have hd : direita ≠ Novato.Sala.nil := fun hd => h ⟨he, hd⟩
        simp [ihd hd]
      · simp [ihe he]

theorem Novato.head_ramos_novato (sala : Novato.Sala) (ramo : List Novato.Sala)
    (h : ramo ∈ sala.ramos) : ramo.head? = some sala := by
  cases sala with
  | nil => simp [Novato.Sala.ramos] at h
  | node nome esquerda direita =>
    simp only [Novato.Sala.ramos] at h
    split_ifs at h
    · simp only [List.mem_singleton] at h
      rw [h]; rfl
    · obtain ⟨r, -, rfl⟩ := List.mem_map.1 h
      rfl

theorem Novato.length_ramos_novato (sala : Novato.Sala) (ramo : List Novato.Sala)
    (h : ramo ∈ sala.ramos) : ramo.length ≤ sala.niveis := by
  induction sala generalizing ramo with
  | nil => simp [Novato.Sala.ramos] at h
  | node nome esquerda direita ihe ihd =>
    simp only [Novato.Sala.ramos] at h
    simp only [Novato.Sala.niveis]
    split_ifs at h
    · simp only [List.mem_singleton] at h
      rw [h]; simp
    · obtain ⟨r, hr, rfl⟩ := List.mem_map.1 h
      rcases List.mem_append.1 hr with hr | hr
      · have := ihe r hr
        simp only [List.length_cons]
        omega
      · have := ihd r hr
        simp only [List.length_cons]
        omega

theorem Novato.chain_ramos_novato (sala : Novato.Sala) (ramo : List Novato.Sala)
    (h : ramo ∈ sala.ramos) : List.Chain' (fun a b => b ∈ a.filhas) ramo := by
  induction sala generalizing ramo with
  | nil => simp [Novato.Sala.ramos] at h
  | node nome esquerda direita ihe ihd =>
    simp only [Novato.Sala.ramos] at h
    split_ifs at h
    · simp only [List.mem_singleton] at h
      rw [h]; exact List.chain'_singleton _
    · obtain ⟨r, hr, rfl⟩ := List.mem_map.1 h
      rw [List.chain'_cons']
      rcases List.mem_append.1 hr with hr | hr
      · refine ⟨?_, ihe r hr⟩
        intro y hy
        rw [Novato.head_ramos_novato _ _ hr] at hy
        simp only [Option.mem_def, Option.some.injEq] at hy
        subst hy
        refine (Novato.mem_filhas_novato _ _ _ _).2 ⟨?_, Or.inl rfl⟩
        intro hnil
        rw [hnil] at hr
        simp [Novato.Sala.ramos] at hr
      · refine ⟨?_, ihd r hr⟩
        intro y hy
        rw [Novato.head_ramos_novato _ _ hr] at hy
        simp only [Option.mem_def, Option.some.injEq] at hy
        subst hy
        refine (Novato.mem_filhas_novato _ _ _ _).2 ⟨?_, Or.inr rfl⟩
        intro hnil
        rw [hnil] at hr
        simp [Novato.Sala.ramos] at hr

theorem Novato.mem_ramos_filha_novato (nome : CStr) (esquerda direita destino : Novato.Sala)
    (ramo : List Novato.Sala)
    (hd : destino ∈ (Novato.Sala.node nome esquerda direita).filhas)
    (hr : ramo ∈ destino.ramos) :
    (Novato.Sala.node nome esquerda direita :: ramo)
      ∈ (Novato.Sala.node nome esquerda direita).ramos := by
  obtain ⟨hne, hou⟩ := (Novato.mem_filhas_novato _ _ _ _).1 hd
  have hnl : ¬ (esquerda = Novato.Sala.nil ∧ direita = Novato.Sala.nil) := by
    rintro ⟨h1, h2⟩
    rcases hou with h | h
    · exact hne (h.trans h1)
    · exact hne (h.trans h2)
  simp only [Novato.Sala.ramos, if_neg hnl]
  refine List.mem_map.2 ⟨ramo, ?_, rfl⟩
  rcases hou with h | h
  · exact List.mem_append.2 (Or.inl (h ▸ hr))
  · exact List.mem_append.2 (Or.inr (h ▸ hr))

theorem Novato.visitadas_num_ramo_novato (comandos : List Char) (sala : Novato.Sala)
    (hs : sala ≠ Novato.Sala.nil) :
    ∃ ramo ∈ sala.ramos,
      (∀ s ∈ (Novato.explorarSalas sala comandos).visitadas, s ∈ ramo) ∧
      mudancas (Novato.explorarSalas sala comandos).visitadas + 1
        ≤ ramo.length := by
  have base : ∀ sala : Novato.Sala, sala ≠ Novato.Sala.nil →
      ∃ ramo ∈ sala.ramos, (∀ s ∈ [sala], s ∈ ramo) ∧ mudancas [sala] + 1 ≤ ramo.length := by
    intro sala hs
    obtain ⟨ramo, hr⟩ := List.exists_mem_of_ne_nil _ (Novato.ramos_ne_nil_novato sala hs)
    have hh := Novato.head_ramos_novato _ _ hr
    refine ⟨ramo, hr, ?_, ?_⟩
    · intro s hsm
      rw [List.mem_singleton.1 hsm]
      exact List.mem_of_mem_head? hh
    · cases ramo with
      | nil => simp at hh
      | cons a t => simp [mudancas]
  induction comandos generalizing sala with
  | nil =>
    cases sala with
    | nil => exact absurd rfl hs
    | node nome esquerda direita =>
      rw [Novato.visitadas_sem_comandos]
      exact base _ hs
  | cons c resto ih =>
    cases sala with
    | nil => exact absurd rfl hs
    | node nome esquerda direita =>
      rcases Novato.passo_forma_novato nome esquerda direita c resto with
        hv | ⟨destino, hdest, hrun⟩
      · rw [hv]
        exact base _ hs
      · rw [hrun]
        simp only [Novato.Exploracao.apos]
        rcases hdest with rfl | hfilha
        · obtain ⟨ramo, hr, hsub, hm⟩ := ih _ hs
          refine ⟨ramo, hr, ?_, ?_⟩
          · intro s hsm
            rcases List.mem_cons.1 hsm with rfl | hsm
            · exact List.mem_of_mem_head? (Novato.head_ramos_novato _ _ hr)
            · exact hsub s hsm
          · rw [mudancas_cons_head _ _ (Novato.head_visitadas_explorarSalas _ _ _ _)]
            exact hm
        · have hne : destino ≠ Novato.Sala.nil := ((Novato.mem_filhas_novato _ _ _ _).1 hfilha).1
          obtain ⟨ramo, hr, hsub, hm⟩ := ih destino hne
          refine ⟨_ :: ramo, Novato.mem_ramos_filha_novato _ _ _ _ _ hfilha hr, ?_, ?_⟩
          · intro s hsm
            rcases List.mem_cons.1 hsm with rfl | hsm
            · exact List.mem_cons_self _ _
            · exact List.mem_cons_of_mem _ (hsub s hsm)
          · have := mudancas_cons_le (Novato.Sala.node nome esquerda direita)
              (Novato.explorarSalas destino resto).visitadas
            simp only [List.length_cons]
            omega

theorem Novato.chain_visitadas_novato (comandos : List Char) (sala : Novato.Sala) :
    List.Chain' (fun a b => b = a ∨ b ∈ a.filhas)
      (Novato.explorarSalas sala comandos).visitadas := by
  induction comandos generalizing sala with
  | nil =>
    cases sala with
    | nil => simp [Novato.explorarSalas]
    | node nome esquerda direita =>
      rw [Novato.visitadas_sem_comandos]
      exact List.chain'_singleton _
  | cons c resto ih =>
    cases sala with
    | nil => simp [Novato.explorarSalas]
    | node nome esquerda direita =>
      rcases Novato.passo_forma_novato nome esquerda direita c resto with
        hv | ⟨destino, hdest, hrun⟩
      · rw [hv]; exact List.chain'_singleton _
      · rw [hrun]
        simp only [Novato.Exploracao.apos]
        rw [List.chain'_cons']
        refine ⟨?_, ih destino⟩
        intro y hy
        have hne : destino ≠ Novato.Sala.nil := by
          rcases hdest with rfl | hfilha
          · simp
          · exact ((Novato.mem_filhas_novato _ _ _ _).1 hfilha).1
        cases destino with
        | nil => exact absurd rfl hne
        | node n2 e2 d2 =>
          rw [Novato.head_visitadas_explorarSalas] at hy
          simp only [Option.mem_def, Option.some.injEq] at hy
          subst hy
          exact hdest

theorem Mestre.niveis_filha (a b : Mestre.Sala) (h : b ∈ a.filhas) : b.niveis < a.niveis := by
  cases a with
  | nil => simp [Mestre.Sala.filhas] at h
  | node nome esquerda direita =>
    obtain ⟨-, hou⟩ := (Mestre.mem_filhas _ _ _ _ ).1 h
    simp only [Mestre.Sala.niveis]
    rcases hou with rfl | rfl <;> omega

theorem Mestre.caminho_da_exploracao (comandos : List Char) (sala : Mestre.Sala)
    (arvore : PistaNode) (totais : Int) :
    List.Chain' (fun a b => b = a ∨ b ∈ a.filhas)
      (Mestre.explorarSalasLaco sala arvore totais comandos).visitadas ∧
    (sala = Mestre.Sala.nil ∨ ∃ ramo ∈ sala.ramos,
      ramo.head? = some sala ∧ List.Chain' (fun a b => b ∈ a.filhas) ramo ∧
      (∀ s ∈ (Mestre.explorarSalasLaco sala arvore totais comandos).visitadas, s ∈ ramo) ∧
      ramo.length ≤ sala.altura + 1) ∧
    (Mestre.explorarSalasLaco sala arvore totais comandos).visitadas.dedup.length ≤ sala.altura + 1 ∧
    mudancas (Mestre.explorarSalasLaco sala arvore totais comandos).visitadas ≤ sala.altura := by
  refine ⟨Mestre.chain_visitadas comandos sala _ _, ?_⟩
  by_cases hs : sala = Mestre.Sala.nil
  · subst hs
    refine ⟨Or.inl rfl, ?_, ?_⟩
    · cases comandos <;> simp [Mestre.explorarSalasLaco]
    · cases comandos <;> simp [Mestre.explorarSalasLaco, mudancas]
  · obtain ⟨ramo, hr, hsub, hm⟩ := Mestre.visitadas_num_ramo comandos sala arvore totais hs
    have hl := Mestre.length_ramos sala ramo hr
    have hd := length_dedup_le_of_subset _ _ hsub
    refine ⟨Or.inr ⟨ramo, hr, Mestre.head_ramos _ _ hr, Mestre.chain_ramos _ _ hr, hsub, ?_⟩, ?_, ?_⟩
    · simp only [Mestre.Sala.altura]; omega
    · simp only [Mestre.Sala.altura]; omega
    · simp only [Mestre.Sala.altura]; omega

theorem Aventureiro.niveis_filha_aventureiro (a b : Aventureiro.Sala) (h : b ∈ a.filhas) : b.niveis < a.niveis := by
  cases a with
  | nil => simp [Aventureiro.Sala.filhas] at h
  | node nome pista esquerda direita =>
    obtain ⟨-, hou⟩ := (Aventureiro.mem_filhas_aventureiro _ _ _ _ _ ).1 h
    simp only [Aventureiro.Sala.niveis]
    rcases hou with rfl | rfl <;> omega

theorem Aventureiro.caminho_da_exploracao_aventureiro (comandos : List Char) (sala : Aventureiro.Sala)
    (arvore : PistaNode) (totais : Int) :
    List.Chain' (fun a b => b = a ∨ b ∈ a.filhas)
      (Aventureiro.explorarSalasComPistasLaco sala arvore totais comandos).visitadas ∧
    (sala = Aventureiro.Sala.nil ∨ ∃ ramo ∈ sala.ramos,
      ramo.head? = some sala ∧ List.Chain' (fun a b => b ∈ a.filhas) ramo ∧
      (∀ s ∈ (Aventureiro.explorarSalasComPistasLaco sala arvore totais comandos).visitadas, s ∈ ramo) ∧
      ramo.length ≤ sala.altura + 1) ∧
    (Aventureiro.explorarSalasComPistasLaco sala arvore totais comandos).visitadas.dedup.length ≤ sala.altura + 1 ∧
    mudancas (Aventureiro.explorarSalasComPistasLaco sala arvore totais comandos).visitadas ≤ sala.altura := by
  refine ⟨Aventureiro.chain_visitadas_aventureiro comandos sala _ _, ?_⟩
  by_cases hs : sala = Aventureiro.Sala.nil
  · subst hs
    refine ⟨Or.inl rfl, ?_, ?_⟩
    · cases comandos <;> simp [Aventureiro.explorarSalasComPistasLaco]
    · cases comandos <;> simp [Aventureiro.explorarSalasComPistasLaco, mudancas]
  · obtain ⟨ramo, hr, hsub, hm⟩ := Aventureiro.visitadas_num_ramo_aventureiro comandos sala arvore totais hs
    have hl := Aventureiro.length_ramos_aventureiro sala ramo hr
    have hd := length_dedup_le_of_subset _ _ hsub
    refine ⟨Or.inr ⟨ramo, hr, Aventureiro.head_ramos_aventureiro _ _ hr, Aventureiro.chain_ramos_aventureiro _ _ hr, hsub, ?_⟩, ?_, ?_⟩
    · simp only [Aventureiro.Sala.altura]; omega
    · simp only [Aventureiro.Sala.altura]; omega
    · simp only [Aventureiro.Sala.altura]; omega

theorem Novato.niveis_filha_novato (a b : Novato.Sala) (h : b ∈ a.filhas) : b.niveis < a.niveis := by
  cases a with
  | nil => simp [Novato.Sala.filhas] at h
  | node nome esquerda direita =>
    obtain ⟨-, hou⟩ := (Novato.mem_filhas_novato _ _ _ _ ).1 h
    simp only [Novato.Sala.niveis]
    rcases hou with rfl | rfl <;> omega

theorem Novato.caminho_da_exploracao_novato (comandos : List Char) (sala : Novato.Sala) :
    List.Chain' (fun a b => b = a ∨ b ∈ a.filhas)
      (Novato.explorarSalas sala comandos).visitadas ∧
    (sala = Novato.Sala.nil ∨ ∃ ramo ∈ sala.ramos,
      ramo.head? = some sala ∧ List.Chain' (fun a b => b ∈ a.filhas) ramo ∧
      (∀ s ∈ (Novato.explorarSalas sala comandos).visitadas, s ∈ ramo) ∧
      ramo.length ≤ sala.altura + 1) ∧
    (Novato.explorarSalas sala comandos).visitadas.dedup.length ≤ sala.altura + 1 ∧
    mudancas (Novato.explorarSalas sala comandos).visitadas ≤ sala.altura := by
  refine ⟨Novato.chain_visitadas_novato comandos sala, ?_⟩
  by_cases hs : sala = Novato.Sala.nil
  · subst hs
    refine ⟨Or.inl rfl, ?_, ?_⟩
    · cases comandos <;> simp [Novato.explorarSalas]
    · cases comandos <;> simp [Novato.explorarSalas, mudancas]
  · obtain ⟨ramo, hr, hsub, hm⟩ := Novato.visitadas_num_ramo_novato comandos sala hs
    have hl := Novato.length_ramos_novato sala ramo hr
    have hd := length_dedup_le_of_subset _ _ hsub
    refine ⟨Or.inr ⟨ramo, hr, Novato.head_ramos_novato _ _ hr, Novato.chain_ramos_novato _ _ hr, hsub, ?_⟩, ?_, ?_⟩
    · simp only [Novato.Sala.altura]; omega
    · simp only [Novato.Sala.altura]; omega
    · simp only [Novato.Sala.altura]; omega

/-- C20: in the three programs, for every mansion and every finite sequence of
commands, each room of the list of current rooms is the room before it or one
of its children (a room strictly lower in the mansion); all the rooms of the
run lie on one way down from the root (`ramo`), so the run has at most
`altura + 1` distinct rooms and at most `altura` changes of room.  A room is
identified with the subtree hanging from it; the rooms of one way down are
pairwise different subtrees, their `niveis` being strictly decreasing. -/
theorem exploracao_desce (comandos : List Char) (arvore : PistaNode) (totais : Int)
    (salaM : Mestre.Sala) (salaA : Aventureiro.Sala) (salaN : Novato.Sala) :
    (List.Chain' (fun a b => b = a ∨ b ∈ a.filhas)
        (Mestre.explorarSalasLaco salaM arvore totais comandos).visitadas ∧
      (salaM = Mestre.Sala.nil ∨ ∃ ramo ∈ salaM.ramos,
        ramo.head? = some salaM ∧ List.Chain' (fun a b => b ∈ a.filhas) ramo ∧
        (∀ s ∈ (Mestre.explorarSalasLaco salaM arvore totais comandos).visitadas, s ∈ ramo) ∧
        ramo.length ≤ salaM.altura + 1) ∧
      (Mestre.explorarSalasLaco salaM arvore totais comandos).visitadas.dedup.length ≤ salaM.altura + 1 ∧
      mudancas (Mestre.explorarSalasLaco salaM arvore totais comandos).visitadas ≤ salaM.altura ∧
      (∀ a b : Mestre.Sala, b ∈ a.filhas → b.niveis < a.niveis)) ∧
    (List.Chain' (fun a b => b = a ∨ b ∈ a.filhas)
        (Aventureiro.explorarSalasComPistasLaco salaA arvore totais comandos).visitadas ∧
      (salaA = Aventureiro.Sala.nil ∨ ∃ ramo ∈ salaA.ramos,
        ramo.head? = some salaA ∧ List.Chain' (fun a b => b ∈ a.filhas) ramo ∧
        (∀ s ∈ (Aventureiro.explorarSalasComPistasLaco salaA arvore totais comandos).visitadas, s ∈ ramo) ∧
        ramo.length ≤ salaA.altura + 1) ∧
      (Aventureiro.explorarSalasComPistasLaco salaA arvore totais comandos).visitadas.dedup.length ≤ salaA.altura + 1 ∧
      mudancas (Aventureiro.explorarSalasComPistasLaco salaA arvore totais comandos).visitadas ≤ salaA.altura ∧
      (∀ a b : Aventureiro.Sala, b ∈ a.filhas → b.niveis < a.niveis)) ∧
    (List.Chain' (fun a b => b = a ∨ b ∈ a.filhas)
        (Novato.explorarSalas salaN comandos).visitadas ∧
      (salaN = Novato.Sala.nil ∨ ∃ ramo ∈ salaN.ramos,
        ramo.head? = some salaN ∧ List.Chain' (fun a b => b ∈ a.filhas) ramo ∧
        (∀ s ∈ (Novato.explorarSalas salaN comandos).visitadas, s ∈ ramo) ∧
        ramo.length ≤ salaN.altura + 1) ∧
      (Novato.explorarSalas salaN comandos).visitadas.dedup.length ≤ salaN.altura + 1 ∧
      mudancas (Novato.explorarSalas salaN comandos).visitadas ≤ salaN.altura ∧
      (∀ a b : Novato.Sala, b ∈ a.filhas → b.niveis < a.niveis)) := by
  obtain ⟨m1, m2, m3, m4⟩ := Mestre.caminho_da_exploracao comandos salaM arvore totais
  obtain ⟨a1, a2, a3, a4⟩ := Aventureiro.caminho_da_exploracao_aventureiro comandos salaA arvore totais
  obtain ⟨n1, n2, n3, n4⟩ := Novato.caminho_da_exploracao_novato comandos salaN
  exact ⟨⟨m1, m2, m3, m4, Mestre.niveis_filha⟩, ⟨a1, a2, a3, a4, Aventureiro.niveis_filha_aventureiro⟩,
    ⟨n1, n2, n3, n4, Novato.niveis_filha_novato⟩⟩

/-! ## What a run of mestre can prove -/

theorem Mestre.ordenada_explorarSalasLaco (comandos : List Char) (sala : Mestre.Sala)
    (arvore : PistaNode) (totais : Int) (h : ordenada arvore) :
    ordenada (Mestre.explorarSalasLaco sala arvore totais comandos).arvorePistas := by
  induction comandos generalizing sala arvore totais with
  | nil =>
    cases sala with
    | nil => simpa [Mestre.explorarSalasLaco] using h
    | node nome esquerda direita =>
      simp only [Mestre.explorarSalasLaco]
      split_ifs
      · exact ordenada_inserirPista _ _ h
      · exact h
  | cons escolha resto ih =>
    cases sala with
    | nil => simpa [Mestre.explorarSalasLaco] using h
    | node nome esquerda direita =>
      have hent : ordenada (if strlen (Mestre.obterPistaDaSala nome) > 0
          then inserirPista arvore (Mestre.obterPistaDaSala nome) else arvore) := by
        split_ifs
        · exact ordenada_inserirPista _ _ h
        · exact h
      simp only [Mestre.explorarSalasLaco]
      generalize (if strlen (Mestre.obterPistaDaSala nome) > 0
        then inserirPista arvore (Mestre.obterPistaDaSala nome) else arvore) = arv at hent ⊢
      generalize (if strlen (Mestre.obterPistaDaSala nome) > 0
        then totais + 1 else totais) = tot
      split_ifs <;> first
        | exact hent
        | exact ih _ _ _ hent

theorem Mestre.contagem_le_ramo (comandos : List Char) (sala : Mestre.Sala)
    (hash : TabelaHash) (alvo : CStr) (hs : sala ≠ Mestre.Sala.nil) :
    ∃ ramo ∈ sala.ramos,
      (∀ s ∈ (Mestre.explorarSalas sala PistaNode.nil comandos).visitadas, s ∈ ramo) ∧
      contarPistasPorSuspeito (Mestre.explorarSalas sala PistaNode.nil comandos).arvorePistas
          hash alvo
        ≤ (((ramo.map (fun s => encontrarSuspeito hash (Mestre.obterPistaDaSala s.nomeDe))).count
            (some alvo) : Nat) : Int) := by
  obtain ⟨ramo, hr, hsub, -⟩ := Mestre.visitadas_num_ramo comandos sala PistaNode.nil 0 hs
  refine ⟨ramo, hr, hsub, ?_⟩
  have ho : ordenada (Mestre.explorarSalas sala PistaNode.nil comandos).arvorePistas :=
    Mestre.ordenada_explorarSalasLaco comandos sala PistaNode.nil 0 trivial
  have hsubset : exibirPistas (Mestre.explorarSalas sala PistaNode.nil comandos).arvorePistas
      ⊆ ramo.map (fun s => Mestre.obterPistaDaSala s.nomeDe) := by
    intro x hx
    rcases (Mestre.mem_arvore_explorarSalasLaco comandos sala PistaNode.nil 0 x).1 hx with
      hx | ⟨s, hsv, hsx, -⟩
    · simp [exibirPistas] at hx
    · exact List.mem_map.2 ⟨s, hsub s hsv, hsx⟩
  have hle := (List.subperm_of_subset (nodup_exibirPistas _ ho) hsubset).countP_le
    (fun c => decide (encontrarSuspeito hash c = some alvo))
  have hcount : (ramo.map (fun s => encontrarSuspeito hash
        (Mestre.obterPistaDaSala s.nomeDe))).count (some alvo)
      = (ramo.map (fun s => Mestre.obterPistaDaSala s.nomeDe)).countP
          (fun c => decide (encontrarSuspeito hash c = some alvo)) := by
    rw [List.count, List.countP_map, List.countP_map]
    apply List.countP_congr
    intro s _
    simp
  rw [contarPistasPorSuspeito_eq_countP, hcount]
  exact_mod_cast hle

theorem Mestre.suspeitos_nos_ramos :
    (∀ ramo ∈ Mestre.mainHall.ramos,
      ∀ v ∈ ramo.map (fun s => encontrarSuspeito Mestre.mainHash
          (Mestre.obterPistaDaSala s.nomeDe)),
        (ramo.map (fun s => encontrarSuspeito Mestre.mainHash
          (Mestre.obterPistaDaSala s.nomeDe))).count v ≤ 1 ∨ v = some (cstr "Jardineiro")
          ∨ v = none) ∧
    (∀ ramo ∈ Mestre.mainHall.ramos,
      (ramo.map (fun s => encontrarSuspeito Mestre.mainHash
          (Mestre.obterPistaDaSala s.nomeDe))).count (some (cstr "Jardineiro")) ≤ 2) ∧
    (∀ ramo ∈ Mestre.mainHall.ramos,
      ∃ nome ∈ Mestre.nomesDasSalas Mestre.mainHall, ∀ s ∈ ramo, s.nomeDe ≠ nome) := by
  refine ⟨by decide, by decide, by decide⟩

theorem Mestre.contagem_na_mansao (comandos : List Char) (acusado : CStr) :
    contarPistasPorSuspeito
        (Mestre.explorarSalas Mestre.mainHall PistaNode.nil comandos).arvorePistas
        Mestre.mainHash acusado ≤ 1 ∨ acusado = cstr "Jardineiro" := by
  obtain ⟨ramo, hr, -, hle⟩ := Mestre.contagem_le_ramo comandos Mestre.mainHall Mestre.mainHash
    acusado (by decide)
  by_cases hmem : some acusado ∈ ramo.map (fun s => encontrarSuspeito Mestre.mainHash
      (Mestre.obterPistaDaSala s.nomeDe))
  · rcases Mestre.suspeitos_nos_ramos.1 ramo hr _ hmem with h | h | h
    · left
      have : (((ramo.map (fun s => encontrarSuspeito Mestre.mainHash
          (Mestre.obterPistaDaSala s.nomeDe))).count (some acusado) : Nat) : Int) ≤ 1 := by
        exact_mod_cast h
      omega
    · right
      exact Option.some.inj h
    · exact absurd h (by simp)
  · left
    rw [List.count_eq_zero_of_not_mem hmem] at hle
    simp only [Nat.cast_zero] at hle
    omega

/-- C19: in the mestre program as configured in `main`, after any finite
sequence of commands the count of `contarPistasPorSuspeito` on the clue store
is at most 1 for every accused name other than "Jardineiro" (in particular
for "Advogado", "Mordomo" and "Cozinheiro") and at most 2 for "Jardineiro",
which the commands Right, Right, Right reach; hence the final judgement can
only be "caso resolvido" for "Jardineiro", and every run leaves some room of
the mansion unvisited. -/
theorem so_jardineiro_resolve (comandos : List Char) (acusado : CStr) (entrada : List Nat) :
    (contarPistasPorSuspeito
        (Mestre.explorarSalas Mestre.mainHall PistaNode.nil comandos).arvorePistas
        Mestre.mainHash acusado ≤ 1 ∨ acusado = cstr "Jardineiro") ∧
    contarPistasPorSuspeito
        (Mestre.explorarSalas Mestre.mainHall PistaNode.nil comandos).arvorePistas
        Mestre.mainHash (cstr "Advogado") ≤ 1 ∧
    contarPistasPorSuspeito
        (Mestre.explorarSalas Mestre.mainHall PistaNode.nil comandos).arvorePistas
        Mestre.mainHash (cstr "Mordomo") ≤ 1 ∧
    contarPistasPorSuspeito
        (Mestre.explorarSalas Mestre.mainHall PistaNode.nil comandos).arvorePistas
        Mestre.mainHash (cstr "Cozinheiro") ≤ 1 ∧
    contarPistasPorSuspeito
        (Mestre.explorarSalas Mestre.mainHall PistaNode.nil comandos).arvorePistas
        Mestre.mainHash (cstr "Jardineiro") ≤ 2 ∧
    contarPistasPorSuspeito
        (Mestre.explorarSalas Mestre.mainHall PistaNode.nil ['d', 'd', 'd']).arvorePistas
        Mestre.mainHash (cstr "Jardineiro") = 2 ∧
    verificarSuspeitoFinal
        (Mestre.explorarSalas Mestre.mainHall PistaNode.nil ['d', 'd', 'd']).arvorePistas
        Mestre.mainHash (10 :: cstr "Jardineiro" ++ [10])
      = ⟨Veredito.casoResolvido, some (cstr "Jardineiro"), some 2, []⟩ ∧
    ((verificarSuspeitoFinal
        (Mestre.explorarSalas Mestre.mainHall PistaNode.nil comandos).arvorePistas
        Mestre.mainHash entrada).veredito ≠ Veredito.casoResolvido
      ∨ (lerAcusado entrada).1 = cstr "Jardineiro") ∧
    (∃ nome ∈ Mestre.nomesDasSalas Mestre.mainHall,
      ∀ s ∈ (Mestre.explorarSalas Mestre.mainHall PistaNode.nil comandos).visitadas,
        s.nomeDe ≠ nome) := by
  have hA := Mestre.contagem_na_mansao comandos (cstr "Advogado")
  have hM := Mestre.contagem_na_mansao comandos (cstr "Mordomo")
  have hC := Mestre.contagem_na_mansao comandos (cstr "Cozinheiro")
  refine ⟨Mestre.contagem_na_mansao comandos acusado, ?_, ?_, ?_, ?_, by decide, by decide,
    ?_, ?_⟩
  · exact hA.resolve_right (by decide)
  · exact hM.resolve_right (by decide)
  · exact hC.resolve_right (by decide)
  · obtain ⟨ramo, hr, -, hle⟩ := Mestre.contagem_le_ramo comandos Mestre.mainHall
      Mestre.mainHash (cstr "Jardineiro") (by decide)
    have h2 := Mestre.suspeitos_nos_ramos.2.1 ramo hr
    have : (((ramo.map (fun s => encontrarSuspeito Mestre.mainHash
        (Mestre.obterPistaDaSala s.nomeDe))).count (some (cstr "Jardineiro")) : Nat) : Int)
        ≤ 2 := by
      exact_mod_cast h2
    omega
  · rcases Mestre.contagem_na_mansao comandos (lerAcusado entrada).1 with h | h
    · left
      cases ht : (Mestre.explorarSalas Mestre.mainHall PistaNode.nil comandos).arvorePistas with
      | nil => simp [verificarSuspeitoFinal]
      | node p e d =>
        rw [ht] at h
        rw [verificarSuspeitoFinal_node]
        show (if _ then _ else _) ≠ _
        split_ifs with h1 h2
        · omega
        · simp
        · simp
    · exact Or.inr h
  · obtain ⟨ramo, hr, hsub, -⟩ := Mestre.visitadas_num_ramo comandos Mestre.mainHall
      PistaNode.nil 0 (by decide)
    obtain ⟨nome, hn, hfora⟩ := Mestre.suspeitos_nos_ramos.2.2 ramo hr
    exact ⟨nome, hn, fun s hsv => hfora s (hsub s hsv)⟩

/-! ## The count after one more clue -/

theorem inserirPista_presente (t : PistaNode) (c : CStr) (h : ordenada t)
    (hc : c ∈ exibirPistas t) : inserirPista t c = t := by
  induction t with
  | nil => simp [exibirPistas] at hc
  | node chave esquerda direita ihe ihd =>
    obtain ⟨hl, hr, he, hd⟩ := h
    simp only [exibirPistas, List.mem_append, List.mem_cons] at hc
    by_cases h1 : strcmp c chave < 0
    · have hce : c ∈ exibirPistas esquerda := by
        rcases hc with hc | hc | hc
        · exact hc
        · rw [hc, strcmp_self] at h1
          omega
        · have h2 := (strcmp_pos_iff c chave).2 (hr c hc)
          omega
      simp only [inserirPista, h1, if_true, ihe he hce]
    · by_cases h2 : strcmp c chave > 0
      · have hcd : c ∈ exibirPistas direita := by
          rcases hc with hc | hc | hc
          · have h3 := hl c hc
            omega
          · rw [hc, strcmp_self] at h2
            omega
          · exact hc
        simp only [inserirPista, h1, h2, if_true, if_false, ihd hd hcd]
      · simp only [inserirPista, h1, h2, if_false]

theorem contarPistasPorSuspeito_inserirPista_ausente (t : PistaNode) (hash : TabelaHash)
    (a c : CStr) (hc : c ∉ exibirPistas t) :
    contarPistasPorSuspeito (inserirPista t c) hash a
      = contarPistasPorSuspeito t hash a
        + (if encontrarSuspeito hash c = some a then 1 else 0) := by
  induction t with
  | nil =>
    simp only [inserirPista, contarPistasPorSuspeito, contador_eq]
    omega
  | node chave esquerda direita ihe ihd =>
    simp only [exibirPistas, List.mem_append, List.mem_cons, not_or] at hc
    obtain ⟨hce, hck, hcd⟩ := hc
    by_cases h1 : strcmp c chave < 0
    · simp only [inserirPista, h1, if_true, contarPistasPorSuspeito, ihe hce]
      omega
    · by_cases h2 : strcmp c chave > 0
      · simp only [inserirPista, h1, h2, if_true, if_false, contarPistasPorSuspeito, ihd hcd]
        omega
      · exfalso
        have h0 : strcmp c chave = 0 := by omega
        exact hck ((strcmp_eq_zero_iff c chave).1 h0)

/-- C21: on a clue store that satisfies the search-tree ordering, inserting the
clue `c` raises the count for the accused name `a` by one when `c` was not
stored and `encontrarSuspeito` finds for `c` a suspect equal to `a`, and
leaves the count unchanged otherwise: when `c` has no entry in the index, when
`c` resolves to another suspect, and when `c` was already stored. -/
theorem contarPistasPorSuspeito_inserirPista (t : PistaNode) (hash : TabelaHash) (a c : CStr)
    (h : ordenada t) :
    (c ∉ exibirPistas t → encontrarSuspeito hash c = some a →
      contarPistasPorSuspeito (inserirPista t c) hash a
        = contarPistasPorSuspeito t hash a + 1) ∧
    (encontrarSuspeito hash c = none →
      contarPistasPorSuspeito (inserirPista t c) hash a = contarPistasPorSuspeito t hash a) ∧
    (encontrarSuspeito hash c ≠ some a →
      contarPistasPorSuspeito (inserirPista t c) hash a = contarPistasPorSuspeito t hash a) ∧
    (c ∈ exibirPistas t →
      contarPistasPorSuspeito (inserirPista t c) hash a = contarPistasPorSuspeito t hash a) ∧
    contarPistasPorSuspeito (inserirPista t c) hash a
      = contarPistasPorSuspeito t hash a
        + (if c ∉ exibirPistas t ∧ encontrarSuspeito hash c = some a then 1 else 0) := by
  have hpres : c ∈ exibirPistas t →
      contarPistasPorSuspeito (inserirPista t c) hash a
        = contarPistasPorSuspeito t hash a := by
    intro hc
    rw [inserirPista_presente t c h hc]
  have hdif : encontrarSuspeito hash c ≠ some a →
      contarPistasPorSuspeito (inserirPista t c) hash a
        = contarPistasPorSuspeito t hash a := by
    intro hne
    by_cases hc : c ∈ exibirPistas t
    · exact hpres hc
    · rw [contarPistasPorSuspeito_inserirPista_ausente t hash a c hc, if_neg hne]
      omega
  refine ⟨?_, ?_, hdif, hpres, ?_⟩
  · intro hc hs
    rw [contarPistasPorSuspeito_inserirPista_ausente t hash a c hc, if_pos hs]
  · intro hn
    exact hdif (by rw [hn]; simp)
  · by_cases hc : c ∈ exibirPistas t
    · rw [hpres hc]
      simp [hc]
    · rw [contarPistasPorSuspeito_inserirPista_ausente t hash a c hc]
      simp [hc]

/-- Witness of C21: the store holds the clue of the hall; the clue of "Estufa"
(suspect "Jardineiro" in the index of `main`) raises the count for
"Jardineiro" from 1 to 2, and the unindexed clue "x" leaves it at 1. -/
theorem contarPistasPorSuspeito_inserirPista_witness :
    ordenada (PistaNode.node (cstr "Pegadas molhadas no tapete") PistaNode.nil PistaNode.nil) ∧
    contarPistasPorSuspeito
        (inserirPista
          (PistaNode.node (cstr "Pegadas molhadas no tapete") PistaNode.nil PistaNode.nil)
          (cstr "Planta venenosa cultivada")) Mestre.mainHash (cstr "Jardineiro")
      = contarPistasPorSuspeito
          (PistaNode.node (cstr "Pegadas molhadas no tapete") PistaNode.nil PistaNode.nil)
          Mestre.mainHash (cstr "Jardineiro") + 1 ∧
    contarPistasPorSuspeito
        (inserirPista
          (PistaNode.node (cstr "Pegadas molhadas no tapete") PistaNode.nil PistaNode.nil)
          (cstr "x")) Mestre.mainHash (cstr "Jardineiro")
      = contarPistasPorSuspeito
          (PistaNode.node (cstr "Pegadas molhadas no tapete") PistaNode.nil PistaNode.nil)
          Mestre.mainHash (cstr "Jardineiro") ∧
    contarPistasPorSuspeito
        (PistaNode.node (cstr "Pegadas molhadas no tapete") PistaNode.nil PistaNode.nil)
        Mestre.mainHash (cstr "Jardineiro") = 1 :=
  ⟨by decide,
    (contarPistasPorSuspeito_inserirPista _ Mestre.mainHash (cstr "Jardineiro")
      (cstr "Planta venenosa cultivada") (by decide)).1 (by decide) (by decide),
    (contarPistasPorSuspeito_inserirPista _ Mestre.mainHash (cstr "Jardineiro")
      (cstr "x") (by decide)).2.1 (by decide),
    by decide⟩

/-! ## The buckets of the suspect index -/

theorem getD_inserirNaHash (hash : TabelaHash) (pista suspeito : CStr) (i : Nat)
    (hlen : hash.tabela.length = TAMANHO_HASH) :
    (inserirNaHash hash pista suspeito).tabela.getD i HashNode.nil
      = if funcaoHash pista = i
        then HashNode.node pista suspeito (hash.tabela.getD i HashNode.nil)
        else hash.tabela.getD i HashNode.nil := by
  have hi : funcaoHash pista < hash.tabela.length := by
    rw [hlen]; exact funcaoHash_lt pista
  simp only [inserirNaHash]
  rw [getD_set_tabela _ _ _ _ hi]
  split_ifs with h
  · rw [h]
  · rfl

theorem entradas_inserirTodasNaHash (hash : TabelaHash) (pares : List (CStr × CStr)) (i : Nat)
    (hlen : hash.tabela.length = TAMANHO_HASH) :
    ((inserirTodasNaHash hash pares).tabela.getD i HashNode.nil).entradas
      = (pares.filter (fun par => decide (funcaoHash par.1 = i))).reverse
        ++ (hash.tabela.getD i HashNode.nil).entradas := by
  induction pares generalizing hash with
  | nil => simp [inserirTodasNaHash]
  | cons par resto ih =>
    have hl : (inserirNaHash hash par.1 par.2).tabela.length = TAMANHO_HASH := by
      rw [length_inserirNaHash]; exact hlen
    have h2 : inserirTodasNaHash hash (par :: resto)
        = inserirTodasNaHash (inserirNaHash hash par.1 par.2) resto := rfl
    rw [h2, ih _ hl, getD_inserirNaHash _ _ _ _ hlen]
    by_cases h : funcaoHash par.1 = i
    · simp [h, HashNode.entradas, List.filter_cons]
    · simp [h, List.filter_cons]

theorem entradas_inicializarHash (i : Nat) :
    (inicializarHash.tabela.getD i HashNode.nil).entradas = [] := by
  have h : inicializarHash.tabela.getD i HashNode.nil = HashNode.nil := by
    simp only [inicializarHash, List.getD_eq_getElem?_getD, List.getElem?_replicate]
    split_ifs <;> rfl
  rw [h]; rfl

/-- C22: in every table built from `inicializarHash` by `inserirNaHash` calls,
the chain of bucket `i` holds exactly the inserted entries whose key hashes to
`i`, the newest first, so every entry of the chain has `funcaoHash` of its key
equal to `i`; one more `inserirNaHash` call puts the new cell at the head of
the chain of the bucket of its key and leaves every other chain, and the rest
of that chain, as they were. -/
theorem invariante_dos_baldes (pares : List (CStr × CStr)) (i : Nat) (pista suspeito : CStr) :
    (∀ par ∈ ((inserirTodasNaHash inicializarHash pares).tabela.getD i HashNode.nil).entradas,
      funcaoHash par.1 = i) ∧
    ((inserirTodasNaHash inicializarHash pares).tabela.getD i HashNode.nil).entradas
      = (pares.filter (fun par => decide (funcaoHash par.1 = i))).reverse ∧
    (inserirNaHash (inserirTodasNaHash inicializarHash pares) pista suspeito).tabela.getD i
        HashNode.nil
      = (if funcaoHash pista = i
        then HashNode.node pista suspeito
          ((inserirTodasNaHash inicializarHash pares).tabela.getD i HashNode.nil)
        else (inserirTodasNaHash inicializarHash pares).tabela.getD i HashNode.nil) ∧
    (inserirNaHash (inserirTodasNaHash inicializarHash pares) pista suspeito).tabela.length
      = 20 ∧
    (inserirTodasNaHash inicializarHash pares).tabela.length = 20 := by
  have hlen : (inserirTodasNaHash inicializarHash pares).tabela.length = TAMANHO_HASH := by
    rw [length_inserirTodasNaHash]; rfl
  have he : ((inserirTodasNaHash inicializarHash pares).tabela.getD i HashNode.nil).entradas
      = (pares.filter (fun par => decide (funcaoHash par.1 = i))).reverse := by
    have h0 : inicializarHash.tabela.length = TAMANHO_HASH := by simp [inicializarHash]
    rw [entradas_inserirTodasNaHash inicializarHash pares i h0, entradas_inicializarHash,
      List.append_nil]
  refine ⟨?_, he, getD_inserirNaHash _ _ _ _ hlen, ?_, hlen⟩
  · intro par hp
    rw [he, List.mem_reverse, List.mem_filter] at hp
    simpa using hp.2
  · rw [length_inserirNaHash]; exact hlen

/-! ## The hash function in 32 bits -/

theorem funcaoHashLaco_hash32 (chave : CStr) (hash : Nat) (h : ∀ b ∈ chave, b < 128) :
    funcaoHashLaco hash chave
      = chave.foldl (fun h byte => (h * 31 + byte) % 2 ^ 32) hash := by
  induction chave generalizing hash with
  | nil => rfl
  | cons c cs ih =>
    have hc : c < 128 := h c (List.mem_cons_self _ _)
    have hcs : ∀ b ∈ cs, b < 128 := fun b hb => h b (List.mem_cons_of_mem _ hb)
    simp only [funcaoHashLaco, List.foldl_cons, charParaUnsigned_ascii c hc]
    exact ih _ hcs

theorem foldl_polinomioSoma (chave : CStr) (hash : Nat) :
    chave.foldl (fun hashValue byteValue => hashValue * 31 + byteValue) hash
      = hash * 31 ^ chave.length + polinomioSoma chave := by
  induction chave generalizing hash with
  | nil => simp [polinomioSoma]
  | cons c cs ih =>
    simp only [List.foldl_cons, ih, polinomioSoma, List.length_cons]
    ring

theorem polinomio31_eq_polinomioSoma (chave : CStr) :
    polinomio31 chave = polinomioSoma chave := by
  rw [polinomio31, foldl_polinomioSoma]
  simp

/-- C23: for every key of ASCII bytes `funcaoHash` returns `H mod 20`, where
`H` comes from iterating `h := (h * 31 + byte) mod 2 ^ 32` from 0 (and `H` is
the exact polynomial modulo `2 ^ 32`); some ASCII key gets a bucket different
from the exact polynomial reduced modulo 20, `2 ^ 32` not being a multiple
of 20. -/
theorem funcaoHash_32_bits (chave : CStr) (h : ∀ b ∈ chave, b < 128) :
    funcaoHash chave = hash32 chave % 20 ∧
    hash32 chave = polinomioSoma chave % 2 ^ 32 ∧
    (∃ k : CStr, (∀ b ∈ k, b < 128) ∧ funcaoHash k ≠ polinomioSoma k % 20) ∧
    ¬ (20 ∣ 2 ^ 32) := by
  have h1 : funcaoHashLaco 0 chave = hash32 chave := funcaoHashLaco_hash32 chave 0 h
  have h2 := funcaoHashLaco_ascii chave 0 h
  simp only [Nat.zero_mod] at h2
  refine ⟨?_, ?_, ⟨cstr "zzzzzzz", by decide, by decide⟩, by decide⟩
  · rw [funcaoHash, h1]; rfl
  · rw [← h1, h2, ← polinomio31, polinomio31_eq_polinomioSoma]

/-- Witness of C23 on the ASCII key "zzzzzzz": the code returns bucket 18, the
exact polynomial modulo 20 is 14. -/
theorem funcaoHash_32_bits_witness :
    (∀ b ∈ cstr "zzzzzzz", b < 128) ∧
    funcaoHash (cstr "zzzzzzz") = hash32 (cstr "zzzzzzz") % 20 ∧
    hash32 (cstr "zzzzzzz") % 20 = 18 ∧ polinomioSoma (cstr "zzzzzzz") % 20 = 14 :=
  ⟨by decide, (funcaoHash_32_bits (cstr "zzzzzzz") (by decide)).1, by decide, by decide⟩

/-! ## Rooms without exits in novato -/

theorem Novato.parado_na_folha (comandos extra : List Char) (sala : Novato.Sala) (n : CStr)
    (h : (Novato.explorarSalas sala comandos).salaAtual
      = Novato.Sala.node n Novato.Sala.nil Novato.Sala.nil) :
    Novato.explorarSalas sala (comandos ++ extra)
      = ⟨Novato.Sala.node n Novato.Sala.nil Novato.Sala.nil, true,
          (Novato.explorarSalas sala comandos).resto ++ extra,
          (Novato.explorarSalas sala comandos).visitadas⟩ := by
  induction comandos generalizing sala with
  | nil =>
    cases sala with
    | nil => simp [Novato.explorarSalas] at h
    | node nome esquerda direita =>
      by_cases hnl : esquerda = Novato.Sala.nil ∧ direita = Novato.Sala.nil
      · obtain ⟨h1, h2⟩ := hnl
        subst h1 h2
        rw [Novato.passo_folha] at h ⊢
        rw [Novato.passo_folha]
        simp only [Novato.Sala.node.injEq, and_self, and_true] at h
        subst h
        rfl
      · exfalso
        simp only [Novato.explorarSalas, if_neg hnl, Novato.Sala.node.injEq] at h
        exact hnl ⟨h.2.1, h.2.2⟩
  | cons c resto ih =>
    cases sala with
    | nil => simp [Novato.explorarSalas] at h
    | node nome esquerda direita =>
      by_cases hnl : esquerda = Novato.Sala.nil ∧ direita = Novato.Sala.nil
      · obtain ⟨h1, h2⟩ := hnl
        subst h1 h2
        rw [Novato.passo_folha] at h ⊢
        rw [Novato.passo_folha]
        simp only [Novato.Sala.node.injEq, and_self, and_true] at h
        subst h
        rfl
      · rw [List.cons_append]
        by_cases he : c = 'e' ∨ c = 'E'
        · rw [Novato.passo_esquerda_novato nome esquerda direita c resto hnl he] at h ⊢
          rw [Novato.passo_esquerda_novato nome esquerda direita c (resto ++ extra) hnl he]
          rw [ih _ h]
          rfl
        · by_cases hd : c = 'd' ∨ c = 'D'
          · rw [Novato.passo_direita_novato nome esquerda direita c resto hnl hd] at h ⊢
            rw [Novato.passo_direita_novato nome esquerda direita c (resto ++ extra) hnl hd]
            rw [ih _ h]
            rfl
          · by_cases hs : c = 's' ∨ c = 'S'
            · exfalso
              rw [Novato.passo_sair_novato _ _ _ _ _ hnl hs] at h
              simp only [Novato.Sala.node.injEq] at h
              exact hnl ⟨h.2.1, h.2.2⟩
            · rw [Novato.passo_invalido_novato nome esquerda direita c resto hnl he hd hs] at h ⊢
              rw [Novato.passo_invalido_novato nome esquerda direita c (resto ++ extra) hnl
                he hd hs]
              rw [ih _ h]
              rfl

theorem Mestre.le_um_comando (nome : CStr) (esquerda direita : Mestre.Sala)
    (arvore : PistaNode) (totais : Int) (c : Char) (resto : List Char) :
    (Mestre.explorarSalasLaco (Mestre.Sala.node nome esquerda direita) arvore totais
      (c :: resto)).resto.length ≤ resto.length := by
  have geral : ∀ (comandos : List Char) (sala : Mestre.Sala) (arv : PistaNode) (tot : Int),
      (Mestre.explorarSalasLaco sala arv tot comandos).resto.length ≤ comandos.length := by
    intro comandos
    induction comandos with
    | nil =>
      intro sala arv tot
      cases sala <;> simp [Mestre.explorarSalasLaco]
    | cons x xs ih =>
      intro sala arv tot
      cases sala with
      | nil => simp [Mestre.explorarSalasLaco]
      | node n e d =>
        by_cases he : x = 'e' ∨ x = 'E'
        · rw [Mestre.passo_esquerda _ _ _ _ _ _ _ he]
          exact Nat.le_succ_of_le (ih _ _ _)
        · by_cases hd : x = 'd' ∨ x = 'D'
          · rw [Mestre.passo_direita _ _ _ _ _ _ _ hd]
            exact Nat.le_succ_of_le (ih _ _ _)
          · by_cases hs : x = 's' ∨ x = 'S'
            · rw [Mestre.passo_sair _ _ _ _ _ _ _ hs]
              exact Nat.le_succ _
            · rw [Mestre.passo_invalido _ _ _ _ _ _ _ he hd hs]
              exact Nat.le_succ_of_le (ih _ _ _)
  by_cases he : c = 'e' ∨ c = 'E'
  · rw [Mestre.passo_esquerda _ _ _ _ _ _ _ he]
    exact geral _ _ _ _
  · by_cases hd : c = 'd' ∨ c = 'D'
    · rw [Mestre.passo_direita _ _ _ _ _ _ _ hd]
      exact geral _ _ _ _
    · by_cases hs : c = 's' ∨ c = 'S'
      · rw [Mestre.passo_sair _ _ _ _ _ _ _ hs]
      · rw [Mestre.passo_invalido _ _ _ _ _ _ _ he hd hs]
        exact geral _ _ _ _

theorem Aventureiro.le_um_comando_aventureiro (nome pista : CStr) (esquerda direita : Aventureiro.Sala)
    (arvore : PistaNode) (totais : Int) (c : Char) (resto : List Char) :
    (Aventureiro.explorarSalasComPistasLaco (Aventureiro.Sala.node nome pista esquerda direita) arvore totais
      (c :: resto)).resto.length ≤ resto.length := by
  have geral : ∀ (comandos : List Char) (sala : Aventureiro.Sala) (arv : PistaNode) (tot : Int),
      (Aventureiro.explorarSalasComPistasLaco sala arv tot comandos).resto.length ≤ comandos.length := by
    intro comandos
    induction comandos with
    | nil =>
      intro sala arv tot
      cases sala <;> simp [Aventureiro.explorarSalasComPistasLaco]
    | cons x xs ih =>
      intro sala arv tot
      cases sala with
      | nil => simp [Aventureiro.explorarSalasComPistasLaco]
      | node n p e d =>
        by_cases he : x = 'e' ∨ x = 'E'
        · rw [Aventureiro.passo_esquerda_aventureiro _ _ _ _ _ _ _ _ he]
          exact Nat.le_succ_of_le (ih _ _ _)
        · by_cases hd : x = 'd' ∨ x = 'D'
          · rw [Aventureiro.passo_direita_aventureiro _ _ _ _ _ _ _ _ hd]
            exact Nat.le_succ_of_le (ih _ _ _)
          · by_cases hs : x = 's' ∨ x = 'S'
            · rw [Aventureiro.passo_sair_aventureiro _ _ _ _ _ _ _ _ hs]
              exact Nat.le_succ _
            · rw [Aventureiro.passo_invalido_aventureiro _ _ _ _ _ _ _ _ he hd hs]
              exact Nat.le_succ_of_le (ih _ _ _)
  by_cases he : c = 'e' ∨ c = 'E'
  · rw [Aventureiro.passo_esquerda_aventureiro _ _ _ _ _ _ _ _ he]
    exact geral _ _ _ _
  · by_cases hd : c = 'd' ∨ c = 'D'
    · rw [Aventureiro.passo_direita_aventureiro _ _ _ _ _ _ _ _ hd]
      exact geral _ _ _ _
    · by_cases hs : c = 's' ∨ c = 'S'
      · rw [Aventureiro.passo_sair_aventureiro _ _ _ _ _ _ _ _ hs]
      · rw [Aventureiro.passo_invalido_aventureiro _ _ _ _ _ _ _ _ he hd hs]
        exact geral _ _ _ _

/-- C24: novato stops by itself at a room without exits. Started at such a
room it ends at once and leaves every command unread; in any run, once the
current room is a room without exits the loop has ended and commands added
after that are left unread. In mestre and aventureiro the loop reads a command
at every room, rooms without exits included. -/
theorem novato_para_na_folha (comandos extra resto : List Char) (c : Char)
    (salaN : Novato.Sala) (n nome pista : CStr) (arvore : PistaNode) (totais : Int)
    (esqM dirM : Mestre.Sala) (esqA dirA : Aventureiro.Sala) :
    Novato.explorarSalas (Novato.Sala.node n Novato.Sala.nil Novato.Sala.nil) comandos
      = ⟨Novato.Sala.node n Novato.Sala.nil Novato.Sala.nil, true, comandos,
          [Novato.Sala.node n Novato.Sala.nil Novato.Sala.nil]⟩ ∧
    ((Novato.explorarSalas salaN comandos).salaAtual
        = Novato.Sala.node n Novato.Sala.nil Novato.Sala.nil →
      (Novato.explorarSalas salaN comandos).finalizou = true ∧
      Novato.explorarSalas salaN (comandos ++ extra)
        = ⟨Novato.Sala.node n Novato.Sala.nil Novato.Sala.nil, true,
            (Novato.explorarSalas salaN comandos).resto ++ extra,
            (Novato.explorarSalas salaN comandos).visitadas⟩) ∧
    (Mestre.explorarSalasLaco (Mestre.Sala.node nome esqM dirM) arvore totais
      (c :: resto)).resto.length ≤ resto.length ∧
    (Aventureiro.explorarSalasComPistasLaco (Aventureiro.Sala.node nome pista esqA dirA) arvore
      totais (c :: resto)).resto.length ≤ resto.length ∧
    (Novato.explorarSalas Novato.mainHall ['e', 'e', 'd', 'x', 's']).resto = ['x', 's'] ∧
    (Novato.explorarSalas Novato.mainHall ['e', 'e', 'd', 'x', 's']).salaAtual.nomeDe
      = cstr "Sala de Leitura" ∧
    (Mestre.explorarSalas Mestre.mainHall PistaNode.nil ['e', 'e', 'd', 'x', 's']).resto = [] ∧
    (Aventureiro.explorarSalasComPistas Aventureiro.mainHall PistaNode.nil
      ['e', 'e', 'd', 'x', 's']).resto = [] := by
  refine ⟨Novato.passo_folha n comandos, ?_, Mestre.le_um_comando _ _ _ _ _ _ _,
    Aventureiro.le_um_comando_aventureiro _ _ _ _ _ _ _ _, by decide, by decide, by decide,
    by decide⟩
  intro h
  refine ⟨?_, Novato.parado_na_folha comandos extra salaN n h⟩
  have h0 := Novato.parado_na_folha comandos [] salaN n h
  rw [List.append_nil] at h0
  rw [h0]

/-! ## Aventureiro and mestre explore alike -/

theorem Aventureiro.paraMestre_eq_nil (s : Aventureiro.Sala) :
    s.paraMestre = Mestre.Sala.nil ↔ s = Aventureiro.Sala.nil := by
  cases s <;> simp [Aventureiro.Sala.paraMestre]

theorem Aventureiro.paraMestre_destino (a b : Aventureiro.Sala) :
    (if a ≠ Aventureiro.Sala.nil then a else b).paraMestre
      = if a.paraMestre ≠ Mestre.Sala.nil then a.paraMestre else b.paraMestre := by
  by_cases h : a = Aventureiro.Sala.nil
  · simp [h, Aventureiro.Sala.paraMestre]
  · have h2 : a.paraMestre ≠ Mestre.Sala.nil := fun hh =>
      h ((Aventureiro.paraMestre_eq_nil a).1 hh)
    simp [h, h2]

theorem Aventureiro.coerente_destino (a b : Aventureiro.Sala) (ha : a.coerente)
    (hb : b.coerente) : (if a ≠ Aventureiro.Sala.nil then a else b).coerente := by
  split_ifs
  · exact ha
  · exact hb

theorem Aventureiro.paraMestre_explorar (comandos : List Char) (sala : Aventureiro.Sala)
    (arvore : PistaNode) (totais : Int) (h : sala.coerente) :
    (Aventureiro.explorarSalasComPistasLaco sala arvore totais comandos).paraMestre
      = Mestre.explorarSalasLaco sala.paraMestre arvore totais comandos := by
  induction comandos generalizing sala arvore totais with
  | nil =>
    cases sala with
    | nil => rfl
    | node nome pista esquerda direita =>
      obtain ⟨hp, -, -⟩ := h
      subst hp
      rfl
  | cons c resto ih =>
    cases sala with
    | nil => rfl
    | node nome pista esquerda direita =>
      have hsala := h
      obtain ⟨hp, he, hd⟩ := h
      subst hp
      have hpm : (Aventureiro.Sala.node nome (Mestre.obterPistaDaSala nome) esquerda
          direita).paraMestre
          = Mestre.Sala.node nome esquerda.paraMestre direita.paraMestre := rfl
      rw [hpm]
      by_cases hce : c = 'e' ∨ c = 'E'
      · rw [Aventureiro.passo_esquerda_aventureiro _ _ _ _ _ _ _ _ hce,
          Mestre.passo_esquerda _ _ _ _ _ _ _ hce, ← hpm,
          ← Aventureiro.paraMestre_destino, ← ih _ _ _
            (Aventureiro.coerente_destino _ _ he hsala)]
        rfl
      · by_cases hcd : c = 'd' ∨ c = 'D'
        · rw [Aventureiro.passo_direita_aventureiro _ _ _ _ _ _ _ _ hcd,
            Mestre.passo_direita _ _ _ _ _ _ _ hcd, ← hpm,
            ← Aventureiro.paraMestre_destino, ← ih _ _ _
              (Aventureiro.coerente_destino _ _ hd hsala)]
          rfl
        · by_cases hcs : c = 's' ∨ c = 'S'
          · rw [Aventureiro.passo_sair_aventureiro _ _ _ _ _ _ _ _ hcs,
              Mestre.passo_sair _ _ _ _ _ _ _ hcs]
            rfl
          · rw [Aventureiro.passo_invalido_aventureiro _ _ _ _ _ _ _ _ hce hcd hcs,
              Mestre.passo_invalido _ _ _ _ _ _ _ hce hcd hcs, ← hpm, ← ih _ _ _ hsala]
            rfl

/-- C25: on a mansion of aventureiro in which every room stores in `pista` the
clue that `obterPistaDaSala` of mestre gives for its name, and for every finite
sequence of commands, `explorarSalasComPistas` and `explorarSalas` of mestre
(on the same rooms), started with an empty clue store, end at the same room
with the same clue tree and the same counter `pistasTotais`; they also agree
on whether the loop ended, on the commands left and on the rooms visited. -/
theorem aventureiro_equivale_a_mestre (comandos : List Char) (sala : Aventureiro.Sala)
    (h : sala.coerente) :
    (Aventureiro.explorarSalasComPistas sala PistaNode.nil comandos).salaAtual.paraMestre
      = (Mestre.explorarSalas sala.paraMestre PistaNode.nil comandos).salaAtual ∧
    (Aventureiro.explorarSalasComPistas sala PistaNode.nil comandos).arvorePistas
      = (Mestre.explorarSalas sala.paraMestre PistaNode.nil comandos).arvorePistas ∧
    (Aventureiro.explorarSalasComPistas sala PistaNode.nil comandos).pistasTotais
      = (Mestre.explorarSalas sala.paraMestre PistaNode.nil comandos).pistasTotais ∧
    (Aventureiro.explorarSalasComPistas sala PistaNode.nil comandos).paraMestre
      = Mestre.explorarSalas sala.paraMestre PistaNode.nil comandos := by
  have hr := Aventureiro.paraMestre_explorar comandos sala PistaNode.nil 0 h
  refine ⟨?_, ?_, ?_, hr⟩
  · exact congrArg Mestre.Exploracao.salaAtual hr
  · exact congrArg Mestre.Exploracao.arvorePistas hr
  · exact congrArg Mestre.Exploracao.pistasTotais hr

/-- Witness of C25: a hall with the clue of the table, leading to "Sala de
Estar" (no clue) and "Cozinha" (its clue), explored with the commands d, x. -/
theorem aventureiro_equivale_a_mestre_witness :
    (Aventureiro.Sala.node (cstr "Hall de Entrada") (cstr "Pegadas molhadas no tapete")
      (Aventureiro.Sala.node (cstr "Sala de Estar") (cstr "") Aventureiro.Sala.nil
        Aventureiro.Sala.nil)
      (Aventureiro.Sala.node (cstr "Cozinha") (cstr "Faca desaparecida do bloco")
        Aventureiro.Sala.nil Aventureiro.Sala.nil)).coerente ∧
    (Aventureiro.explorarSalasComPistas
      (Aventureiro.Sala.node (cstr "Hall de Entrada") (cstr "Pegadas molhadas no tapete")
        (Aventureiro.Sala.node (cstr "Sala de Estar") (cstr "") Aventureiro.Sala.nil
          Aventureiro.Sala.nil)
        (Aventureiro.Sala.node (cstr "Cozinha") (cstr "Faca desaparecida do bloco")
          Aventureiro.Sala.nil Aventureiro.Sala.nil))
      PistaNode.nil ['d', 'x']).pistasTotais
      = (Mestre.explorarSalas
          (Aventureiro.Sala.node (cstr "Hall de Entrada") (cstr "Pegadas molhadas no tapete")
            (Aventureiro.Sala.node (cstr "Sala de Estar") (cstr "") Aventureiro.Sala.nil
              Aventureiro.Sala.nil)
            (Aventureiro.Sala.node (cstr "Cozinha") (cstr "Faca desaparecida do bloco")
              Aventureiro.Sala.nil Aventureiro.Sala.nil)).paraMestre
          PistaNode.nil ['d', 'x']).pistasTotais ∧
    (Mestre.explorarSalas
      (Mestre.Sala.node (cstr "Hall de Entrada")
        (Mestre.Sala.node (cstr "Sala de Estar") Mestre.Sala.nil Mestre.Sala.nil)
        (Mestre.Sala.node (cstr "Cozinha") Mestre.Sala.nil Mestre.Sala.nil))
      PistaNode.nil ['d', 'x']).pistasTotais = 3 :=
  ⟨by decide, (aventureiro_equivale_a_mestre ['d', 'x'] _ (by decide)).2.2.1, by decide⟩

theorem Aventureiro.mainHall_nao_coerente : ¬ Aventureiro.mainHall.coerente := by
  decide

/-! ## The configuration of mestre -/

theorem Mestre.obterPistaDaSala_configurada (nomeSala : CStr) :
    Mestre.obterPistaDaSala nomeSala = [] ∨
    Mestre.obterPistaDaSala nomeSala ∈ Mestre.mainPares.map (fun par => par.1) := by
  simp only [Mestre.obterPistaDaSala]
  split_ifs <;> decide

theorem Mestre.mainPares_resolvidos :
    ∀ par ∈ Mestre.mainPares, encontrarSuspeito Mestre.mainHash par.1 = some par.2 := by
  decide

/-- C26: the eight keys that `main` of mestre inserts into the suspect index
are pairwise distinct and each is looked up to the suspect it was inserted
with; for every room name the clue given by `obterPistaDaSala` is empty or one
of those keys, for which `encontrarSuspeito` returns a suspect; hence every
clue collected by `explorarSalas`, in any mansion and for any commands, has a
suspect in the index. -/
theorem cada_pista_um_suspeito (nomeSala x : CStr) (sala : Mestre.Sala)
    (comandos : List Char) :
    Mestre.mainHash = inserirTodasNaHash inicializarHash Mestre.mainPares ∧
    Mestre.mainPares.length = 8 ∧
    (Mestre.mainPares.map (fun par => par.1)).Nodup ∧
    (∀ par ∈ Mestre.mainPares, encontrarSuspeito Mestre.mainHash par.1 = some par.2) ∧
    (Mestre.obterPistaDaSala nomeSala = [] ∨
      (Mestre.obterPistaDaSala nomeSala ∈ Mestre.mainPares.map (fun par => par.1) ∧
        ∃ suspeito, encontrarSuspeito Mestre.mainHash (Mestre.obterPistaDaSala nomeSala)
          = some suspeito)) ∧
    (x ∈ exibirPistas (Mestre.explorarSalas sala PistaNode.nil comandos).arvorePistas →
      ∃ suspeito, encontrarSuspeito Mestre.mainHash x = some suspeito) := by
  have hres : ∀ k, k ∈ Mestre.mainPares.map (fun par => par.1) →
      ∃ suspeito, encontrarSuspeito Mestre.mainHash k = some suspeito := by
    intro k hk
    obtain ⟨par, hp, rfl⟩ := List.mem_map.1 hk
    exact ⟨par.2, Mestre.mainPares_resolvidos par hp⟩
  refine ⟨by decide, rfl, by decide, Mestre.mainPares_resolvidos, ?_, ?_⟩
  · rcases Mestre.obterPistaDaSala_configurada nomeSala with h | h
    · exact Or.inl h
    · exact Or.inr ⟨h, hres _ h⟩
  · intro hx
    rcases (Mestre.mem_arvore_explorarSalasLaco comandos sala PistaNode.nil 0 x).1 hx with
      hx | ⟨s, -, hsx, hlen⟩
    · simp [exibirPistas] at hx
    · rcases Mestre.obterPistaDaSala_configurada s.nomeDe with h | h
      · rw [hsx] at h
        rw [h] at hlen
        simp [strlen] at hlen
      · rw [hsx] at h
        exact hres x h

end DetectiveQuest
